import Mathlib

/-!
# DeadEnds: the validator, the partitioner, the name index, the family edits
and sequences

A shallow embedding of `Database/validate.c`, `Partition/main.c`, `Database/nameindex.c`
and `Operations/addtofamily.c`, and a model of the Sequence operations that
`Interp/Includes/sequence.h` declares.

* A `GNode` is one Gedcom line: key, tag, value and the chain of its children
  (`child` followed by `sibling` links, kept as a list in document order).
  The parent back-reference carries no information of its own and is left out.
* Record roots are owned by an index that holds one root per key, so two roots
  taken from the index are the same node exactly when their keys are equal:
  the pointer comparison `person == child` is modelled by `sameNode`.
* `printf` output is not modelled, but the reads the `debugging` traces make are:
  `debugging` is set, so validatePerson reads `NAME(person)->value` and, for every child
  of a FAMC family, `NAME(child)->value`; a record without a NAME line makes that a read
  through a null pointer. A validator function returns `none` when the call has no
  defined result: such a read, or a `sprintf` past the end of its buffer.
* The validator functions return the database after the call next to the log, so that
  what they do to the records and the indexes can be stated.
* An `ErrorLog` is the list of its entries, oldest first.
-/

namespace DeadEnds

/-! ## Node trees -/

/-- One Gedcom node: `key`, `tag`, `value`, and the list of children. -/
inductive GNode where
  | mk (key : Option String) (tag : String) (value : Option String) (children : List GNode)

namespace GNode

/-- Record key of a node (`node->key`), `none` for a null key. -/
def key : GNode → Option String
  | mk k _ _ _ => k

/-- Tag of a node (`node->tag`). -/
def tag : GNode → String
  | mk _ t _ _ => t

/-- Value of a node (`node->value`), `none` for a null value. -/
def value : GNode → Option String
  | mk _ _ v _ => v

/-- Children of a node: `node->child` and then the `sibling` chain. -/
def children : GNode → List GNode
  | mk _ _ _ c => c

end GNode

mutual
/-- Number of nodes of the tree under (and including) a node. -/
def countNodes : GNode → Nat
  | .mk _ _ _ cs => 1 + countNodesList cs
/-- Number of nodes of a forest. -/
def countNodesList : List GNode → Nat
  | [] => 0
  | c :: cs => countNodes c + countNodesList cs
end

/-- Pointer equality of two record roots that live in an index: one root per key. -/
def sameNode (a b : GNode) : Bool :=
  a.key == b.key

/-- Pointer equality `a == b` where `b` may be null. -/
def sameNodeOpt (a : GNode) (b : Option GNode) : Bool :=
  match b with
  | none => false
  | some b => sameNode a b

/-- Modelled from the spec: `findTag` (gnode.c) is absent from src. The first node of a
sibling chain that has the tag (§4.1 `childrenWithTag`, first item). -/
def findTag (nodes : List GNode) (tag : String) : Option GNode :=
  nodes.find? (fun n => n.tag == tag)

/-! ## Errors -/

/-- Modelled from the spec: the `ErrorType` declaration (errors.h) is absent from src. The
error kinds of §7; the validator and the partitioner only create `linkageError`. -/
inductive ErrorType where
  | syntaxError
  | linkageError
  | structuralError
  | duplicateKey
  | internalInvariant
  deriving DecidableEq, Repr

/-- An error log entry: kind, segment, line and message (§6 error log format). -/
structure Error where
  type : ErrorType
  fileName : String
  lineNumber : Int
  message : String
  deriving DecidableEq, Repr

/-- The log is the list of its entries in the order they were added. -/
abbrev ErrorLog := List Error

/-- The constructor `createError(type, fileName, lineNumber, message)`. -/
def createError (type : ErrorType) (fileName : String) (lineNumber : Int) (message : String) :
    Error :=
  { type := type, fileName := fileName, lineNumber := lineNumber, message := message }

/-- The operation `addErrorToLog(log, error)`: append at the end. -/
def addErrorToLog (errorLog : ErrorLog) (error : Error) : ErrorLog :=
  errorLog ++ [error]

/-- The operation `lengthList(log)`. -/
def lengthList (errorLog : ErrorLog) : Nat :=
  errorLog.length

/-! ## Record index and database -/

/-- An element of a record index: the root and the line where the record started. -/
structure RecordIndexEl where
  root : GNode
  lineNumber : Int

/-- A record index, in its (stable) iteration order. -/
abbrev RecordIndex := List RecordIndexEl

/-- The part of `Database` that validate.c reads. -/
structure Database where
  personIndex : RecordIndex
  familyIndex : RecordIndex
  lastSegment : String

/-- The call `searchHashTable(index, key)` on a record index: the element with that key. -/
def searchHashTable (index : RecordIndex) (key : Option String) : Option RecordIndexEl :=
  match key with
  | none => none
  | some k => index.find? (fun el => el.root.key == some k)

/-- Modelled from the spec: `keyToPerson` is absent from src. The person root a key
resolves to (§4.2 `lookup`), `none` when it does not resolve. -/
def keyToPerson (key : Option String) (database : Database) : Option GNode :=
  (searchHashTable database.personIndex key).map (fun el => el.root)

/-- Modelled from the spec: `keyToFamily` is absent from src. The family root a key
resolves to (§4.2 `lookup`), `none` when it does not resolve. -/
def keyToFamily (key : Option String) (database : Database) : Option GNode :=
  (searchHashTable database.familyIndex key).map (fun el => el.root)

/-- The function `personLineNumber` of validate.c. -/
def personLineNumber (person : GNode) (database : Database) : Int :=
  match searchHashTable database.personIndex person.key with
  | none => 0
  | some element => element.lineNumber

/-! ## Lineage iterators -/

/-- A direct child line of a record together with `countNodesBefore` of that line. -/
structure LineAt where
  node : GNode
  before : Nat

/-- Modelled from the spec: `countNodesBefore` (gnode.c) is absent from src. A record's
nodes are its Gedcom lines in document order (§3 Node), so the nodes before a direct
child are the root and the trees of the earlier children. `before` is the count for the
first node of `nodes`. -/
def linesFrom (before : Nat) (nodes : List GNode) : List LineAt :=
  match nodes with
  | [] => []
  | n :: rest => { node := n, before := before } :: linesFrom (before + countNodes n) rest

/-- The direct children of a record that carry the tag, each with its `countNodesBefore`
(§4.1 `childrenWithTag`). -/
def linesWithTag (root : GNode) (tag : String) : List LineAt :=
  (linesFrom 1 root.children).filter (fun l => l.node.tag == tag)

/-- One step of `FORFAMCS` / `FORFAMSS`: the line, its value and the family it resolves
to (null when it does not resolve). -/
structure FamLink where
  family : Option GNode
  key : Option String
  line : LineAt

/-- Modelled from the spec: the `FORFAMCS` macro is absent from src (§4.4 `famcsOf`). One
step per FAMC line of the person, in document order; validatePerson tests `!family`
in the loop body, so a line that does not resolve is a step with a null family. -/
def FORFAMCS (person : GNode) (database : Database) : List FamLink :=
  (linesWithTag person "FAMC").map
    (fun l => { family := keyToFamily l.node.value database, key := l.node.value, line := l })

/-- Modelled from the spec: the `FORFAMSS` macro is absent from src (§4.4 `famssOf`). One
step per FAMS line of the person, with a null family for a line that does not resolve. -/
def FORFAMSS (person : GNode) (database : Database) : List FamLink :=
  (linesWithTag person "FAMS").map
    (fun l => { family := keyToFamily l.node.value database, key := l.node.value, line := l })

/-- Modelled from the spec: the `FORFAMILIES` macro is absent from src (§4.4 `famssOf`). The
families of the FAMS lines of a person; lines that do not resolve are skipped. -/
def FORFAMILIES (person : GNode) (database : Database) : List GNode :=
  (linesWithTag person "FAMS").filterMap (fun l => keyToFamily l.node.value database)

/-- Modelled from the spec: the `FORCHILDREN` macro is absent from src (§4.4 `childrenOf`). The
persons of the CHIL lines of a family; lines that do not resolve are skipped. -/
def FORCHILDREN (family : GNode) (database : Database) : List GNode :=
  (linesWithTag family "CHIL").filterMap (fun l => keyToPerson l.node.value database)

/-- Modelled from the spec: the `FORHUSBS` macro is absent from src (§4.4 `husbsOf`). The
persons of the HUSB lines of a family; lines that do not resolve are skipped. -/
def FORHUSBS (family : GNode) (database : Database) : List GNode :=
  (linesWithTag family "HUSB").filterMap (fun l => keyToPerson l.node.value database)

/-- Modelled from the spec: the `FORWIFES` macro is absent from src (§4.4 `wifesOf`). The
persons of the WIFE lines of a family; lines that do not resolve are skipped. -/
def FORWIFES (family : GNode) (database : Database) : List GNode :=
  (linesWithTag family "WIFE").filterMap (fun l => keyToPerson l.node.value database)

/-- Modelled from the spec: `familyToHusband` (lineage.c) is absent from src. It returns a
single node (validatePerson keeps it in one `GNode*`): the first person `husbsOf`
yields (§4.4), null when there is none. -/
def familyToHusband (family : GNode) (database : Database) : Option GNode :=
  (FORHUSBS family database).head?

/-- Modelled from the spec: `familyToWife` (lineage.c) is absent from src. The first person
`wifesOf` yields (§4.4), null when there is none. -/
def familyToWife (family : GNode) (database : Database) : Option GNode :=
  (FORWIFES family database).head?

/-- The sex of a person: male, female, or anything else. -/
inductive SexType where
  | sexMale
  | sexFemale
  | sexUnknown
  deriving DecidableEq, Repr

/-- Modelled from the spec: the `SEXV` macro is absent from src (§4.5: male, female,
unknown or other). The value of the first SEX line, `M` male and `F` female. -/
def SEXV (person : GNode) : SexType :=
  match findTag person.children "SEX" with
  | none => SexType.sexUnknown
  | some n =>
    if n.value == some "M" then SexType.sexMale
    else if n.value == some "F" then SexType.sexFemale
    else SexType.sexUnknown

/-! ## The validator (validate.c) -/

/-- How `printf("%s")` shows a possibly null string. -/
def showString (s : Option String) : String :=
  s.getD "(null)"

/-- Modelled from the spec: the `NAME` macro is absent from src. The first NAME line of a
record (`findTag` on the children), null when there is none. -/
def NAME (node : GNode) : Option GNode :=
  findTag node.children "NAME"

/-- The value a C `int` holds for a number: the number modulo 2^32, in the range that
starts at -2^31. -/
def wrapInt (x : Int) : Int :=
  (x + 2147483648) % 4294967296 - 2147483648

/-- Whether `sprintf(s, ...)` stays inside `static char s[4096]`: the bytes of the text
and the final zero byte fit. -/
def fitsBuffer (text : String) : Bool :=
  text.utf8ByteSize < 4096

/-- The text `sprintf` builds for a FAMC or FAMS line that does not resolve; the two line
numbers are `int`s, the second one the `int` sum `lineNumber + countNodesBefore(__node)`. -/
def danglingMessage (person : GNode) (database : Database) (tag : String) (link : FamLink) :
    String :=
  "INDI " ++ showString person.key ++ " (line "
    ++ toString (wrapInt (personLineNumber person database))
    ++ "): " ++ tag ++ " " ++ showString link.key ++ " (line "
    ++ toString (wrapInt (personLineNumber person database + (link.line.before : Int)))
    ++ ") does not refer to a family."

/-- The error logged for a FAMC or FAMS line that does not resolve. -/
def danglingError (person : GNode) (database : Database) (tag : String) (link : FamLink) :
    Error :=
  createError ErrorType.linkageError database.lastSegment 0
    (danglingMessage person database tag link)

/-- A C loop whose body can be left without a result: the state after the last element,
`none` as soon as one step has none. -/
def foldlOption {α β : Type} (f : β → α → Option β) : β → List α → Option β
  | b, [] => some b
  | b, a :: rest =>
    match f b a with
    | none => none
    | some b' => foldlOption f b' rest

/-- Body of the first two loops of validatePerson: a link with a null family has its
message written to the buffer `s`, adds an error and counts it; `none` when the message
does not fit in the buffer. -/
def checkLink (person : GNode) (database : Database) (tag : String)
    (acc : ErrorLog × Nat) (link : FamLink) : Option (ErrorLog × Nat) :=
  if link.family.isNone then
    if fitsBuffer (danglingMessage person database tag link) then
      some (addErrorToLog acc.1 (danglingError person database tag link), acc.2 + 1)
    else none
  else some acc

/-- The inner `FORCHILDREN` loop of validatePerson: how many children of the family are
the person. With `debugging` set the loop reads `NAME(child)->value` of every child;
`none` when a child has no NAME line. -/
def numOccurrences (person family : GNode) (database : Database) : Option Nat :=
  foldlOption
    (fun n child =>
      match NAME child with
      | none => none
      | some _ => some (if sameNode person child then n + 1 else n))
    0 (FORCHILDREN family database)

/-- Body of the third loop of validatePerson (second `FORFAMCS`): the family must list the
person once among its children. The loop is only reached when every link resolved,
so the null family case does not occur there. -/
def checkChild (person : GNode) (database : Database)
    (acc : ErrorLog × Nat) (link : FamLink) : Option (ErrorLog × Nat) :=
  match link.family with
  | none => some acc
  | some family =>
    match numOccurrences person family database with
    | none => none
    | some n =>
      if n = 0 then
        some (addErrorToLog acc.1
          (createError ErrorType.linkageError database.lastSegment 0 "Child not found"),
         acc.2 + 1)
      else if n > 1 then
        some (addErrorToLog acc.1
          (createError ErrorType.linkageError database.lastSegment 0 "Too many children found"),
         acc.2 + 1)
      else some acc

/-- Body of the `FORFAMILIES` loop of validatePerson: find the parent of the expected
role, log a person without sex, then compare the person with the parent. -/
def checkSpouse (person : GNode) (database : Database) (sex : SexType)
    (acc : ErrorLog × Nat) (family : GNode) : ErrorLog × Nat :=
  let step : Option GNode × (ErrorLog × Nat) :=
    if sex = SexType.sexMale then (familyToHusband family database, acc)
    else if sex = SexType.sexFemale then (familyToWife family database, acc)
    else (none,
      (addErrorToLog acc.1
        (createError ErrorType.linkageError database.lastSegment 0
          "Person used as spouse has no sex."),
       acc.2 + 1))
  if !(sameNodeOpt person step.1) then
    (addErrorToLog step.2.1
      (createError ErrorType.linkageError database.lastSegment 0
        "Family does not link back to spouse."),
     step.2.2 + 1)
  else step.2

/-- The function `validatePerson` of validate.c: the result, the database and the log
after the call. The call starts with the debugging read of `NAME(person)->value`;
`none` when the person has no NAME line, or when a loop has no result. -/
def validatePerson (person : GNode) (database : Database) (errorLog : ErrorLog) :
    Option (Bool × Database × ErrorLog) :=
  match NAME person with
  | none => none
  | some _ =>
    match foldlOption (checkLink person database "FAMC") (errorLog, 0)
        (FORFAMCS person database) with
    | none => none
    | some acc1 =>
      match foldlOption (checkLink person database "FAMS") acc1
          (FORFAMSS person database) with
      | none => none
      | some acc2 =>
        if acc2.2 ≠ 0 then some (false, database, acc2.1)
        else
          match foldlOption (checkChild person database) acc2 (FORFAMCS person database) with
          | none => none
          | some acc3 =>
            if acc3.2 ≠ 0 then some (false, database, acc3.1)
            else
              let acc4 := (FORFAMILIES person database).foldl
                (checkSpouse person database (SEXV person)) acc3
              some (acc4.2 == 0, database, acc4.1)

/-- The function `validatePersonIndex`: validate every person of the person index; the
result, the database and the log after the call. -/
def validatePersonIndex (database : Database) (errorLog : ErrorLog) :
    Option (Bool × Database × ErrorLog) :=
  foldlOption
    (fun (acc : Bool × Database × ErrorLog) element =>
      match validatePerson element.root acc.2.1 acc.2.2 with
      | none => none
      | some r => some (if !r.1 then false else acc.1, r.2.1, r.2.2))
    (true, database, errorLog) database.personIndex

/-- How often a family occurs among the families of a list of links (`family == fam`). -/
def numBackLinks (family : GNode) (links : List FamLink) : Nat :=
  links.foldl (fun n link => if sameNodeOpt family link.family then n + 1 else n) 0

/-- Modelled from the spec: the `HUSB`, `WIFE` and `CHIL` macros are absent from src. Whether
the family has a line with the tag (`findTag` on the children). -/
def hasLine (family : GNode) (tag : String) : Bool :=
  (findTag family.children tag).isSome

/-- The function `validateFamily` of validate.c. `none` is a failed `ASSERT`, which ends
the process; otherwise the result and the log after the call. -/
def validateFamily (family : GNode) (database : Database) (errorLog : ErrorLog) :
    Option (Bool × ErrorLog) :=
  if !(FORHUSBS family database).all
      (fun husband => numBackLinks family (FORFAMSS husband database) == 1) then none
  else if !(FORWIFES family database).all
      (fun wife => numBackLinks family (FORFAMSS wife database) == 1) then none
  else if !(FORCHILDREN family database).all
      (fun child => numBackLinks family (FORFAMCS child database) == 1) then none
  else
    let hasHusb := hasLine family "HUSB"
    let hasWife := hasLine family "WIFE"
    let hasChild := hasLine family "CHIL"
    if !(hasHusb || hasWife || hasChild) then
      some (true, addErrorToLog errorLog
        (createError ErrorType.linkageError database.lastSegment 0
          "Family has no HUSB, WIFE or CHIL links"))
    else some (true, errorLog)

/-- The function `validateFamilyIndex`: validate every family of the family index. It is
defined in validate.c but its call in validateDatabase is commented out. -/
def validateFamilyIndex (database : Database) (errorLog : ErrorLog) : Option (Bool × ErrorLog) :=
  database.familyIndex.foldl
    (fun (acc : Option (Bool × ErrorLog)) element =>
      match acc with
      | none => none
      | some a =>
        match validateFamily element.root database a.2 with
        | none => none
        | some r => some (if !r.1 then false else a.1, r.2))
    (some (true, errorLog))

/-- The function `validateDatabase` of validate.c: it runs validatePersonIndex and
returns whether the log is empty afterwards; the result, the database and the log after
the call. -/
def validateDatabase (database : Database) (errorLog : ErrorLog) :
    Option (Bool × Database × ErrorLog) :=
  match validatePersonIndex database errorLog with
  | none => none
  | some r =>
    if lengthList r.2.2 ≠ 0 then some (false, r.2.1, r.2.2) else some (true, r.2.1, r.2.2)

/-! ## The errors of the validator, by name -/

/-- The error `Child not found` (ChildNotFound). -/
def childNotFound (database : Database) : Error :=
  createError ErrorType.linkageError database.lastSegment 0 "Child not found"

/-- The error `Too many children found` (DuplicateChild). -/
def duplicateChild (database : Database) : Error :=
  createError ErrorType.linkageError database.lastSegment 0 "Too many children found"

/-- The error `Person used as spouse has no sex.` (SpouseSexUnknown). -/
def spouseSexUnknown (database : Database) : Error :=
  createError ErrorType.linkageError database.lastSegment 0 "Person used as spouse has no sex."

/-- The error `Family does not link back to spouse.` (SpouseNotLinked). -/
def spouseNotLinked (database : Database) : Error :=
  createError ErrorType.linkageError database.lastSegment 0 "Family does not link back to spouse."

/-- The error `Family has no HUSB, WIFE or CHIL links` (EmptyFamily). -/
def emptyFamily (database : Database) : Error :=
  createError ErrorType.linkageError database.lastSegment 0 "Family has no HUSB, WIFE or CHIL links"

/-! ## What the passes of validatePerson log, stated per line -/

/-- The steps of an iterator whose family is null: the lines that do not resolve. -/
def unresolved (links : List FamLink) : List FamLink :=
  links.filter (fun l => l.family.isNone)

/-- One dangling-link error for each FAMC line that does not resolve, then one for each
FAMS line that does not resolve. -/
def danglingErrors (person : GNode) (database : Database) : List Error :=
  (unresolved (FORFAMCS person database)).map (danglingError person database "FAMC") ++
  (unresolved (FORFAMSS person database)).map (danglingError person database "FAMS")

/-- The number of CHIL lines of the family that resolve to the person. -/
def chilCount (person family : GNode) (database : Database) : Nat :=
  ((linesWithTag family "CHIL").filter
    (fun l => sameNodeOpt person (keyToPerson l.node.value database))).length

/-- The error, if any, for one FAMC line: ChildNotFound when no CHIL line of its family
resolves to the person, DuplicateChild when more than one does. -/
def childError (person : GNode) (database : Database) (link : FamLink) : Option Error :=
  match link.family with
  | none => none
  | some family =>
    if chilCount person family database = 0 then some (childNotFound database)
    else if 1 < chilCount person family database then some (duplicateChild database)
    else none

/-- The errors of the FAMC/CHIL pass: at most one per FAMC line, in line order. -/
def childErrors (person : GNode) (database : Database) : List Error :=
  (FORFAMCS person database).filterMap (childError person database)

/-- The errors of the spouse pass for one FAMS family. -/
def spouseErrorsIn (person : GNode) (database : Database) (family : GNode) : List Error :=
  match SEXV person with
  | SexType.sexMale =>
    if sameNodeOpt person (familyToHusband family database) then [] else [spouseNotLinked database]
  | SexType.sexFemale =>
    if sameNodeOpt person (familyToWife family database) then [] else [spouseNotLinked database]
  | SexType.sexUnknown => [spouseSexUnknown database, spouseNotLinked database]

/-- The errors of the spouse pass, family by family. -/
def spouseErrors (person : GNode) (database : Database) : List Error :=
  ((FORFAMILIES person database).map (spouseErrorsIn person database)).flatten

/-- Everything one call of validatePerson appends: the first pass that finds errors
ends the call. -/
def personErrors (person : GNode) (database : Database) : List Error :=
  if danglingErrors person database ≠ [] then danglingErrors person database
  else if childErrors person database ≠ [] then childErrors person database
  else spouseErrors person database

/-- Everything validatePersonIndex appends: the errors of each person, in index order. -/
def databaseErrors (database : Database) : List Error :=
  (database.personIndex.map (fun el => personErrors el.root database)).flatten

/-- The result and the log of a call of a validator function, without the database. -/
def resultAndLog (r : Option (Bool × Database × ErrorLog)) : Option (Bool × ErrorLog) :=
  r.map (fun r => (r.1, r.2.2))

/-- The messages of the dangling FAMC and FAMS lines of the person all fit in the
buffer `s`. -/
def linksFit (person : GNode) (database : Database) : Bool :=
  (unresolved (FORFAMCS person database)).all
    (fun l => fitsBuffer (danglingMessage person database "FAMC" l)) &&
  (unresolved (FORFAMSS person database)).all
    (fun l => fitsBuffer (danglingMessage person database "FAMS" l))

/-- Every child of every FAMC family of the person has a NAME line. -/
def childrenNamed (person : GNode) (database : Database) : Bool :=
  (FORFAMCS person database).all (fun l =>
    match l.family with
    | none => true
    | some family => (FORCHILDREN family database).all (fun child => (NAME child).isSome))

/-- The call of validatePerson has a result: the person has a NAME line, the messages of
its dangling lines fit in the buffer, and, when the call gets to the FAMC/CHIL pass,
the children of its FAMC families have NAME lines. -/
def personRuns (person : GNode) (database : Database) : Bool :=
  (NAME person).isSome && linksFit person database &&
    (!(danglingErrors person database).isEmpty || childrenNamed person database)

/-- The calls of validatePerson that validateDatabase makes all have a result. -/
def databaseRuns (database : Database) : Bool :=
  database.personIndex.all (fun el => personRuns el.root database)

/-- Every person of the index has a NAME line. -/
def allNamed (database : Database) : Bool :=
  database.personIndex.all (fun el => (NAME el.root).isSome)

/-- The messages of the dangling lines of every person of the index fit in the buffer. -/
def allFit (database : Database) : Bool :=
  database.personIndex.all (fun el => linksFit el.root database)

/-! ## Example data: the toy database of the scenarios -/

/-- A line without children of its own. -/
def line (tag : String) (value : String) : GNode :=
  GNode.mk none tag (some value) []

/-- Person `@I1@`, Tom, husband in `@F1@`. -/
def tom : GNode :=
  GNode.mk (some "@I1@") "INDI" none [line "NAME" "Tom /Toy/", line "SEX" "M", line "FAMS" "@F1@"]

/-- Person `@I2@`, Lu, wife in `@F1@`. -/
def lu : GNode :=
  GNode.mk (some "@I2@") "INDI" none [line "NAME" "Lu /Toy/", line "SEX" "F", line "FAMS" "@F1@"]

/-- Person `@I3@`, child in `@F1@`. -/
def kid : GNode :=
  GNode.mk (some "@I3@") "INDI" none [line "NAME" "Kid /Toy/", line "SEX" "M", line "FAMC" "@F1@"]

/-- Family `@F1@` with husband, wife and child. -/
def fam1 : GNode :=
  GNode.mk (some "@F1@") "FAM" none [line "HUSB" "@I1@", line "WIFE" "@I2@", line "CHIL" "@I3@"]

/-- Family `@F1@` with the CHIL line dropped (scenario S2). -/
def fam1NoChil : GNode :=
  GNode.mk (some "@F1@") "FAM" none [line "HUSB" "@I1@", line "WIFE" "@I2@"]

/-- A database from person and family roots; every record is given line number 0. -/
def mkDatabase (persons families : List GNode) : Database :=
  { personIndex := persons.map (fun r => { root := r, lineNumber := 0 }),
    familyIndex := families.map (fun r => { root := r, lineNumber := 0 }),
    lastSegment := "toy.ged" }

/-- The toy database of scenario S1. -/
def toyDatabase : Database :=
  mkDatabase [tom, lu, kid] [fam1]

/-- The toy database of scenario S2: `@F1@` has lost its CHIL line. -/
def toyDatabaseS2 : Database :=
  mkDatabase [tom, lu, kid] [fam1NoChil]

/-! ## Example data for the validator -/

/-- An entry that is in the log before the validator is called. -/
def oldError : Error :=
  createError ErrorType.syntaxError "toy.ged" 7 "entry of an earlier pass"

/-- Family `@F2@` without HUSB, WIFE and CHIL lines. -/
def famEmpty : GNode :=
  GNode.mk (some "@F2@") "FAM" none [line "MARR" "1900"]

/-- The toy database with the empty family `@F2@` added. -/
def toyDatabaseEmptyFamily : Database :=
  mkDatabase [tom, lu, kid] [fam1, famEmpty]

/-- Person `@I3@` with a FAMC line to `@F1@` and a FAMC line to the missing `@F9@`. -/
def kidDangling : GNode :=
  GNode.mk (some "@I3@") "INDI" none
    [line "NAME" "Kid /Toy/", line "SEX" "M", line "FAMC" "@F1@", line "FAMC" "@F9@"]

/-- Database where `@I3@` has a dangling FAMC line and `@F1@` has no CHIL line for it. -/
def toyDatabaseDangling : Database :=
  mkDatabase [tom, lu, kidDangling] [fam1NoChil]

/-- Person `@I4@`, Ned, a second husband in `@F1@`. -/
def ned : GNode :=
  GNode.mk (some "@I4@") "INDI" none [line "NAME" "Ned /Toy/", line "SEX" "M", line "FAMS" "@F1@"]

/-- Family `@F1@` with two HUSB lines, `@I1@` and `@I4@`. -/
def fam1TwoHusbands : GNode :=
  GNode.mk (some "@F1@") "FAM" none
    [line "HUSB" "@I1@", line "HUSB" "@I4@", line "WIFE" "@I2@", line "CHIL" "@I3@"]

/-- The toy database with Ned as second husband of `@F1@`. -/
def toyDatabaseTwoHusbands : Database :=
  mkDatabase [tom, lu, kid, ned] [fam1TwoHusbands]

/-- Family `@F1@` with the CHIL line of `@I3@` twice (scenario S3). -/
def fam1DupChil : GNode :=
  GNode.mk (some "@F1@") "FAM" none
    [line "HUSB" "@I1@", line "WIFE" "@I2@", line "CHIL" "@I3@", line "CHIL" "@I3@"]

/-- The toy database of scenario S3. -/
def toyDatabaseS3 : Database :=
  mkDatabase [tom, lu, kid] [fam1DupChil]

/-! ## Properties of a database, as the claims state them -/

/-- The line refers to the person: its value is the key of the person. -/
def refersTo (l : LineAt) (person : GNode) : Bool :=
  l.node.value.isSome && l.node.value == person.key

/-- Every FAMC and FAMS line of every person resolves to a family, and every HUSB, WIFE
and CHIL line of every family resolves to a person. -/
def allLinksResolve (database : Database) : Bool :=
  database.personIndex.all (fun el =>
    (FORFAMCS el.root database ++ FORFAMSS el.root database).all (fun l => l.family.isSome)) &&
  database.familyIndex.all (fun el =>
    (linesWithTag el.root "HUSB" ++ linesWithTag el.root "WIFE" ++
      linesWithTag el.root "CHIL").all (fun l => (keyToPerson l.node.value database).isSome))

/-- Every person appears exactly once among the CHIL lines of each of its FAMC families. -/
def childrenListedOnce (database : Database) : Bool :=
  database.personIndex.all (fun el =>
    (FORFAMCS el.root database).all (fun l =>
      match l.family with
      | none => true
      | some family => chilCount el.root family database == 1))

/-- Every male person with a FAMS link to a family is referenced by a HUSB line of the
family, and every female person by a WIFE line. -/
def spousesListed (database : Database) : Bool :=
  database.personIndex.all (fun el =>
    (FORFAMILIES el.root database).all (fun family =>
      (SEXV el.root != SexType.sexMale ||
        (linesWithTag family "HUSB").any (fun l => refersTo l el.root)) &&
      (SEXV el.root != SexType.sexFemale ||
        (linesWithTag family "WIFE").any (fun l => refersTo l el.root))))

/-- Whether the first line of a list refers to the person. -/
def firstRefersTo (lines : List LineAt) (person : GNode) : Bool :=
  match lines with
  | [] => false
  | l :: _ => refersTo l person

/-- Every person with a FAMS link to a family is male and referenced by the first HUSB
line of the family, or female and referenced by its first WIFE line. -/
def spousesListedFirst (database : Database) : Bool :=
  database.personIndex.all (fun el =>
    (FORFAMILIES el.root database).all (fun family =>
      (SEXV el.root == SexType.sexMale &&
        firstRefersTo (linesWithTag family "HUSB") el.root) ||
      (SEXV el.root == SexType.sexFemale &&
        firstRefersTo (linesWithTag family "WIFE") el.root)))

/-- Person `@I3@` of scenario S2 without its NAME line. -/
def kidNoName : GNode :=
  GNode.mk (some "@I3@") "INDI" none [line "SEX" "M", line "FAMC" "@F1@"]

/-- Scenario S2 with the NAME line of `@I3@` dropped. -/
def toyDatabaseNoName : Database :=
  mkDatabase [tom, lu, kidNoName] [fam1NoChil]

/-- Person `@I12@`, a child in `@F1@` without a NAME line. -/
def sib : GNode :=
  GNode.mk (some "@I12@") "INDI" none [line "SEX" "F", line "FAMC" "@F1@"]

/-- Family `@F1@` with the children `@I3@` and `@I12@`. -/
def fam1Sib : GNode :=
  GNode.mk (some "@F1@") "FAM" none
    [line "HUSB" "@I1@", line "WIFE" "@I2@", line "CHIL" "@I3@", line "CHIL" "@I12@"]

/-- The toy database with the second child `@I12@`, who has no NAME line. -/
def toyDatabaseSib : Database :=
  mkDatabase [tom, lu, kid, sib] [fam1Sib]

/-- Person `@I3@` without a NAME line and with a FAMC line to the missing `@F9@`. -/
def kidDanglingNoName : GNode :=
  GNode.mk (some "@I3@") "INDI" none [line "SEX" "M", line "FAMC" "@F9@"]

/-- The toy database with `@I3@` replaced by the person with the dangling FAMC line and no
NAME line. -/
def toyDatabaseDanglingNoName : Database :=
  mkDatabase [tom, lu, kidDanglingNoName] [fam1NoChil]

/-- Person `@I5@`, Pat, without a SEX line and with a FAMS line to `@F1@`. -/
def pat : GNode :=
  GNode.mk (some "@I5@") "INDI" none [line "NAME" "Pat /Toy/", line "FAMS" "@F1@"]

/-- The toy database with Pat added. -/
def toyDatabasePat : Database :=
  mkDatabase [tom, lu, kid, pat] [fam1]

/-- Family `@F1@` with Pat, `@I5@`, in its WIFE line. -/
def fam1PatWife : GNode :=
  GNode.mk (some "@F1@") "FAM" none [line "HUSB" "@I1@", line "WIFE" "@I5@", line "CHIL" "@I3@"]

/-- The toy database with Pat in the place of Lu. -/
def toyDatabasePatWife : Database :=
  mkDatabase [tom, kid, pat] [fam1PatWife]

/-- Family `@F1@` with the HUSB line of `@I1@` twice. -/
def fam1DupHusb : GNode :=
  GNode.mk (some "@F1@") "FAM" none
    [line "HUSB" "@I1@", line "HUSB" "@I1@", line "WIFE" "@I2@", line "CHIL" "@I3@"]

/-- The toy database with the doubled HUSB line. -/
def toyDatabaseDupHusb : Database :=
  mkDatabase [tom, lu, kid] [fam1DupHusb]

/-! ## The partitioner (Partition/main.c) -/

/-- The type of a record. -/
inductive RecordType where
  | GRPerson
  | GRFamily
  | GRSource
  | GREvent
  | GROther
  deriving DecidableEq, Repr

/-- Modelled from the spec: `recordType` (gnode.c) is absent from src. The type is derived
from the tag of the root (§3 Record type; INDI, FAM, SOUR, EVEN, other). -/
def recordType (root : GNode) : RecordType :=
  if root.tag == "INDI" then RecordType.GRPerson
  else if root.tag == "FAM" then RecordType.GRFamily
  else if root.tag == "SOUR" then RecordType.GRSource
  else if root.tag == "EVEN" then RecordType.GREvent
  else RecordType.GROther

/-- A `GNodeList`: the nodes of its elements, in list order. -/
abbrev GNodeList := List GNode

/-- A `GNodeIndex`: the roots of its elements. The `ConnectData` of an element is not read
by getPartitions and createPartition and is left out. -/
abbrev GNodeIndex := List GNode

/-- A `StringSet`: the strings that were added. -/
abbrev StringSet := List String

/-- Modelled from the spec: `isInSet` (set.h) is absent from src. Whether the key is a
member of the set; a set compares its members with a total order on keys (§8, property
8), so a key is a member exactly when an equal key was added. -/
def isInSet (set : StringSet) (key : String) : Bool :=
  set.contains key

/-- Modelled from the spec: `addToSet` (set.h) is absent from src. The key becomes a
member of the set (§3 Name index); the place the set gives it is not modelled. -/
def addToSet (set : StringSet) (key : String) : StringSet :=
  key :: set

/-- Modelled from the spec: `addToGNodeIndex` is absent from src. The root is registered
under its key (§6 ingestion); a lookup returns the root registered first. -/
def addToGNodeIndex (index : GNodeIndex) (root : GNode) : GNodeIndex :=
  index ++ [root]

/-- The function `createIndexOfGNodes`: index every root that has a key. -/
def createIndexOfGNodes (list : GNodeList) : GNodeIndex :=
  list.foldl (fun index root => if root.key.isSome then addToGNodeIndex index root else index) []

/-- The function `removeNonPersons`: keep the person records of a list. -/
def removeNonPersons (list : GNodeList) : GNodeList :=
  list.filter (fun node => recordType node == RecordType.GRPerson)

/-- Modelled from the spec: `searchRecordIndex` is absent from src. The root registered
under the key (§4.2 `lookup`), null when there is none. -/
def searchRecordIndex (index : GNodeIndex) (key : Option String) : Option GNode :=
  match key with
  | none => none
  | some k => index.find? (fun r => r.key == some k)

/-- The operation `prependToList(list, node)`: the node becomes the first element. -/
def prependToList (list : List GNode) (node : GNode) : List GNode :=
  node :: list

/-- The operation `getAndRemoveLastListElement(list)`: the last element, null for an
empty list, and the list without it. -/
def getAndRemoveLastListElement (list : List GNode) : Option GNode × List GNode :=
  (list.getLast?, list.dropLast)

/-- The body of the `for` loop over the children of a record in createPartition: a line
with one of the link tags is looked up; a miss logs the error and goes on, a hit is
put in front of the queue. -/
def enqueueLink (tags : List String) (notFound : Error) (index : GNodeIndex)
    (acc : List GNode × ErrorLog) (child : GNode) : List GNode × ErrorLog :=
  if tags.contains child.tag then
    match searchRecordIndex index child.value with
    | none => (acc.1, addErrorToLog acc.2 notFound)
    | some node => (prependToList acc.1 node, acc.2)
  else acc

/-- The `for` loop over the children of a record in createPartition. -/
def enqueueLinks (tags : List String) (notFound : Error) (index : GNodeIndex)
    (children : List GNode) (acc : List GNode × ErrorLog) : List GNode × ErrorLog :=
  children.foldl (enqueueLink tags notFound index) acc

/-- The variables of the `while` loop of createPartition. -/
structure PartitionState where
  queue : List GNode
  visited : StringSet
  partition : List GNode
  log : ErrorLog

/-- The body of the `while` loop of createPartition for the record taken from the queue. -/
def processRecord (index : GNodeIndex) (root : GNode) (st : PartitionState) : PartitionState :=
  match root.key with
  | none => st
  | some key =>
    if isInSet st.visited key then st
    else
      let visited := addToSet st.visited key
      let partition :=
        if recordType root = RecordType.GRPerson then st.partition ++ [root] else st.partition
      if recordType root = RecordType.GRPerson then
        let r := enqueueLinks ["FAMS", "FAMC"]
          (createError ErrorType.linkageError "file" 0 "Couldn't find a family")
          index root.children (st.queue, st.log)
        { queue := r.1, visited := visited, partition := partition, log := r.2 }
      else if recordType root = RecordType.GRFamily then
        let r := enqueueLinks ["HUSB", "WIFE", "CHIL"]
          (createError ErrorType.linkageError "" 0 "Couldn't find a person")
          index root.children (st.queue, st.log)
        { queue := r.1, visited := visited, partition := partition, log := r.2 }
      else
        { queue := st.queue, visited := visited, partition := partition, log := st.log }

/-- The `while` loop of createPartition, one iteration per unit of fuel; `none` when the
fuel runs out before the queue is empty. -/
def createPartitionLoop (index : GNodeIndex) : Nat → PartitionState → Option PartitionState
  | 0, _ => none
  | fuel + 1, st =>
    match getAndRemoveLastListElement st.queue with
    | (none, _) => some st
    | (some root, queue) =>
      createPartitionLoop index fuel
        (processRecord index root
          { queue := queue, visited := st.visited, partition := st.partition, log := st.log })

/-- Fuel for the loop of createPartition: every iteration takes one record from the queue,
and the queue receives the root and then at most one record per line of a record that
is expanded. -/
def createPartitionFuel (root : GNode) (index : GNodeIndex) : Nat :=
  2 + root.children.length + (index.map (fun r => r.children.length)).sum

/-- The function `createPartition`: the partition, and the visited set and the log after
the call. -/
def createPartition (root : GNode) (_gnodes : GNodeList) (index : GNodeIndex)
    (visited : StringSet) (log : ErrorLog) : Option (List GNode × StringSet × ErrorLog) :=
  (createPartitionLoop index (createPartitionFuel root index)
    { queue := prependToList [] root, visited := visited, partition := [], log := log }).map
    (fun st => (st.partition, st.visited, st.log))

/-- The `FORLIST` loop of getPartitions over the rest of the list. -/
def getPartitionsLoop (gnodes : GNodeList) (index : GNodeIndex) :
    List GNode → StringSet → List (List GNode) → ErrorLog →
      Option (List (List GNode) × ErrorLog)
  | [], _, partitions, log => some (partitions, log)
  | root :: rest, visited, partitions, log =>
    match root.key with
    | none => getPartitionsLoop gnodes index rest visited partitions log
    | some key =>
      if !isInSet visited key then
        match createPartition root gnodes index visited log with
        | none => none
        | some (partition, visited', log') =>
          getPartitionsLoop gnodes index rest visited' (partitions ++ [partition]) log'
      else getPartitionsLoop gnodes index rest visited partitions log

/-- The function `getPartitions`: the list of partitions and the log after the call. -/
def getPartitions (gnodes : GNodeList) (index : GNodeIndex) (log : ErrorLog) :
    Option (List (List GNode) × ErrorLog) :=
  getPartitionsLoop gnodes index gnodes [] [] log

/-! ## Example data for the partitioner: two disjoint families (scenario S6) -/

/-- Person `@I6@`, husband in `@F2@`. -/
def abe : GNode :=
  GNode.mk (some "@I6@") "INDI" none [line "NAME" "Abe /Two/", line "SEX" "M", line "FAMS" "@F2@"]

/-- Person `@I7@`, child in `@F2@`. -/
def bea : GNode :=
  GNode.mk (some "@I7@") "INDI" none [line "NAME" "Bea /Two/", line "SEX" "F", line "FAMC" "@F2@"]

/-- Family `@F2@` of Abe and Bea. -/
def fam2 : GNode :=
  GNode.mk (some "@F2@") "FAM" none [line "HUSB" "@I6@", line "CHIL" "@I7@"]

/-- The records of two disjoint families, in file order. -/
def twoFamilies : GNodeList :=
  [GNode.mk none "HEAD" none [], tom, abe, fam1, lu, bea, fam2, kid]

/-! ## Measures and invariants of the partitioner -/

/-- The lines of the records of a list whose key is not yet in the visited set: a bound
on what the loop of createPartition can still put in the queue. -/
def pendingLines (records : List GNode) (visited : StringSet) : Nat :=
  (records.map (fun r =>
    match r.key with
    | none => 0
    | some k => if isInSet visited k then 0 else r.children.length)).sum

/-- The invariant of getPartitions and createPartition, for the records `rs`, the persons
`acc` put in partitions so far and the visited set: the persons emitted are person
records of `rs` with a visited key, no key was emitted twice, and every person record
of `rs` with a visited key was emitted. -/
structure PartitionInv (rs : List GNode) (acc : List GNode) (visited : StringSet) : Prop where
  members : ∀ x ∈ acc, x ∈ rs ∧ recordType x = RecordType.GRPerson ∧
    ∃ k, x.key = some k ∧ k ∈ visited
  nodup : (acc.map GNode.key).Nodup
  complete : ∀ r ∈ rs, recordType r = RecordType.GRPerson →
    ∀ k, r.key = some k → k ∈ visited → r ∈ acc

/-! ## The name index (nameindex.c) -/

/-- Modelled from the spec: the `NameIndexEl` declaration (nameindex.h) is absent from src.
A name key and the set of the record keys of the persons that have a name with that key
(§3 Name index); the fields are the ones nameindex.c reads and writes. -/
structure NameIndexEl where
  nameKey : String
  recordKeys : StringSet
  deriving DecidableEq, Repr

/-- A name index: the elements of the hash table; `compare` on name keys is `strcmp`, so
an element is found by equality of name keys. -/
abbrev NameIndex := List NameIndexEl

/-- The function `createNameIndex`: an empty table. -/
def createNameIndex : NameIndex :=
  []

/-- The function `createNameIndexEl`: an element with the name key and an empty set. The
record key is not put in the set here. -/
def createNameIndexEl (nameKey : String) (_recordKey : String) : NameIndexEl :=
  { nameKey := nameKey, recordKeys := [] }

/-- Modelled from the spec: `searchHashTable` (hashtable.h) is absent from src. The element
of the name index with the name key, null when there is none (§3 Name index: a mapping
from name keys); name keys are compared with `strcmp`. -/
def NameIndex.searchHashTable (index : NameIndex) (nameKey : String) : Option NameIndexEl :=
  index.find? (fun el => el.nameKey == nameKey)

/-- Modelled from the spec: `addToHashTable` (hashtable.h) is absent from src. The element
is added to the table (§3 Name index); insertInNameIndex calls it only when the table
has no element with the name key. -/
def NameIndex.addToHashTable (index : NameIndex) (element : NameIndexEl) : NameIndex :=
  index ++ [element]

/-- A store through the pointer `searchHashTable` returned: the element of the table with
the name key is replaced by its new state. -/
def NameIndex.updateElement (index : NameIndex) (nameKey : String)
    (f : NameIndexEl → NameIndexEl) : NameIndex :=
  match index with
  | [] => []
  | el :: rest =>
    if el.nameKey == nameKey then f el :: rest
    else el :: NameIndex.updateElement rest nameKey f

/-- The function `insertInNameIndex`: make the element when the name key has none, then
add the record key to the set of the element unless it is in it. -/
def insertInNameIndex (index : NameIndex) (nameKey recordKey : String) : NameIndex :=
  let index1 :=
    match NameIndex.searchHashTable index nameKey with
    | none => NameIndex.addToHashTable index (createNameIndexEl nameKey recordKey)
    | some _ => index
  NameIndex.updateElement index1 nameKey
    (fun element =>
      if !isInSet element.recordKeys recordKey then
        { nameKey := element.nameKey, recordKeys := addToSet element.recordKeys recordKey }
      else element)

/-- The function `searchNameIndex`: the set of the element of the name key of the name,
null when there is no element. `nameToNameKey` (name.c) is absent from src and is a
parameter. -/
def searchNameIndex (nameToNameKey : String → String) (index : NameIndex) (name : String) :
    Option StringSet :=
  match NameIndex.searchHashTable index (nameToNameKey name) with
  | none => none
  | some element => some element.recordKeys

/-- Whether the record key is a member of the bucket of the name key. -/
def inBucket (index : NameIndex) (nameKey recordKey : String) : Bool :=
  match NameIndex.searchHashTable index nameKey with
  | none => false
  | some element => isInSet element.recordKeys recordKey

/-- A sequence of insertInNameIndex calls, one per pair (name key, record key). -/
def insertAllInNameIndex (index : NameIndex) (pairs : List (String × String)) : NameIndex :=
  pairs.foldl (fun idx p => insertInNameIndex idx p.1 p.2) index

/-- A stand-in for `nameToNameKey` in examples: lower case. -/
def lowerNameKey (name : String) : String :=
  String.mk (name.data.map Char.toLower)

/-- A name index with the persons `@I1@` and `@I4@` under one name key and `@I2@` under
another. -/
def toyNameIndex : NameIndex :=
  insertAllInNameIndex createNameIndex
    [("tom /toy/", "@I1@"), ("lu /toy/", "@I2@"), ("tom /toy/", "@I4@")]

/-! ## Adding a child or a spouse to a family (addtofamily.c) -/

/-- Modelled from the spec: `createGNode` (gnode.c) is absent from src. A node with the
key, tag and value given and no children (§3 Node). -/
def createGNode (key : Option String) (tag : String) (value : Option String) : GNode :=
  GNode.mk key tag value []

/-- Modelled from the spec: `gNodesLength` (gnode.c) is absent from src. The length of a
sibling chain. -/
def gNodesLength (nodes : List GNode) : Nat :=
  nodes.length

/-- The sibling chains `splitFamily` returns. -/
structure FamilyParts where
  frefn : List GNode
  husb : List GNode
  wife : List GNode
  chil : List GNode
  rest : List GNode

/-- The children of a record that have the tag, as a chain of their own. -/
def chainWithTag (root : GNode) (tag : String) : List GNode :=
  root.children.filter (fun n => n.tag == tag)

/-- The children of a record that have none of the tags. -/
def chainWithout (root : GNode) (tags : List String) : List GNode :=
  root.children.filter (fun n => !tags.contains n.tag)

/-- Modelled from the spec: `splitFamily` (splitjoin.c) is absent from src. The children of
a family in the buckets refns, husb-list, wife-list, chil-list and rest (§4.1). -/
def splitFamily (family : GNode) : FamilyParts :=
  { frefn := chainWithTag family "REFN",
    husb := chainWithTag family "HUSB",
    wife := chainWithTag family "WIFE",
    chil := chainWithTag family "CHIL",
    rest := chainWithout family ["REFN", "HUSB", "WIFE", "CHIL"] }

/-- Modelled from the spec: `joinFamily` (splitjoin.c) is absent from src. The buckets are
attached to the family again in the canonical order of §4.1. -/
def joinFamily (family : GNode) (parts : FamilyParts) : GNode :=
  GNode.mk family.key family.tag family.value
    (parts.frefn ++ parts.husb ++ parts.wife ++ parts.chil ++ parts.rest)

/-- The sibling chains `splitPerson` returns. -/
structure PersonParts where
  names : List GNode
  irefns : List GNode
  sex : List GNode
  body : List GNode
  famcs : List GNode
  famss : List GNode

/-- Modelled from the spec: `splitPerson` (splitjoin.c) is absent from src. The children of
a person in the buckets names, refns, sex, body, famc-list and fams-list (§4.1). -/
def splitPerson (person : GNode) : PersonParts :=
  { names := chainWithTag person "NAME",
    irefns := chainWithTag person "REFN",
    sex := chainWithTag person "SEX",
    body := chainWithout person ["NAME", "REFN", "SEX", "FAMC", "FAMS"],
    famcs := chainWithTag person "FAMC",
    famss := chainWithTag person "FAMS" }

/-- Modelled from the spec: `joinPerson` (splitjoin.c) is absent from src. The buckets are
attached to the person again in the canonical order of §4.1. -/
def joinPerson (person : GNode) (parts : PersonParts) : GNode :=
  GNode.mk person.key person.tag person.value
    (parts.names ++ parts.irefns ++ parts.sex ++ parts.body ++ parts.famcs ++ parts.famss)

/-- The position walk `while (j++ < index) { prev = node; node = node->sibling; }`: the
nodes passed and the chain from `node` on; `none` when the walk steps from a null
node. -/
def walkChain (nodes : List GNode) : Nat → Option (List GNode × List GNode)
  | 0 => some ([], nodes)
  | j + 1 =>
    match nodes with
    | [] => none
    | n :: rest => (walkChain rest j).map (fun r => (n :: r.1, r.2))

/-- The walk to the end of a chain and the store of the new node after the last one (or
as the chain, when it is empty). -/
def appendToChain (chain : List GNode) (new : GNode) : List GNode :=
  match chain with
  | [] => [new]
  | n :: rest => n :: appendToChain rest new

/-- The function `addChildToFamily`: the result, the family and the child after the call;
`none` when the position walk dereferences a null node. The child and the family are
two records. -/
def addChildToFamily (child family : GNode) (index : Int) (_database : Database) :
    Option (Bool × GNode × GNode) :=
  let parts := splitFamily family
  let numChildren := gNodesLength parts.chil
  let index : Int := if index < 0 ∨ index > (numChildren : Int) then (numChildren : Int) else index
  match walkChain parts.chil index.toNat with
  | none => none
  | some (before, node) =>
    let new := createGNode none "CHIL" child.key
    let chil := before ++ new :: node
    let family' := joinFamily family
      { frefn := parts.frefn, husb := parts.husb, wife := parts.wife, chil := chil,
        rest := parts.rest }
    let pparts := splitPerson child
    let nfmc := createGNode none "FAMC" family.key
    let famcs := appendToChain pparts.famcs nfmc
    let child' := joinPerson child
      { names := pparts.names, irefns := pparts.irefns, sex := pparts.sex, body := pparts.body,
        famcs := famcs, famss := pparts.famss }
    some (true, family', child')

/-- The function `addSpouseToFamily`: the result, the family and the spouse after the
call. The spouse and the family are two records. -/
def addSpouseToFamily (spouse family : GNode) (sext : SexType) (_database : Database) :
    Bool × GNode × GNode :=
  let parts := splitFamily family
  let parts' : FamilyParts :=
    if sext = SexType.sexMale then
      { frefn := parts.frefn,
        husb := appendToChain parts.husb (createGNode none "HUSB" spouse.key),
        wife := parts.wife, chil := parts.chil, rest := parts.rest }
    else
      { frefn := parts.frefn, husb := parts.husb,
        wife := appendToChain parts.wife (createGNode none "WIFE" spouse.key),
        chil := parts.chil, rest := parts.rest }
  let family' := joinFamily family parts'
  let pparts := splitPerson spouse
  let nfams := createGNode none "FAMS" family.key
  let famss := appendToChain pparts.famss nfams
  let spouse' := joinPerson spouse
    { names := pparts.names, irefns := pparts.irefns, sex := pparts.sex, body := pparts.body,
      famcs := pparts.famcs, famss := famss }
  (true, family', spouse')

/-- The values of the lines of a record that have the tag, in line order. -/
def valuesWithTag (root : GNode) (tag : String) : List (Option String) :=
  (chainWithTag root tag).map GNode.value

/-- The position at which addChildToFamily puts the new CHIL line in a chain of `n` lines:
`index`, or `n` when `index` is negative or beyond `n`. -/
def childPosition (n : Nat) (index : Int) : Nat :=
  if index < 0 ∨ index > (n : Int) then n else index.toNat

/-- The family `@F1@` and the person Bea, who is not one of its children. -/
def toyDatabaseBea : Database :=
  mkDatabase [tom, lu, kid, bea] [fam1]

/-! ## Link lines of a record, as createPartition reads them -/

/-- The tags of the lines createPartition follows from a record: FAMS and FAMC for a
person, HUSB, WIFE and CHIL for a family, none for another record. -/
def linkTags (root : GNode) : List String :=
  if recordType root = RecordType.GRPerson then ["FAMS", "FAMC"]
  else if recordType root = RecordType.GRFamily then ["HUSB", "WIFE", "CHIL"]
  else []

/-- The error createPartition logs for a link line of the record that is not found. -/
def notFoundError (root : GNode) : Error :=
  if recordType root = RecordType.GRPerson then
    createError ErrorType.linkageError "file" 0 "Couldn't find a family"
  else createError ErrorType.linkageError "" 0 "Couldn't find a person"

/-- The record a line of `root` leads to: the record of the index with the value of the
line as key, for a line with a link tag. -/
def linkTarget (index : GNodeIndex) (root child : GNode) : Option GNode :=
  if (linkTags root).contains child.tag then searchRecordIndex index child.value else none

/-- A link line of `root` whose value is not found in the index. -/
def unresolvedLink (index : GNodeIndex) (root child : GNode) : Bool :=
  (linkTags root).contains child.tag && (searchRecordIndex index child.value).isNone

/-- The record with its unresolved link lines deleted. -/
def dropUnresolved (index : GNodeIndex) (root : GNode) : GNode :=
  GNode.mk root.key root.tag root.value
    (root.children.filter (fun c => !unresolvedLink index root c))

/-- Person `@I8@` with a FAMS line to `@F1@` and FAMC lines to the missing `@F7@` and to
`@F2@`. -/
def cal : GNode :=
  GNode.mk (some "@I8@") "INDI" none
    [line "NAME" "Cal /Toy/", line "FAMC" "@F7@", line "FAMS" "@F1@", line "FAMC" "@F2@"]

/-- Records with one unresolved link line, in file order. -/
def recordsUnresolved : GNodeList :=
  [cal, tom, lu, kid, fam1, abe, bea, fam2]

/-- The loop state of createPartition on the data with the unresolved link lines deleted:
the same records, each without these lines, the same visited set, and the log `log`. -/
def cleanState (index : GNodeIndex) (st : PartitionState) (log : ErrorLog) : PartitionState :=
  { queue := st.queue.map (dropUnresolved index), visited := st.visited,
    partition := st.partition.map (dropUnresolved index), log := log }

/-! ## The person-family graph -/

/-- The record `x` has a link line whose value is the key of `y`: a FAMC or FAMS line when
`x` is a person, a HUSB, WIFE or CHIL line when `x` is a family. -/
def linksTo (x y : GNode) : Bool :=
  x.children.any (fun c => (linkTags x).contains c.tag && c.value.isSome && c.value == y.key)

/-- The graph joins a person and a family when the person has a FAMC or FAMS line to the
family or the family has a HUSB, WIFE or CHIL line to the person. -/
def joined (person family : GNode) : Bool :=
  recordType person == RecordType.GRPerson && recordType family == RecordType.GRFamily &&
    (linksTo person family || linksTo family person)

/-- An edge of the undirected person-family graph over the records `rs`. -/
def adjacent (rs : List GNode) (x y : GNode) : Prop :=
  x ∈ rs ∧ y ∈ rs ∧ (joined x y = true ∨ joined y x = true)

/-- Every link between two records has its back link and joins a person and a family. -/
def wellLinked (rs : List GNode) : Bool :=
  rs.all (fun x => rs.all (fun y =>
    !linksTo x y ||
      (linksTo y x &&
        ((recordType x == RecordType.GRPerson && recordType y == RecordType.GRFamily) ||
         (recordType x == RecordType.GRFamily && recordType y == RecordType.GRPerson)))))

/-- A step of createPartition: from a record of `rs` to a record that one of its link
lines is found to lead to. -/
def follows (rs : List GNode) (index : GNodeIndex) (x y : GNode) : Prop :=
  x ∈ rs ∧ y ∈ x.children.filterMap (linkTarget index x)

/-- The invariant of the loop of createPartition started from `seed` with the visited set
`visited0`: the queue and the records visited since are reached from the seed by steps;
the steps from a record visited since lead to visited or queued records; the seed is
visited or queued; the partition holds the persons visited since. -/
structure ReachInv (rs : List GNode) (index : GNodeIndex) (seed : GNode)
    (visited0 : StringSet) (st : PartitionState) : Prop where
  mono : ∀ k ∈ visited0, k ∈ st.visited
  queue : ∀ x ∈ st.queue, x ∈ rs ∧ Relation.ReflTransGen (follows rs index) seed x
  reached : ∀ x ∈ rs, ∀ k, x.key = some k → k ∈ st.visited → k ∉ visited0 →
    Relation.ReflTransGen (follows rs index) seed x
  expanded : ∀ x ∈ rs, ∀ k, x.key = some k → k ∈ st.visited → k ∉ visited0 →
    ∀ y, follows rs index x y → (∃ k', y.key = some k' ∧ k' ∈ st.visited) ∨ y ∈ st.queue
  seeded : (∃ k, seed.key = some k ∧ k ∈ st.visited) ∨ seed ∈ st.queue
  persons : ∀ x, x ∈ st.partition ↔
    (x ∈ rs ∧ recordType x = RecordType.GRPerson ∧
      ∃ k, x.key = some k ∧ k ∈ st.visited ∧ k ∉ visited0)

/-- The visited set is closed under the steps of createPartition. -/
def ClosedSet (rs : List GNode) (index : GNodeIndex) (visited : StringSet) : Prop :=
  ∀ x ∈ rs, ∀ k, x.key = some k → k ∈ visited →
    ∀ y, follows rs index x y → ∃ k', y.key = some k' ∧ k' ∈ visited

/-- A partition is the set of the persons reached from its seed. -/
def ReachedFrom (rs : List GNode) (index : GNodeIndex) (seed : GNode)
    (partition : List GNode) : Prop :=
  seed ∈ rs ∧ ∀ x, x ∈ partition ↔
    (recordType x = RecordType.GRPerson ∧ Relation.ReflTransGen (follows rs index) seed x)

/-- Person `@I9@` without link lines. -/
def sol : GNode :=
  GNode.mk (some "@I9@") "INDI" none [line "NAME" "Sol /One/", line "SEX" "M"]

/-- Person `@I10@` with a FAMS line to `@F3@`. -/
def una : GNode :=
  GNode.mk (some "@I10@") "INDI" none [line "NAME" "Una /One/", line "SEX" "F", line "FAMS" "@F3@"]

/-- Family `@F3@` with HUSB `@I9@` and WIFE `@I10@`. -/
def fam3 : GNode :=
  GNode.mk (some "@F3@") "FAM" none [line "HUSB" "@I9@", line "WIFE" "@I10@"]

/-- Records in which `@I9@` has no FAMS line back to `@F3@`. -/
def recordsOneWay : GNodeList :=
  [sol, una, fam3]

/-! ## Sequences (sequence.h) -/

/-- The `SortType` declaration of sequence.h: the sorted states of a Sequence. -/
inductive SortType where
  | SequenceNotSorted
  | SequenceKeySorted
  | SequenceNameSorted
  | SequenceValueSorted
  deriving DecidableEq, Repr

/-- Modelled from the spec: an element of a Sequence is the record key, the display name
(null until it is resolved) and an opaque per-element value (§4.6); sequence.h keeps the
root of the record, whose key is the record key. The `void*` value is a number here. -/
structure SequenceEl where
  key : String
  name : Option String
  value : Option Nat
  deriving DecidableEq, Repr

/-- The `Sequence` declaration of sequence.h: the block of elements, in order, the sort
state, the unique flag and the owning database. -/
structure Sequence where
  block : List SequenceEl
  sortType : SortType
  unique : Bool
  database : Database

/-- Modelled from the spec: `createSequenceEl` (sequence.c) is absent from src. An element
with the key and the value; the display name is resolved lazily (§4.6). -/
def createSequenceEl (_database : Database) (key : String) (value : Option Nat) : SequenceEl :=
  { key := key, name := none, value := value }

/-- Modelled from the spec: `createSequence` (sequence.c) is absent from src. An empty,
unsorted Sequence that refers to the database (§4.6). -/
def createSequence (database : Database) : Sequence :=
  { block := [], sortType := SortType.SequenceNotSorted, unique := false,
    database := database }

/-- Modelled from the spec: `lengthSequence` (sequence.c) is absent from src. The length a
Sequence carries (§4.6): the number of elements of its block. -/
def lengthSequence (sequence : Sequence) : Nat :=
  sequence.block.length

/-- Modelled from the spec: `emptySequence` (sequence.c) is absent from src. It truncates
the Sequence to zero length and preserves the database (§4.6 `empty`). -/
def emptySequence (sequence : Sequence) : Sequence :=
  { block := [], sortType := sequence.sortType, unique := sequence.unique,
    database := sequence.database }

/-- Modelled from the spec: `appendToSequence` (sequence.c) is absent from src. It appends
an element and sets sortType to unsorted and unique to false (§4.6 `append`). -/
def appendToSequence (sequence : Sequence) (key : String) (value : Option Nat) : Sequence :=
  { block := sequence.block ++ [createSequenceEl sequence.database key value],
    sortType := SortType.SequenceNotSorted, unique := false,
    database := sequence.database }

/-- Modelled from the spec: `isInSequence` (sequence.c) is absent from src. The scan of
the block for an element with the key (§4.6 `contains`); the cost bound of the
key-sorted case is not modelled. -/
def isInSequence (sequence : Sequence) (key : String) : Bool :=
  sequence.block.any (fun el => el.key == key)

/-- The block without its first element that has the key; `none` when no element has
it. -/
def removeFirstWithKey (key : String) : List SequenceEl → Option (List SequenceEl)
  | [] => none
  | el :: rest =>
    if el.key == key then some rest
    else (removeFirstWithKey key rest).map (fun r => el :: r)

/-- Modelled from the spec: `removeFromSequence` (sequence.c) is absent from src. It
removes the first occurrence of the key and returns whether it was found (§4.6
`remove`): the result and the Sequence after the call. -/
def removeFromSequence (sequence : Sequence) (key : String) : Bool × Sequence :=
  match removeFirstWithKey key sequence.block with
  | none => (false, sequence)
  | some block =>
    (true, { block := block, sortType := sequence.sortType, unique := sequence.unique,
             database := sequence.database })

/-- The Sequence of testsequence.c when it tests `isInSequence`: created, `@I1@`
appended, emptied, `@I1@` appended again, then `@I2@` appended. -/
def testSequence (database : Database) : Sequence :=
  appendToSequence
    (appendToSequence
      (emptySequence (appendToSequence (createSequence database) "@I1@" none))
      "@I1@" none)
    "@I2@" none

/-- The Sequence that `appendToSequence` builds from a start Sequence and a list of keys
and values, one call per item. -/
def appendAllToSequence (sequence : Sequence) (items : List (String × Option Nat)) : Sequence :=
  items.foldl (fun s item => appendToSequence s item.1 item.2) sequence

/-! ## Example data for validateFamily -/

/-- The persons `@I9@` and `@I10@` and the family `@F3@`, whose husband `@I9@` has no FAMS
line back to it. -/
def toyDatabaseOneWay : Database :=
  mkDatabase [sol, una] [fam3]

/-- Person `@I11@` with two FAMS lines to `@F4@`. -/
def jim : GNode :=
  GNode.mk (some "@I11@") "INDI" none
    [line "NAME" "Jim /Four/", line "SEX" "M", line "FAMS" "@F4@", line "FAMS" "@F4@"]

/-- Family `@F4@` with HUSB `@I11@`. -/
def fam4 : GNode :=
  GNode.mk (some "@F4@") "FAM" none [line "HUSB" "@I11@"]

/-- The person `@I11@`, who links twice to the family `@F4@`. -/
def toyDatabaseTwice : Database :=
  mkDatabase [jim] [fam4]

/-- The visited set and the log after the scan of getPartitions has passed one more
record of the list. -/
def scanStep (gnodes : GNodeList) (index : GNodeIndex) (st : StringSet × ErrorLog)
    (root : GNode) : StringSet × ErrorLog :=
  match root.key with
  | none => st
  | some key =>
    if isInSet st.1 key then st
    else
      match createPartition root gnodes index st.1 st.2 with
      | none => st
      | some (_, visited, log) => (visited, log)

/-- The visited set and the log when the scan of getPartitions has passed the records
`pre`, the first records of the list. -/
def scanState (gnodes : GNodeList) (index : GNodeIndex) (log : ErrorLog)
    (pre : List GNode) : StringSet × ErrorLog :=
  pre.foldl (scanStep gnodes index) ([], log)

/-- The record has a key that is unvisited when the scan, having passed the records
`pre`, reaches it. -/
def isSeed (gnodes : GNodeList) (index : GNodeIndex) (log : ErrorLog) (pre : List GNode)
    (root : GNode) : Bool :=
  match root.key with
  | none => false
  | some key => !isInSet (scanState gnodes index log pre).1 key

/-- The records of `rest`, in their order, that are unvisited when the scan reaches
them; `pre` holds the records before `rest`. -/
def seedsFrom (gnodes : GNodeList) (index : GNodeIndex) (log : ErrorLog) :
    List GNode → List GNode → List GNode
  | _, [] => []
  | pre, root :: rest =>
    if isSeed gnodes index log pre root then
      root :: seedsFrom gnodes index log (pre ++ [root]) rest
    else seedsFrom gnodes index log (pre ++ [root]) rest

/-- The seeds of getPartitions, in the spec's words: the records of the input list that
are unvisited when the scan of the list reaches them, in the order of the list. -/
def partitionSeeds (gnodes : GNodeList) (index : GNodeIndex) (log : ErrorLog) : List GNode :=
  seedsFrom gnodes index log [] gnodes

/-- The records of the toy family with the family record first. -/
def familyFirst : GNodeList :=
  [fam1, tom, lu, kid]

/-- Source record `@S1@`: a record with a key that is neither a person nor a family. -/
def sourceRecord : GNode :=
  GNode.mk (some "@S1@") "SOUR" none [line "TITL" "Parish register"]

/-! ## The database after addChildToFamily -/

/-- The record index after an in-place edit of a record: the element that holds the
record (one root per key) now holds the edited tree. -/
def updateRecord (index : RecordIndex) (root : GNode) : RecordIndex :=
  index.map (fun el =>
    if sameNode el.root root then { root := root, lineNumber := el.lineNumber } else el)

/-- The database after the call `addChildToFamily(child, family, index, database)`, which
edits the two records in place; `none` when the call does not return. -/
def databaseAfterAddChild (child family : GNode) (index : Int) (database : Database) :
    Option Database :=
  (addChildToFamily child family index database).map (fun r =>
    { personIndex := updateRecord database.personIndex r.2.2,
      familyIndex := updateRecord database.familyIndex r.2.1,
      lastSegment := database.lastSegment })

/-- What validatePerson checks, line by line: every FAMC line of the person resolves to a
family that has exactly one CHIL line resolving to the person, and every FAMS line
resolves to a family whose first husband is the person, a male, or whose first wife is
the person, a female. -/
def personLinked (person : GNode) (database : Database) : Prop :=
  (∀ n ∈ chainWithTag person "FAMC", ∃ f, keyToFamily n.value database = some f ∧
    chilCount person f database = 1) ∧
  (∀ n ∈ chainWithTag person "FAMS", ∃ f, keyToFamily n.value database = some f ∧
    ((SEXV person = SexType.sexMale ∧
        sameNodeOpt person (familyToHusband f database) = true) ∨
      (SEXV person = SexType.sexFemale ∧
        sameNodeOpt person (familyToWife f database) = true)))

/-- The two families of scenario S6 as a database. -/
def toyDatabaseTwoFamilies : Database :=
  mkDatabase [tom, abe, lu, bea, kid] [fam1, fam2]

/-! ## Counting what createPartition does -/

/-- The number of link lines of a record: the lines the `for` loop of createPartition
looks up when it expands the record. -/
def linkLines (root : GNode) : Nat :=
  (root.children.filter (fun c => (linkTags root).contains c.tag)).length

/-- The total number of link lines of the records of a list. -/
def totalLinkLines (records : List GNode) : Nat :=
  (records.map linkLines).sum

/-- The link lines of the records of a list whose key is not yet in the visited set. -/
def pendingLinks (records : List GNode) (visited : StringSet) : Nat :=
  (records.map (fun r =>
    match r.key with
    | none => 0
    | some k => if isInSet visited k then 0 else linkLines r)).sum

/-- What createPartition has done so far: the number of `prependToList` calls on the
queue, the keys passed to `addToSet` (the last one first) and the records whose child
lines the loop went on to expand (the last one first). -/
structure PartitionCount where
  insertions : Nat
  added : List String
  expanded : List GNode

/-- The counts after one iteration of the `while` loop of createPartition for the record
taken from the queue: nothing happens for a null or visited key; otherwise there is one
`addToSet` call, the record is expanded, and there is one `prependToList` call for each
of its link lines that is found in the index. -/
def countRecord (index : GNodeIndex) (root : GNode) (st : PartitionState)
    (count : PartitionCount) : PartitionCount :=
  match root.key with
  | none => count
  | some key =>
    if isInSet st.visited key then count
    else
      { insertions := count.insertions + (root.children.filterMap (linkTarget index root)).length,
        added := key :: count.added,
        expanded := root :: count.expanded }

/-- The `while` loop of createPartition together with the counts; `none` when the fuel
runs out before the queue is empty. -/
def createPartitionLoopCount (index : GNodeIndex) :
    Nat → PartitionState → PartitionCount → Option (PartitionState × PartitionCount)
  | 0, _, _ => none
  | fuel + 1, st, count =>
    match getAndRemoveLastListElement st.queue with
    | (none, _) => some (st, count)
    | (some root, queue) =>
      createPartitionLoopCount index fuel
        (processRecord index root
          { queue := queue, visited := st.visited, partition := st.partition, log := st.log })
        (countRecord index root
          { queue := queue, visited := st.visited, partition := st.partition, log := st.log }
          count)

/-- The counts of a call of createPartition; the first `prependToList` call puts the root
in the queue. -/
def createPartitionCount (root : GNode) (index : GNodeIndex) (visited : StringSet)
    (log : ErrorLog) : Option PartitionCount :=
  (createPartitionLoopCount index (createPartitionFuel root index)
    { queue := prependToList [] root, visited := visited, partition := [], log := log }
    { insertions := 1, added := [], expanded := [] }).map (fun r => r.2)

/-- The invariant of the loop of createPartition on its counts, for the records the
queue draws from, the visited set at the call and a bound: the visited set is the keys
added since on top of the old one, no key was added twice or was visited before, the
records expanded are the ones whose keys were added, and the insertions made plus the
link lines of the records not yet visited stay within the bound. -/
structure CountInv (records : List GNode) (visited : StringSet) (bound : Nat)
    (st : PartitionState) (count : PartitionCount) : Prop where
  visited_eq : st.visited = count.added ++ visited
  nodup : count.added.Nodup
  fresh : ∀ k ∈ count.added, k ∉ visited
  keys : count.expanded.map GNode.key = count.added.map some
  members : ∀ x ∈ count.expanded, x ∈ records
  bound : count.insertions + pendingLinks records st.visited ≤ bound
  queue : ∀ y ∈ st.queue, y ∈ records

/-! # Theorems -/

/-! ## Lemmas on the loops of validatePerson -/

theorem foldlOption_guard {α β : Type} (ok : α → Bool) (g : β → α → β) (f : β → α → Option β)
    (hf : ∀ b a, f b a = if ok a then some (g b a) else none) (l : List α) (b : β) :
    foldlOption f b l = if l.all ok then some (l.foldl g b) else none := by
  induction l generalizing b with
  | nil => rfl
  | cons a rest ih =>
    unfold foldlOption
    rw [hf]
    cases h : ok a with
    | true => simp [ih, h]
    | false => simp [h]

theorem foldl_checkLink (person : GNode) (database : Database) (tag : String)
    (links : List FamLink) (acc : ErrorLog × Nat) :
    foldlOption (checkLink person database tag) acc links =
      if (unresolved links).all (fun l => fitsBuffer (danglingMessage person database tag l)) then
        some (acc.1 ++ (unresolved links).map (danglingError person database tag),
          acc.2 + (unresolved links).length)
      else none := by
  induction links generalizing acc with
  | nil => simp [unresolved, foldlOption]
  | cons l ls ih =>
    simp only [foldlOption]
    by_cases h : l.family.isNone = true
    · by_cases hfit : fitsBuffer (danglingMessage person database tag l) = true
      · have hstep : checkLink person database tag acc l =
            some (acc.1 ++ [danglingError person database tag l], acc.2 + 1) := by
          simp [checkLink, h, hfit, addErrorToLog]
        rw [hstep]
        simp only [ih]
        have hu : unresolved (l :: ls) = l :: unresolved ls := by
          simp [unresolved, List.filter_cons, h]
        rw [hu]
        simp only [List.all_cons, hfit, Bool.true_and, List.map_cons, List.length_cons,
          List.append_assoc, List.singleton_append]
        have : acc.2 + 1 + (unresolved ls).length = acc.2 + ((unresolved ls).length + 1) := by
          omega
        rw [this]
      · have hstep : checkLink person database tag acc l = none := by
          simp [checkLink, h, hfit]
        rw [hstep]
        have hu : unresolved (l :: ls) = l :: unresolved ls := by
          simp [unresolved, List.filter_cons, h]
        rw [hu]
        simp [hfit]
    · have hstep : checkLink person database tag acc l = some acc := by
        simp [checkLink, h]
      rw [hstep]
      simp only [ih]
      have hu : unresolved (l :: ls) = unresolved ls := by
        simp [unresolved, List.filter_cons, h]
      rw [hu]

theorem numOccurrences_fold (person : GNode) (children : List GNode) (n : Nat) :
    children.foldl (fun n child => if sameNode person child then n + 1 else n) n =
      n + (children.filter (fun c => sameNode person c)).length := by
  induction children generalizing n with
  | nil => simp
  | cons c cs ih =>
    rw [List.foldl_cons, ih]
    by_cases h : sameNode person c = true
    · simp [h, List.filter_cons]
      omega
    · simp [h, List.filter_cons]

theorem filterMap_filter_sameNode (person : GNode) (database : Database) (ls : List LineAt) :
    ((ls.filterMap (fun l => keyToPerson l.node.value database)).filter
        (fun c => sameNode person c)).length =
      (ls.filter (fun l => sameNodeOpt person (keyToPerson l.node.value database))).length := by
  induction ls with
  | nil => simp
  | cons l ls ih =>
    cases hk : keyToPerson l.node.value database with
    | none => simp [List.filterMap_cons, List.filter_cons, hk, sameNodeOpt, ih]
    | some c =>
      by_cases h : sameNode person c = true
      · simp [List.filterMap_cons, List.filter_cons, hk, sameNodeOpt, h, ih]
      · simp [List.filterMap_cons, List.filter_cons, hk, sameNodeOpt, h, ih]

theorem numOccurrences_eq_chilCount (person family : GNode) (database : Database) :
    numOccurrences person family database =
      if (FORCHILDREN family database).all (fun child => (NAME child).isSome) then
        some (chilCount person family database)
      else none := by
  unfold numOccurrences
  rw [foldlOption_guard (fun child => (NAME child).isSome)
    (fun n child => if sameNode person child then n + 1 else n)]
  · rw [numOccurrences_fold, Nat.zero_add]
    unfold chilCount FORCHILDREN
    rw [filterMap_filter_sameNode]
  · intro n child
    cases NAME child with
    | none => rfl
    | some _ => rfl

theorem foldl_checkChild (person : GNode) (database : Database)
    (links : List FamLink) (acc : ErrorLog × Nat) :
    foldlOption (checkChild person database) acc links =
      if links.all (fun l =>
          match l.family with
          | none => true
          | some family =>
            (FORCHILDREN family database).all (fun child => (NAME child).isSome)) then
        some (acc.1 ++ links.filterMap (childError person database),
          acc.2 + (links.filterMap (childError person database)).length)
      else none := by
  induction links generalizing acc with
  | nil => simp [foldlOption]
  | cons l ls ih =>
    simp only [foldlOption]
    cases hf : l.family with
    | none =>
      have hstep : checkChild person database acc l = some acc := by
        simp [checkChild, hf]
      have herr : childError person database l = none := by
        simp [childError, hf]
      rw [hstep]
      simp only [ih, List.all_cons, hf, Bool.true_and, List.filterMap_cons, herr]
    | some family =>
      cases hn : (FORCHILDREN family database).all (fun child => (NAME child).isSome) with
      | false =>
        have hstep : checkChild person database acc l = none := by
          simp only [checkChild, hf, numOccurrences_eq_chilCount, hn]
          rfl
        rw [hstep]
        simp [hf, hn]
      | true =>
        by_cases h0 : chilCount person family database = 0
        · have hstep : checkChild person database acc l =
              some (acc.1 ++ [childNotFound database], acc.2 + 1) := by
            simp only [checkChild, hf, numOccurrences_eq_chilCount, hn, if_true, h0]
            rfl
          have herr : childError person database l = some (childNotFound database) := by
            simp [childError, hf, h0]
          rw [hstep]
          simp only [ih, List.all_cons, hf, hn, Bool.true_and, List.filterMap_cons, herr,
            List.length_cons, List.append_assoc, List.singleton_append]
          have : acc.2 + 1 + (ls.filterMap (childError person database)).length =
              acc.2 + ((ls.filterMap (childError person database)).length + 1) := by omega
          rw [this]
        · by_cases h1 : 1 < chilCount person family database
          · have hstep : checkChild person database acc l =
                some (acc.1 ++ [duplicateChild database], acc.2 + 1) := by
              simp only [checkChild, hf, numOccurrences_eq_chilCount, hn, if_true, h0,
                if_false, gt_iff_lt, h1]
              rfl
            have herr : childError person database l = some (duplicateChild database) := by
              simp [childError, hf, h0, h1]
            rw [hstep]
            simp only [ih, List.all_cons, hf, hn, Bool.true_and, List.filterMap_cons, herr,
              List.length_cons, List.append_assoc, List.singleton_append]
            have : acc.2 + 1 + (ls.filterMap (childError person database)).length =
                acc.2 + ((ls.filterMap (childError person database)).length + 1) := by omega
            rw [this]
          · have hstep : checkChild person database acc l = some acc := by
              simp only [checkChild, hf, numOccurrences_eq_chilCount, hn, if_true, h0,
                if_false, gt_iff_lt, h1]
            have herr : childError person database l = none := by
              simp [childError, hf, h0, h1]
            rw [hstep]
            simp only [ih, List.all_cons, hf, hn, Bool.true_and, List.filterMap_cons, herr]

theorem checkSpouse_eq (person : GNode) (database : Database)
    (acc : ErrorLog × Nat) (family : GNode) :
    checkSpouse person database (SEXV person) acc family =
      (acc.1 ++ spouseErrorsIn person database family,
       acc.2 + (spouseErrorsIn person database family).length) := by
  unfold checkSpouse spouseErrorsIn
  cases hs : SEXV person with
  | sexMale =>
    by_cases h : sameNodeOpt person (familyToHusband family database) = true
    · simp [h]
    · simp [h, addErrorToLog, spouseNotLinked]
  | sexFemale =>
    by_cases h : sameNodeOpt person (familyToWife family database) = true
    · simp [h]
    · simp [h, addErrorToLog, spouseNotLinked]
  | sexUnknown =>
    simp [sameNodeOpt, addErrorToLog, spouseNotLinked, spouseSexUnknown]

theorem foldl_checkSpouse (person : GNode) (database : Database)
    (families : List GNode) (acc : ErrorLog × Nat) :
    families.foldl (checkSpouse person database (SEXV person)) acc =
      (acc.1 ++ (families.map (spouseErrorsIn person database)).flatten,
       acc.2 + ((families.map (spouseErrorsIn person database)).flatten).length) := by
  induction families generalizing acc with
  | nil => simp
  | cons f fs ih =>
    rw [List.foldl_cons, ih, checkSpouse_eq]
    simp [List.append_assoc]
    omega

theorem three_pass (database : Database) (log D1 D2 C S : List Error) (named : Bool) :
    (if (0 + D1.length + D2.length) ≠ 0 then some (false, database, log ++ D1 ++ D2)
     else
       match (if named then
           some (log ++ D1 ++ D2 ++ C, 0 + D1.length + D2.length + C.length)
         else none : Option (ErrorLog × Nat)) with
       | none => none
       | some acc3 =>
         if acc3.2 ≠ 0 then some (false, database, acc3.1)
         else some ((acc3.2 + S.length) == 0, database, acc3.1 ++ S)) =
    (if (!(D1 ++ D2).isEmpty || named) then
      some (decide ((if D1 ++ D2 ≠ [] then D1 ++ D2 else if C ≠ [] then C else S) = []),
        database, log ++ (if D1 ++ D2 ≠ [] then D1 ++ D2 else if C ≠ [] then C else S))
     else none) := by
  cases D1 with
  | cons d ds => simp
  | nil =>
    cases D2 with
    | cons d ds => simp
    | nil =>
      cases named with
      | false => simp
      | true =>
        cases C with
        | cons c cs => simp
        | nil =>
          cases S with
          | cons x xs => simp
          | nil => simp

/-- The result of validatePerson written with the per-line error lists: when the call
has a result, the database is the same, the log grows by `personErrors`, and the call
returns true exactly when that list is empty. -/
theorem validatePerson_eq (person : GNode) (database : Database) (errorLog : ErrorLog) :
    validatePerson person database errorLog =
      if personRuns person database then
        some (decide (personErrors person database = []), database,
          errorLog ++ personErrors person database)
      else none := by
  unfold validatePerson personRuns
  cases hN : NAME person with
  | none => simp
  | some n =>
    simp only [foldl_checkLink, Option.isSome_some, Bool.true_and]
    cases hA : (unresolved (FORFAMCS person database)).all
        (fun l => fitsBuffer (danglingMessage person database "FAMC" l)) with
    | false => simp [linksFit, hA]
    | true =>
      simp only [if_true, foldl_checkLink]
      cases hB : (unresolved (FORFAMSS person database)).all
          (fun l => fitsBuffer (danglingMessage person database "FAMS" l)) with
      | false => simp [linksFit, hA, hB]
      | true =>
        have hfit : linksFit person database = true := by simp [linksFit, hA, hB]
        simp only [if_true, foldl_checkChild, foldl_checkSpouse, hfit, Bool.true_and]
        have h := three_pass database errorLog
          ((unresolved (FORFAMCS person database)).map (danglingError person database "FAMC"))
          ((unresolved (FORFAMSS person database)).map (danglingError person database "FAMS"))
          ((FORFAMCS person database).filterMap (childError person database))
          ((FORFAMILIES person database).map (spouseErrorsIn person database)).flatten
          (childrenNamed person database)
        simp only [List.length_map] at h
        unfold personErrors danglingErrors childErrors spouseErrors
        unfold childrenNamed at h ⊢
        exact h

theorem foldl_validatePerson (database : Database) (els : List RecordIndexEl)
    (ok : Bool) (errorLog : ErrorLog) :
    foldlOption
      (fun (acc : Bool × Database × ErrorLog) element =>
        match validatePerson element.root acc.2.1 acc.2.2 with
        | none => none
        | some r => some (if !r.1 then false else acc.1, r.2.1, r.2.2))
      (ok, database, errorLog) els =
      if els.all (fun el => personRuns el.root database) then
        some (ok && decide ((els.map (fun el => personErrors el.root database)).flatten = []),
          database,
          errorLog ++ (els.map (fun el => personErrors el.root database)).flatten)
      else none := by
  induction els generalizing ok errorLog with
  | nil => simp [foldlOption]
  | cons el els ih =>
    simp only [foldlOption]
    rw [validatePerson_eq]
    cases hr : personRuns el.root database with
    | false => simp [hr]
    | true =>
      simp only [if_true, ih, List.all_cons, hr, Bool.true_and, List.map_cons,
        List.flatten_cons, List.append_assoc]
      by_cases h : personErrors el.root database = []
      · simp [h]
      · simp [h]

theorem validatePersonIndex_eq (database : Database) (errorLog : ErrorLog) :
    validatePersonIndex database errorLog =
      if databaseRuns database then
        some (decide (databaseErrors database = []), database,
          errorLog ++ databaseErrors database)
      else none := by
  have h := foldl_validatePerson database database.personIndex true errorLog
  have h' : validatePersonIndex database errorLog = _ := h
  rw [h']
  unfold databaseErrors databaseRuns
  simp

theorem validateDatabase_eq (database : Database) (errorLog : ErrorLog) :
    validateDatabase database errorLog =
      if databaseRuns database then
        some (decide (errorLog ++ databaseErrors database = []), database,
          errorLog ++ databaseErrors database)
      else none := by
  unfold validateDatabase lengthList
  rw [validatePersonIndex_eq]
  cases hr : databaseRuns database with
  | false => simp
  | true =>
    simp only [if_true]
    by_cases h : errorLog ++ databaseErrors database = []
    · simp [h]
    · have hlen : (errorLog ++ databaseErrors database).length ≠ 0 := by
        intro h0
        exact h (List.length_eq_zero.mp h0)
      rw [if_pos hlen]
      simp [h]

/-- A call of validateDatabase that has a result: every call of validatePerson had one,
and the result is the closed form. -/
theorem validateDatabase_some (database : Database) (errorLog : ErrorLog)
    (r : Bool × Database × ErrorLog) (h : validateDatabase database errorLog = some r) :
    databaseRuns database = true ∧
      r = (decide (errorLog ++ databaseErrors database = []), database,
        errorLog ++ databaseErrors database) := by
  rw [validateDatabase_eq] at h
  cases hr : databaseRuns database with
  | false =>
    rw [hr] at h
    simp at h
  | true =>
    rw [hr] at h
    simp only [if_true, Option.some.injEq] at h
    exact ⟨rfl, h.symm⟩

/-- The children a family yields are persons of the index. -/
theorem FORCHILDREN_mem (family : GNode) (database : Database) :
    ∀ child ∈ FORCHILDREN family database, ∃ el ∈ database.personIndex, el.root = child := by
  intro child hc
  unfold FORCHILDREN at hc
  rw [List.mem_filterMap] at hc
  obtain ⟨l, _, hl⟩ := hc
  unfold keyToPerson at hl
  cases hs : searchHashTable database.personIndex l.node.value with
  | none => simp [hs] at hl
  | some el =>
    simp [hs] at hl
    cases hv : l.node.value with
    | none => simp [searchHashTable, hv] at hs
    | some k =>
      rw [hv] at hs
      exact ⟨el, List.mem_of_find?_eq_some hs, hl⟩

/-- In a database whose persons all have NAME lines the children of every family have
NAME lines. -/
theorem childrenNamed_of_allNamed (database : Database) (h : allNamed database = true)
    (person : GNode) : childrenNamed person database = true := by
  unfold childrenNamed
  rw [List.all_eq_true]
  intro l _
  cases hf : l.family with
  | none => rfl
  | some family =>
    simp only
    rw [List.all_eq_true]
    intro child hc
    obtain ⟨el, hel, hroot⟩ := FORCHILDREN_mem family database child hc
    have := List.all_eq_true.mp h el hel
    rw [hroot] at this
    exact this

/-- Every call validateDatabase makes has a result when every person has a NAME line and
the messages of the dangling lines fit in the buffer. -/
theorem databaseRuns_of_named (database : Database) (hname : allNamed database = true)
    (hfit : allFit database = true) : databaseRuns database = true := by
  unfold databaseRuns
  rw [List.all_eq_true]
  intro el hel
  unfold personRuns
  have h1 := List.all_eq_true.mp hname el hel
  have h2 := List.all_eq_true.mp hfit el hel
  simp only at h1 h2
  rw [h1, h2, childrenNamed_of_allNamed database hname]
  simp

/-- No message is written for a person whose lines all resolve. -/
theorem linksFit_of_resolved (person : GNode) (database : Database)
    (hres : ∀ link ∈ FORFAMCS person database ++ FORFAMSS person database, link.family ≠ none) :
    linksFit person database = true := by
  have h1 : unresolved (FORFAMCS person database) = [] := by
    unfold unresolved
    rw [List.filter_eq_nil_iff]
    intro l hl hn
    exact hres l (List.mem_append_left _ hl) (by simpa using hn)
  have h2 : unresolved (FORFAMSS person database) = [] := by
    unfold unresolved
    rw [List.filter_eq_nil_iff]
    intro l hl hn
    exact hres l (List.mem_append_right _ hl) (by simpa using hn)
  unfold linksFit
  rw [h1, h2]
  rfl

/-- When validateDatabase returns true for an empty log, every call of validatePerson had
a result and no person has an error. -/
theorem personErrors_nil_of_valid (database : Database)
    (h : (validateDatabase database []).map (fun r => r.1) = some true) :
    ∀ el ∈ database.personIndex,
      personRuns el.root database = true ∧ personErrors el.root database = [] := by
  cases hv : validateDatabase database [] with
  | none =>
    rw [hv] at h
    simp at h
  | some r =>
    obtain ⟨hruns, hr⟩ := validateDatabase_some database [] r hv
    rw [hv, hr] at h
    simp only [Option.map_some', Option.some.injEq, List.nil_append, decide_eq_true_eq] at h
    unfold databaseErrors at h
    rw [List.flatten_eq_nil_iff] at h
    intro el hel
    exact ⟨List.all_eq_true.mp hruns el hel,
      h _ (List.mem_map.mpr ⟨el, hel, rfl⟩)⟩

/-! ## Lemmas on lines and messages -/

theorem linesFrom_node_mem (nodes : List GNode) (before : Nat) :
    ∀ l ∈ linesFrom before nodes, l.node ∈ nodes := by
  induction nodes generalizing before with
  | nil => simp [linesFrom]
  | cons n ns ih =>
    intro l hl
    simp only [linesFrom, List.mem_cons] at hl
    rcases hl with h | h
    · simp [h]
    · exact List.mem_cons_of_mem _ (ih _ l h)

theorem linesWithTag_nil_of_hasLine (family : GNode) (tag : String)
    (h : hasLine family tag = false) : linesWithTag family tag = [] := by
  unfold hasLine findTag at h
  have hnone : family.children.find? (fun n => n.tag == tag) = none := by
    cases hf : family.children.find? (fun n => n.tag == tag) with
    | none => rfl
    | some x => simp [hf] at h
  rw [List.find?_eq_none] at hnone
  unfold linesWithTag
  rw [List.filter_eq_nil_iff]
  intro l hl
  exact hnone l.node (linesFrom_node_mem _ _ l hl)

theorem danglingMessage_ne (person : GNode) (database : Database) (tag : String)
    (link : FamLink) (s : String) (hs : s.data.head? ≠ some 'I') :
    danglingMessage person database tag link ≠ s := by
  intro h
  have hd := congrArg String.data h
  unfold danglingMessage at hd
  simp only [String.data_append] at hd
  rw [← hd] at hs
  simp at hs

theorem danglingErrors_message (person : GNode) (database : Database) :
    ∀ e ∈ danglingErrors person database,
      e.type = ErrorType.linkageError ∧ e.message ≠ "Child not found" ∧
        e.message ≠ "Too many children found" := by
  intro e he
  unfold danglingErrors at he
  simp only [List.mem_append, List.mem_map] at he
  rcases he with ⟨l, _, rfl⟩ | ⟨l, _, rfl⟩
  · refine ⟨rfl, ?_, ?_⟩
    · exact danglingMessage_ne _ _ _ _ _ (by decide)
    · exact danglingMessage_ne _ _ _ _ _ (by decide)
  · refine ⟨rfl, ?_, ?_⟩
    · exact danglingMessage_ne _ _ _ _ _ (by decide)
    · exact danglingMessage_ne _ _ _ _ _ (by decide)

theorem childErrors_message (person : GNode) (database : Database) :
    ∀ e ∈ childErrors person database,
      e.message = "Child not found" ∨ e.message = "Too many children found" := by
  intro e he
  unfold childErrors at he
  rw [List.mem_filterMap] at he
  obtain ⟨l, _, hl⟩ := he
  unfold childError at hl
  split at hl
  · simp at hl
  · split at hl
    · simp at hl
      left
      rw [← hl]
      rfl
    · split at hl
      · simp at hl
        right
        rw [← hl]
        rfl
      · simp at hl

theorem spouseErrors_message (person : GNode) (database : Database) :
    ∀ e ∈ spouseErrors person database,
      e.message = "Person used as spouse has no sex." ∨
        e.message = "Family does not link back to spouse." := by
  intro e he
  unfold spouseErrors at he
  simp only [List.mem_flatten, List.mem_map] at he
  obtain ⟨l, ⟨f, _, rfl⟩, hel⟩ := he
  unfold spouseErrorsIn at hel
  split at hel
  · split at hel
    · simp at hel
    · simp at hel
      right
      rw [hel]
      rfl
  · split at hel
    · simp at hel
    · simp at hel
      right
      rw [hel]
      rfl
  · simp at hel
    rcases hel with h | h
    · left
      rw [h]
      rfl
    · right
      rw [h]
      rfl

theorem danglingErrors_eq_nil_iff (person : GNode) (database : Database) :
    danglingErrors person database = [] ↔
      ∀ link ∈ FORFAMCS person database ++ FORFAMSS person database, link.family ≠ none := by
  unfold danglingErrors unresolved
  simp only [List.append_eq_nil, List.map_eq_nil_iff, List.filter_eq_nil_iff, List.mem_append]
  constructor
  · rintro ⟨h1, h2⟩ link (hl | hl) hnone
    · exact h1 link hl (by simp [hnone])
    · exact h2 link hl (by simp [hnone])
  · intro h
    constructor
    · intro l hl hn
      exact h l (Or.inl hl) (by simpa using hn)
    · intro l hl hn
      exact h l (Or.inr hl) (by simpa using hn)

/-! ## The claims on the validator -/

/-- C1 (counterexample): called on the valid toy database with a log that already holds
one entry, validateDatabase appends nothing to the log and still returns false. -/
theorem validateDatabase_old_entry_false :
    resultAndLog (validateDatabase toyDatabase [oldError]) = some (false, [oldError]) := by
  decide

/-- C1 (amended): on a database in which every person has a NAME line and the messages
of the dangling lines fit in the buffer, validateDatabase returns. Whenever it returns,
it has only appended to the log, and it returns true if and only if the log is empty
after the call, that is, if and only if the log was empty before the call and the call
appended zero entries. -/
theorem validateDatabase_true_iff_log_empty (database : Database) (errorLog : ErrorLog) :
    (allNamed database = true → allFit database = true →
      ∃ r, validateDatabase database errorLog = some r) ∧
    ∀ r, validateDatabase database errorLog = some r →
      ∃ appended, r.2.2 = errorLog ++ appended ∧
        (r.1 = true ↔ errorLog = [] ∧ appended = []) ∧
        (r.1 = true ↔ r.2.2 = []) := by
  constructor
  · intro hname hfit
    rw [validateDatabase_eq, databaseRuns_of_named database hname hfit]
    exact ⟨_, rfl⟩
  · intro r hr
    obtain ⟨_, hr'⟩ := validateDatabase_some database errorLog r hr
    rw [hr']
    refine ⟨databaseErrors database, rfl, ?_, ?_⟩
    · simp
    · simp

/-- C1 (witness): the toy database, with an empty log and with a log that holds an entry. -/
theorem validateDatabase_true_iff_log_empty_witness :
    allNamed toyDatabase = true ∧ allFit toyDatabase = true ∧
    ((allNamed toyDatabase = true → allFit toyDatabase = true →
      ∃ r, validateDatabase toyDatabase [oldError] = some r) ∧
    ∀ r, validateDatabase toyDatabase [oldError] = some r →
      ∃ appended, r.2.2 = [oldError] ++ appended ∧
        (r.1 = true ↔ [oldError] = [] ∧ appended = []) ∧
        (r.1 = true ↔ r.2.2 = [])) ∧
    resultAndLog (validateDatabase toyDatabase []) = some (true, []) :=
  ⟨by decide, by decide, validateDatabase_true_iff_log_empty toyDatabase [oldError], by decide⟩

/-- C2 (counterexample): the database holds the family `@F2@`, which has no HUSB, no WIFE
and no CHIL line, and validateDatabase returns true with an empty log. -/
theorem validateDatabase_skips_empty_family :
    (∃ el ∈ toyDatabaseEmptyFamily.familyIndex, el.root = famEmpty) ∧
      hasLine famEmpty "HUSB" = false ∧ hasLine famEmpty "WIFE" = false ∧
      hasLine famEmpty "CHIL" = false ∧
      resultAndLog (validateDatabase toyDatabaseEmptyFamily []) = some (true, []) := by
  refine ⟨⟨{ root := famEmpty, lineNumber := 0 }, ?_, rfl⟩, ?_, ?_, ?_, ?_⟩
  · simp [toyDatabaseEmptyFamily, mkDatabase]
  · decide
  · decide
  · decide
  · decide

/-- C2 (amended): validateDatabase runs the person pass only, so the log after it is the
log after validatePersonIndex; validateFamily itself, applied to a family with no
HUSB, no WIFE and no CHIL line, appends the one empty-family error and returns true. -/
theorem validateFamily_empty_family (family : GNode) (database : Database) (errorLog : ErrorLog)
    (hH : hasLine family "HUSB" = false) (hW : hasLine family "WIFE" = false)
    (hC : hasLine family "CHIL" = false) :
    validateFamily family database errorLog =
        some (true, errorLog ++ [emptyFamily database]) ∧
      (validateDatabase database errorLog).map (fun r => r.2.2) =
        (validatePersonIndex database errorLog).map (fun r => r.2.2) := by
  constructor
  · unfold validateFamily FORHUSBS FORWIFES FORCHILDREN
    rw [linesWithTag_nil_of_hasLine _ _ hH, linesWithTag_nil_of_hasLine _ _ hW,
      linesWithTag_nil_of_hasLine _ _ hC]
    simp [hH, hW, hC, addErrorToLog, emptyFamily]
  · rw [validateDatabase_eq, validatePersonIndex_eq]
    cases databaseRuns database with
    | false => rfl
    | true => rfl

/-- C2 (witness): the empty family `@F2@` in the toy database. -/
theorem validateFamily_empty_family_witness :
    validateFamily famEmpty toyDatabaseEmptyFamily [] =
        some (true, [] ++ [emptyFamily toyDatabaseEmptyFamily]) ∧
      (validateDatabase toyDatabaseEmptyFamily []).map (fun r => r.2.2) =
        (validatePersonIndex toyDatabaseEmptyFamily []).map (fun r => r.2.2) :=
  validateFamily_empty_family famEmpty toyDatabaseEmptyFamily []
    (by decide) (by decide) (by decide)

/-- C3 (counterexample): `@I3@` has a FAMC line to the missing `@F9@` and a FAMC line to
`@F1@`, which resolves and has no CHIL line for `@I3@`; validatePerson appends the
dangling-link error only, no ChildNotFound error. -/
theorem validatePerson_short_circuit :
    (FORFAMCS kidDangling toyDatabaseDangling).map (fun l => (l.key, l.family.isSome)) =
        [(some "@F1@", true), (some "@F9@", false)] ∧
      (keyToFamily (some "@F1@") toyDatabaseDangling).map
          (fun f => chilCount kidDangling f toyDatabaseDangling) = some 0 ∧
      resultAndLog (validatePerson kidDangling toyDatabaseDangling []) =
        some (false, [createError ErrorType.linkageError "toy.ged" 0
          "INDI @I3@ (line 0): FAMC @F9@ (line 4) does not refer to a family."]) := by
  decide

/-- C3 (amended): validatePerson stops after the pass that finds errors. For a person
that has a NAME line and at least one FAMC or FAMS line that does not resolve, the
messages of these lines fitting in the buffer, it appends one dangling-link error per
such line, nothing else (no ChildNotFound or DuplicateChild error), and returns
false. -/
theorem validatePerson_dangling_stops (person : GNode) (database : Database)
    (errorLog : ErrorLog) (hname : (NAME person).isSome = true)
    (hfit : linksFit person database = true)
    (h : ∃ link ∈ FORFAMCS person database ++ FORFAMSS person database, link.family = none) :
    validatePerson person database errorLog =
        some (false, database, errorLog ++ danglingErrors person database) ∧
      (danglingErrors person database).length =
        (unresolved (FORFAMCS person database)).length +
          (unresolved (FORFAMSS person database)).length ∧
      ∀ e ∈ danglingErrors person database,
        e.type = ErrorType.linkageError ∧ e.message ≠ "Child not found" ∧
          e.message ≠ "Too many children found" := by
  have hd : danglingErrors person database ≠ [] := by
    intro hnil
    obtain ⟨link, hl, hnone⟩ := h
    exact (danglingErrors_eq_nil_iff person database).mp hnil link hl hnone
  have hruns : personRuns person database = true := by
    unfold personRuns
    rw [hname, hfit]
    cases hD : danglingErrors person database with
    | nil => exact absurd hD hd
    | cons e es => rfl
  refine ⟨?_, ?_, danglingErrors_message person database⟩
  · rw [validatePerson_eq, hruns]
    unfold personErrors
    simp [hd]
  · simp [danglingErrors]

/-- C3 (witness): `@I3@` with its dangling FAMC line. -/
theorem validatePerson_dangling_stops_witness :
    (NAME kidDangling).isSome = true ∧ linksFit kidDangling toyDatabaseDangling = true ∧
    (validatePerson kidDangling toyDatabaseDangling [] =
        some (false, toyDatabaseDangling, [] ++ danglingErrors kidDangling toyDatabaseDangling) ∧
      (danglingErrors kidDangling toyDatabaseDangling).length =
        (unresolved (FORFAMCS kidDangling toyDatabaseDangling)).length +
          (unresolved (FORFAMSS kidDangling toyDatabaseDangling)).length ∧
      ∀ e ∈ danglingErrors kidDangling toyDatabaseDangling,
        e.type = ErrorType.linkageError ∧ e.message ≠ "Child not found" ∧
          e.message ≠ "Too many children found") :=
  ⟨by decide, by decide,
   validatePerson_dangling_stops kidDangling toyDatabaseDangling [] (by decide) (by decide)
    ⟨{ family := none, key := some "@F9@",
       line := { node := line "FAMC" "@F9@", before := 4 } },
     by simp [FORFAMCS, linesWithTag, linesFrom, kidDangling, GNode.children, GNode.tag, line,
          countNodes, countNodesList, GNode.value, keyToFamily, searchHashTable,
          toyDatabaseDangling, mkDatabase, fam1NoChil, GNode.key],
     rfl⟩⟩

theorem personErrors_of_resolved (person : GNode) (database : Database)
    (hres : ∀ link ∈ FORFAMCS person database ++ FORFAMSS person database, link.family ≠ none) :
    personErrors person database =
      childErrors person database ++
        (if childErrors person database ≠ [] then [] else spouseErrors person database) := by
  have hd : danglingErrors person database = [] :=
    (danglingErrors_eq_nil_iff person database).mpr hres
  unfold personErrors
  by_cases hc : childErrors person database = []
  · simp [hd, hc]
  · simp [hd, hc]

/-- For a person whose call of validatePerson has a result and whose FAMC and FAMS lines
all resolve, the FAMC/CHIL pass appends, line by line, exactly one error for each FAMC
line whose family has a number of CHIL lines resolving to the person other than 1:
ChildNotFound for zero, DuplicateChild for more than one, nothing for exactly one. What
follows these in the log are no child errors, and the call returns false when there is
one. -/
theorem child_errors_when_runs (person : GNode) (database : Database)
    (errorLog : ErrorLog) (hruns : personRuns person database = true)
    (hres : ∀ link ∈ FORFAMCS person database ++ FORFAMSS person database, link.family ≠ none) :
    (∀ link ∈ FORFAMCS person database, ∃ family, link.family = some family ∧
      (chilCount person family database = 0 →
        childError person database link = some (childNotFound database)) ∧
      (1 < chilCount person family database →
        childError person database link = some (duplicateChild database)) ∧
      (chilCount person family database = 1 → childError person database link = none)) ∧
    ∃ rest ok, validatePerson person database errorLog =
        some (ok, database,
          errorLog ++ (FORFAMCS person database).filterMap (childError person database) ++
            rest) ∧
      (∀ e ∈ rest, e.message ≠ "Child not found" ∧ e.message ≠ "Too many children found") ∧
      ((FORFAMCS person database).filterMap (childError person database) ≠ [] →
        rest = [] ∧ ok = false) := by
  constructor
  · intro link hl
    cases hf : link.family with
    | none => exact absurd hf (hres link (List.mem_append_left _ hl))
    | some family =>
      refine ⟨family, rfl, ?_, ?_, ?_⟩
      · intro h0
        simp [childError, hf, h0]
      · intro h1
        have h0 : chilCount person family database ≠ 0 := by omega
        simp [childError, hf, h0, h1]
      · intro h1
        simp [childError, hf, h1]
  · refine ⟨if childErrors person database ≠ [] then [] else spouseErrors person database,
      decide (personErrors person database = []), ?_, ?_, ?_⟩
    · rw [validatePerson_eq, hruns, personErrors_of_resolved person database hres]
      simp [childErrors, List.append_assoc]
    · intro e he
      by_cases hc : childErrors person database = []
      · simp [hc] at he
        rcases spouseErrors_message person database e he with h | h
        · rw [h]
          constructor <;> decide
        · rw [h]
          constructor <;> decide
      · simp [hc] at he
    · intro hne
      have hc : childErrors person database ≠ [] := hne
      constructor
      · simp [hc]
      · rw [personErrors_of_resolved person database hres]
        simp [hc]

/-- C4 (failing input): in scenario S2 `@I3@` has a NAME line, its links resolve, `@F1@` has no
CHIL line for it, and validatePerson appends ChildNotFound and returns false, as does
validateDatabase; in scenario S3 it appends DuplicateChild. With the NAME line of
`@I3@` dropped the call has no result (the read of `NAME(person)->value`), and nothing
is appended. For `@I3@` in the family with the second child `@I12@`, who has no NAME
line, the call has no result either (the read of `NAME(child)->value`). -/
theorem validatePerson_nameless_no_child_error :
    resultAndLog (validatePerson kid toyDatabaseS2 []) =
        some (false, [childNotFound toyDatabaseS2]) ∧
      resultAndLog (validateDatabase toyDatabaseS2 []) =
        some (false, [createError ErrorType.linkageError "toy.ged" 0 "Child not found"]) ∧
      resultAndLog (validateDatabase toyDatabaseS3 []) =
        some (false,
          [createError ErrorType.linkageError "toy.ged" 0 "Too many children found"]) ∧
      (NAME kidNoName).isNone = true ∧
      (FORFAMCS kidNoName toyDatabaseNoName ++ FORFAMSS kidNoName toyDatabaseNoName).map
          (fun l => (l.key, l.family.isSome)) = [(some "@F1@", true)] ∧
      chilCount kidNoName fam1NoChil toyDatabaseNoName = 0 ∧
      resultAndLog (validatePerson kidNoName toyDatabaseNoName []) = none ∧
      resultAndLog (validateDatabase toyDatabaseNoName []) = none ∧
      (NAME kid).isSome = true ∧ (NAME sib).isNone = true ∧
      (FORCHILDREN fam1Sib toyDatabaseSib).map GNode.key = [some "@I3@", some "@I12@"] ∧
      resultAndLog (validatePerson kid toyDatabaseSib []) = none := by
  decide

/-- C5 (failing input): `@F1@` has the HUSB lines `@I1@` and `@I4@`; Ned, `@I4@`, is male, all
his links resolve and he has no child errors, so he is among the persons of the HUSB
lines of his FAMS family, and validatePerson still appends SpouseNotLinked; Tom, the
husband of the first HUSB line, passes. -/
theorem validatePerson_second_husband_flagged :
    resultAndLog (validatePerson tom toyDatabaseTwoHusbands []) = some (true, []) ∧
      SEXV ned = SexType.sexMale ∧ ned.key = some "@I4@" ∧
      (FORFAMILIES ned toyDatabaseTwoHusbands).map GNode.key = [some "@F1@"] ∧
      (FORHUSBS fam1TwoHusbands toyDatabaseTwoHusbands).map GNode.key =
        [some "@I1@", some "@I4@"] ∧
      danglingErrors ned toyDatabaseTwoHusbands = [] ∧
      childErrors ned toyDatabaseTwoHusbands = [] ∧
      resultAndLog (validatePerson ned toyDatabaseTwoHusbands []) =
        some (false, [spouseNotLinked toyDatabaseTwoHusbands]) := by
  decide

/-- For a person whose call of validatePerson has a result, the call appends one linkage
error for each FAMC line that does not resolve and then one for each FAMS line that
does not resolve; when there is such a line it appends nothing else and returns false,
and what it appends otherwise is no dangling-link error. -/
theorem dangling_errors_when_runs (person : GNode) (database : Database)
    (errorLog : ErrorLog) (hruns : personRuns person database = true) :
    ∃ rest ok, validatePerson person database errorLog =
        some (ok, database, errorLog ++
          (unresolved (FORFAMCS person database)).map (danglingError person database "FAMC") ++
          (unresolved (FORFAMSS person database)).map (danglingError person database "FAMS") ++
          rest) ∧
      (∀ tag link, (danglingError person database tag link).type = ErrorType.linkageError) ∧
      (∀ e ∈ rest, ∀ tag link, e ≠ danglingError person database tag link) ∧
      ((unresolved (FORFAMCS person database) ≠ [] ∨
          unresolved (FORFAMSS person database) ≠ []) →
        rest = [] ∧ ok = false) := by
  refine ⟨if danglingErrors person database ≠ [] then []
      else if childErrors person database ≠ [] then childErrors person database
      else spouseErrors person database, decide (personErrors person database = []),
      ?_, ?_, ?_, ?_⟩
  · have key : ∀ rest : List Error, errorLog ++
          (unresolved (FORFAMCS person database)).map (danglingError person database "FAMC") ++
          (unresolved (FORFAMSS person database)).map (danglingError person database "FAMS") ++
          rest = errorLog ++ (danglingErrors person database ++ rest) := by
      intro rest
      simp [danglingErrors, List.append_assoc]
    rw [validatePerson_eq, hruns, key]
    unfold personErrors
    by_cases hd : danglingErrors person database = []
    · simp [hd]
    · simp [hd]
  · intro tag link
    rfl
  · intro e he tag link heq
    have hI : (danglingError person database tag link).message.data.head? = some 'I' := by
      simp [danglingError, createError, danglingMessage, String.data_append]
    rw [← heq] at hI
    by_cases hd : danglingErrors person database = []
    · by_cases hc : childErrors person database = []
      · simp [hd, hc] at he
        rcases spouseErrors_message person database e he with h | h
        · rw [h] at hI
          exact absurd hI (by decide)
        · rw [h] at hI
          exact absurd hI (by decide)
      · simp [hd, hc] at he
        rcases childErrors_message person database e he with h | h
        · rw [h] at hI
          exact absurd hI (by decide)
        · rw [h] at hI
          exact absurd hI (by decide)
    · simp [hd] at he
  · intro hne
    have hd : danglingErrors person database ≠ [] := by
      unfold danglingErrors
      intro hnil
      simp only [List.append_eq_nil, List.map_eq_nil_iff] at hnil
      rcases hne with h | h
      · exact h hnil.1
      · exact h hnil.2
    constructor
    · simp [hd]
    · unfold personErrors
      simp [hd]

/-- C6 (failing input): `@I3@` has a FAMC line to the missing `@F9@`. With its NAME line the
call appends the one dangling-link error and returns false; without the NAME line the
call has no result (the read of `NAME(person)->value`): no error is appended and false
is not returned. -/
theorem validatePerson_nameless_dangling :
    (unresolved (FORFAMCS kidDanglingNoName toyDatabaseDanglingNoName)).map
        (fun l => l.key) = [some "@F9@"] ∧
      (NAME kidDanglingNoName).isNone = true ∧
      resultAndLog (validatePerson kidDanglingNoName toyDatabaseDanglingNoName []) = none ∧
      (NAME kidDangling).isSome = true ∧
      resultAndLog (validatePerson kidDangling toyDatabaseDangling []) =
        some (false, [createError ErrorType.linkageError "toy.ged" 0
          "INDI @I3@ (line 0): FAMC @F9@ (line 4) does not refer to a family."]) := by
  decide

/-! ## Lemmas on key resolution -/

theorem searchHashTable_some (index : RecordIndex) (key : Option String) (el : RecordIndexEl)
    (h : searchHashTable index key = some el) : el.root.key = key ∧ el ∈ index := by
  unfold searchHashTable at h
  cases key with
  | none => simp at h
  | some k =>
    simp only at h
    have h1 := List.find?_some h
    have h2 := List.mem_of_find?_eq_some h
    simp at h1
    exact ⟨h1, h2⟩

theorem searchHashTable_of_mem (index : RecordIndex) (k : String) (el : RecordIndexEl)
    (hel : el ∈ index) (hk : el.root.key = some k) :
    ∃ el', searchHashTable index (some k) = some el' := by
  unfold searchHashTable
  simp only
  cases hf : index.find? (fun el => el.root.key == some k) with
  | some el' => exact ⟨el', rfl⟩
  | none =>
    rw [List.find?_eq_none] at hf
    have := hf el hel
    simp [hk] at this

theorem keyToPerson_some (database : Database) (v : Option String) (p : GNode)
    (h : keyToPerson v database = some p) :
    p.key = v ∧ ∃ el ∈ database.personIndex, el.root = p := by
  unfold keyToPerson at h
  cases hs : searchHashTable database.personIndex v with
  | none => simp [hs] at h
  | some el =>
    simp [hs] at h
    obtain ⟨h1, h2⟩ := searchHashTable_some _ _ _ hs
    rw [← h]
    exact ⟨h1, el, h2, rfl⟩

theorem keyToFamily_some (database : Database) (v : Option String) (f : GNode)
    (h : keyToFamily v database = some f) :
    f.key = v ∧ ∃ el ∈ database.familyIndex, el.root = f := by
  unfold keyToFamily at h
  cases hs : searchHashTable database.familyIndex v with
  | none => simp [hs] at h
  | some el =>
    simp [hs] at h
    obtain ⟨h1, h2⟩ := searchHashTable_some _ _ _ hs
    rw [← h]
    exact ⟨h1, el, h2, rfl⟩

theorem keyToPerson_of_mem (database : Database) (k : String) (el : RecordIndexEl)
    (hel : el ∈ database.personIndex) (hk : el.root.key = some k) :
    ∃ p, keyToPerson (some k) database = some p ∧ p.key = some k := by
  obtain ⟨el', hs⟩ := searchHashTable_of_mem _ k el hel hk
  refine ⟨el'.root, ?_, (searchHashTable_some _ _ _ hs).1⟩
  unfold keyToPerson
  rw [hs]
  rfl

/-- For a person of the index, a line resolves to the person exactly when its value is
the key of the person. -/
theorem sameNodeOpt_keyToPerson (database : Database) (el : RecordIndexEl)
    (hel : el ∈ database.personIndex) (k : String) (hk : el.root.key = some k)
    (l : LineAt) :
    sameNodeOpt el.root (keyToPerson l.node.value database) = refersTo l el.root := by
  unfold refersTo
  cases hv : l.node.value with
  | none => simp [keyToPerson, searchHashTable, sameNodeOpt]
  | some v =>
    by_cases hvk : v = k
    · subst hvk
      obtain ⟨p, hp, hpk⟩ := keyToPerson_of_mem database v el hel hk
      simp [hp, sameNodeOpt, sameNode, hk, hpk]
    · cases hp : keyToPerson (some v) database with
      | none => simp [sameNodeOpt, hk, hvk]
      | some p =>
        have hpk := (keyToPerson_some database _ p hp).1
        simp [sameNodeOpt, sameNode, hk, hpk, hvk]
        exact fun h => hvk h.symm

theorem personErrors_eq_nil_iff (person : GNode) (database : Database) :
    personErrors person database = [] ↔
      danglingErrors person database = [] ∧ childErrors person database = [] ∧
        spouseErrors person database = [] := by
  unfold personErrors
  by_cases hd : danglingErrors person database = []
  · by_cases hc : childErrors person database = []
    · simp [hd, hc]
    · simp [hd, hc]
  · simp [hd]

theorem childErrors_eq_nil_iff (person : GNode) (database : Database) :
    childErrors person database = [] ↔
      ∀ link ∈ FORFAMCS person database, ∀ family, link.family = some family →
        chilCount person family database = 1 := by
  unfold childErrors
  rw [List.filterMap_eq_nil_iff]
  constructor
  · intro h link hl family hf
    have := h link hl
    unfold childError at this
    simp only [hf] at this
    by_cases h0 : chilCount person family database = 0
    · simp [h0] at this
    · by_cases h1 : 1 < chilCount person family database
      · simp [h0, h1] at this
      · omega
  · intro h link hl
    unfold childError
    cases hf : link.family with
    | none => rfl
    | some family =>
      have := h link hl family hf
      simp [this]

theorem spouseErrors_eq_nil_iff (person : GNode) (database : Database) :
    spouseErrors person database = [] ↔
      ∀ family ∈ FORFAMILIES person database,
        (SEXV person = SexType.sexMale ∧
          sameNodeOpt person (familyToHusband family database) = true) ∨
        (SEXV person = SexType.sexFemale ∧
          sameNodeOpt person (familyToWife family database) = true) := by
  unfold spouseErrors
  simp only [List.flatten_eq_nil_iff, List.mem_map, forall_exists_index, and_imp,
    forall_apply_eq_imp_iff₂]
  constructor
  · intro h family hf
    have := h family hf
    unfold spouseErrorsIn at this
    cases hs : SEXV person with
    | sexMale =>
      simp only [hs] at this
      left
      refine ⟨rfl, ?_⟩
      by_contra hn
      simp [hn] at this
    | sexFemale =>
      simp only [hs] at this
      right
      refine ⟨rfl, ?_⟩
      by_contra hn
      simp [hn] at this
    | sexUnknown =>
      simp [hs] at this
  · intro h family hf
    unfold spouseErrorsIn
    rcases h family hf with ⟨hs, hp⟩ | ⟨hs, hp⟩
    · simp [hs, hp]
    · simp [hs, hp]

theorem firstRefersTo_head (database : Database) (el : RecordIndexEl)
    (hel : el ∈ database.personIndex) (lines : List LineAt)
    (h : firstRefersTo lines el.root = true) :
    sameNodeOpt el.root
      ((lines.filterMap (fun l => keyToPerson l.node.value database)).head?) = true := by
  cases lines with
  | nil => simp [firstRefersTo] at h
  | cons l rest =>
    simp only [firstRefersTo] at h
    have hr := h
    unfold refersTo at hr
    simp only [Bool.and_eq_true, beq_iff_eq] at hr
    obtain ⟨hsome, hval⟩ := hr
    obtain ⟨k, hk⟩ := Option.isSome_iff_exists.mp hsome
    have hkey : el.root.key = some k := by rw [← hval, hk]
    have hs := sameNodeOpt_keyToPerson database el hel k hkey l
    rw [h] at hs
    cases hp : keyToPerson l.node.value database with
    | none => simp [hp, sameNodeOpt] at hs
    | some p =>
      rw [hp] at hs
      simp [List.filterMap_cons, hp, hs]

theorem head_refersTo (database : Database) (person : GNode) (lines : List LineAt)
    (h : sameNodeOpt person
      ((lines.filterMap (fun l => keyToPerson l.node.value database)).head?) = true) :
    lines.any (fun l => refersTo l person) = true := by
  cases hh : (lines.filterMap (fun l => keyToPerson l.node.value database)).head? with
  | none => simp [hh, sameNodeOpt] at h
  | some p =>
    rw [hh] at h
    have hmem : p ∈ lines.filterMap (fun l => keyToPerson l.node.value database) :=
      List.mem_of_mem_head? hh
    rw [List.mem_filterMap] at hmem
    obtain ⟨l, hl, hlp⟩ := hmem
    have hpk := (keyToPerson_some database _ p hlp).1
    have hv : l.node.value.isSome = true := by
      cases hval : l.node.value with
      | none => simp [hval, keyToPerson, searchHashTable] at hlp
      | some v => rfl
    simp only [sameNodeOpt, sameNode, beq_iff_eq] at h
    rw [List.any_eq_true]
    refine ⟨l, hl, ?_⟩
    unfold refersTo
    simp [hv, h, hpk]

/-- C7 (counterexample): in the toy database with Pat, who has no SEX line and a FAMS line
to `@F1@`, all links resolve, every child is listed once and every male or female
spouse is referenced by a HUSB or WIFE line, and validateDatabase returns false with
two errors in the log. -/
theorem validateDatabase_sexless_spouse :
    allLinksResolve toyDatabasePat = true ∧ childrenListedOnce toyDatabasePat = true ∧
      spousesListed toyDatabasePat = true ∧
      resultAndLog (validateDatabase toyDatabasePat []) =
        some (false, [spouseSexUnknown toyDatabasePat, spouseNotLinked toyDatabasePat]) := by
  decide

/-- C7 (amended): when every person has a NAME line, all links resolve, every person
appears exactly once among the CHIL lines of each of its FAMC families, and every
person with a FAMS link to a family is male and referenced by the first HUSB line of
that family or female and referenced by its first WIFE line, validateDatabase called
with an empty log returns true and leaves the log empty. -/
theorem validateDatabase_consistent (database : Database)
    (hname : allNamed database = true)
    (h1 : allLinksResolve database = true) (h2 : childrenListedOnce database = true)
    (h3 : spousesListedFirst database = true) :
    validateDatabase database [] = some (true, database, []) := by
  have hfit : allFit database = true := by
    unfold allFit
    rw [List.all_eq_true]
    intro el hel
    apply linksFit_of_resolved
    intro link hl hnone
    unfold allLinksResolve at h1
    simp only [Bool.and_eq_true, List.all_eq_true] at h1
    have := h1.1 el hel link hl
    simp [hnone] at this
  have hall : ∀ el ∈ database.personIndex, personErrors el.root database = [] := by
    intro el hel
    rw [personErrors_eq_nil_iff]
    refine ⟨?_, ?_, ?_⟩
    · rw [danglingErrors_eq_nil_iff]
      intro link hl hnone
      unfold allLinksResolve at h1
      simp only [Bool.and_eq_true, List.all_eq_true] at h1
      have := h1.1 el hel link hl
      simp [hnone] at this
    · rw [childErrors_eq_nil_iff]
      intro link hl family hf
      unfold childrenListedOnce at h2
      simp only [List.all_eq_true] at h2
      have := h2 el hel link hl
      simpa [hf] using this
    · rw [spouseErrors_eq_nil_iff]
      intro family hf
      unfold spousesListedFirst at h3
      simp only [List.all_eq_true, Bool.or_eq_true, Bool.and_eq_true, beq_iff_eq] at h3
      rcases h3 el hel family hf with ⟨hs, hfirst⟩ | ⟨hs, hfirst⟩
      · left
        exact ⟨hs, firstRefersTo_head database el hel _ hfirst⟩
      · right
        exact ⟨hs, firstRefersTo_head database el hel _ hfirst⟩
  have hnil : databaseErrors database = [] := by
    unfold databaseErrors
    rw [List.flatten_eq_nil_iff]
    intro l hl
    rw [List.mem_map] at hl
    obtain ⟨el, hel, rfl⟩ := hl
    exact hall el hel
  rw [validateDatabase_eq, databaseRuns_of_named database hname hfit, hnil]
  simp

/-- C7 (witness): scenario S1, the toy database of Tom, Lu, `@F1@` and the child `@I3@`. -/
theorem validateDatabase_consistent_witness :
    allNamed toyDatabase = true ∧
      allLinksResolve toyDatabase = true ∧ childrenListedOnce toyDatabase = true ∧
      spousesListedFirst toyDatabase = true ∧
      validateDatabase toyDatabase [] = some (true, toyDatabase, []) :=
  ⟨by decide, by decide, by decide, by decide,
    validateDatabase_consistent toyDatabase (by decide) (by decide) (by decide) (by decide)⟩

/-- C8: when validateDatabase, called with an empty log, returns true, every FAMC line of
every person of the person index resolves to a family, and exactly one CHIL line of
that family refers to the person. -/
theorem valid_famc_chil_symmetry (database : Database)
    (h : (validateDatabase database []).map (fun r => r.1) = some true) :
    ∀ el ∈ database.personIndex, ∀ l ∈ linesWithTag el.root "FAMC",
      ∃ family, keyToFamily l.node.value database = some family ∧
        ((linesWithTag family "CHIL").filter (fun c => refersTo c el.root)).length = 1 := by
  intro el hel l hl
  have hp := (personErrors_nil_of_valid database h el hel).2
  rw [personErrors_eq_nil_iff] at hp
  obtain ⟨hd, hc, _⟩ := hp
  rw [danglingErrors_eq_nil_iff] at hd
  rw [childErrors_eq_nil_iff] at hc
  have hlink : ({ family := keyToFamily l.node.value database, key := l.node.value, line := l }
      : FamLink) ∈ FORFAMCS el.root database := by
    unfold FORFAMCS
    exact List.mem_map.mpr ⟨l, hl, rfl⟩
  cases hf : keyToFamily l.node.value database with
  | none => exact absurd hf (hd _ (List.mem_append_left _ hlink))
  | some family =>
    refine ⟨family, rfl, ?_⟩
    have hcount := hc _ hlink family hf
    unfold chilCount at hcount
    cases hk : el.root.key with
    | none =>
      have hzero : (linesWithTag family "CHIL").filter
          (fun l => sameNodeOpt el.root (keyToPerson l.node.value database)) = [] := by
        rw [List.filter_eq_nil_iff]
        intro c _ hc'
        cases hp : keyToPerson c.node.value database with
        | none =>
          rw [hp] at hc'
          simp [sameNodeOpt] at hc'
        | some p =>
          rw [hp] at hc'
          have hpk := (keyToPerson_some database _ p hp).1
          cases hv : c.node.value with
          | none =>
            rw [hv] at hp
            simp [keyToPerson, searchHashTable] at hp
          | some v =>
            rw [hv] at hpk
            simp [sameNodeOpt, sameNode, hk, hpk] at hc'
      rw [hzero] at hcount
      simp at hcount
    | some k =>
      have hfun : (fun c : LineAt => refersTo c el.root) =
          (fun c => sameNodeOpt el.root (keyToPerson c.node.value database)) := by
        funext c
        exact (sameNodeOpt_keyToPerson database el hel k hk c).symm
      rw [hfun]
      exact hcount

/-- C8 (witness): the toy database validates, and `@F1@` lists `@I3@` once. -/
theorem valid_famc_chil_symmetry_witness :
    (validateDatabase toyDatabase []).map (fun r => r.1) = some true ∧
    ∀ el ∈ toyDatabase.personIndex, ∀ l ∈ linesWithTag el.root "FAMC",
      ∃ family, keyToFamily l.node.value toyDatabase = some family ∧
        ((linesWithTag family "CHIL").filter (fun c => refersTo c el.root)).length = 1 :=
  ⟨by decide, valid_famc_chil_symmetry toyDatabase (by decide)⟩

/-- C9 (counterexample): the database with the HUSB line of `@I1@` twice in `@F1@` validates
with an empty log, Tom is male with a FAMS line to `@F1@`, and two HUSB lines of
`@F1@` refer to him. -/
theorem validateDatabase_double_husband :
    resultAndLog (validateDatabase toyDatabaseDupHusb []) = some (true, []) ∧
      SEXV tom = SexType.sexMale ∧
      (toyDatabaseDupHusb.personIndex.map (fun el => el.root.key)).head? = some tom.key ∧
      (linesWithTag tom "FAMS").map (fun l => l.node.value) = [fam1DupHusb.key] ∧
      ((linesWithTag fam1DupHusb "HUSB").filter (fun l => refersTo l tom)).length = 2 := by
  decide

/-- C9 (amended): when validateDatabase, called with an empty log, returns true, every FAMS
line of every person of the person index resolves to a family; the person is male or
female; at least one HUSB line of the family refers to a male person and at least one
WIFE line to a female person. -/
theorem valid_fams_role_symmetry (database : Database)
    (h : (validateDatabase database []).map (fun r => r.1) = some true) :
    ∀ el ∈ database.personIndex, ∀ l ∈ linesWithTag el.root "FAMS",
      ∃ family, keyToFamily l.node.value database = some family ∧
        SEXV el.root ≠ SexType.sexUnknown ∧
        (SEXV el.root = SexType.sexMale →
          (linesWithTag family "HUSB").any (fun x => refersTo x el.root) = true) ∧
        (SEXV el.root = SexType.sexFemale →
          (linesWithTag family "WIFE").any (fun x => refersTo x el.root) = true) := by
  intro el hel l hl
  have hp := (personErrors_nil_of_valid database h el hel).2
  rw [personErrors_eq_nil_iff] at hp
  obtain ⟨hd, _, hs⟩ := hp
  rw [danglingErrors_eq_nil_iff] at hd
  rw [spouseErrors_eq_nil_iff] at hs
  have hlink : ({ family := keyToFamily l.node.value database, key := l.node.value, line := l }
      : FamLink) ∈ FORFAMSS el.root database := by
    unfold FORFAMSS
    exact List.mem_map.mpr ⟨l, hl, rfl⟩
  cases hf : keyToFamily l.node.value database with
  | none => exact absurd hf (hd _ (List.mem_append_right _ hlink))
  | some family =>
    have hfam : family ∈ FORFAMILIES el.root database := by
      unfold FORFAMILIES
      exact List.mem_filterMap.mpr ⟨l, hl, hf⟩
    refine ⟨family, rfl, ?_⟩
    rcases hs family hfam with ⟨hsex, hsame⟩ | ⟨hsex, hsame⟩
    · refine ⟨by simp [hsex], fun _ => ?_, fun hfem => ?_⟩
      · exact head_refersTo database el.root _ hsame
      · rw [hsex] at hfem
        exact absurd hfem (by decide)
    · refine ⟨by simp [hsex], fun hmale => ?_, fun _ => ?_⟩
      · rw [hsex] at hmale
        exact absurd hmale (by decide)
      · exact head_refersTo database el.root _ hsame

/-- C9 (witness): the toy database validates; Tom is in a HUSB line and Lu in a WIFE line
of `@F1@`. -/
theorem valid_fams_role_symmetry_witness :
    (validateDatabase toyDatabase []).map (fun r => r.1) = some true ∧
    ∀ el ∈ toyDatabase.personIndex, ∀ l ∈ linesWithTag el.root "FAMS",
      ∃ family, keyToFamily l.node.value toyDatabase = some family ∧
        SEXV el.root ≠ SexType.sexUnknown ∧
        (SEXV el.root = SexType.sexMale →
          (linesWithTag family "HUSB").any (fun x => refersTo x el.root) = true) ∧
        (SEXV el.root = SexType.sexFemale →
          (linesWithTag family "WIFE").any (fun x => refersTo x el.root) = true) :=
  ⟨by decide, valid_fams_role_symmetry toyDatabase (by decide)⟩

/-! ## The partitioner: the loop of createPartition ends -/

theorem isInSet_iff (visited : StringSet) (k : String) : isInSet visited k = true ↔ k ∈ visited := by
  unfold isInSet
  simp

theorem searchRecordIndex_some (index : GNodeIndex) (v : Option String) (n : GNode)
    (h : searchRecordIndex index v = some n) : n ∈ index ∧ n.key = v := by
  unfold searchRecordIndex at h
  cases v with
  | none => simp at h
  | some k =>
    simp only at h
    have h1 := List.find?_some h
    have h2 := List.mem_of_find?_eq_some h
    simp at h1
    exact ⟨h2, h1⟩

theorem enqueueLink_queue (tags : List String) (e : Error) (index : GNodeIndex)
    (acc : List GNode × ErrorLog) (child : GNode) :
    (enqueueLink tags e index acc child).1 = acc.1 ∨
      ∃ n, searchRecordIndex index child.value = some n ∧
        (enqueueLink tags e index acc child).1 = n :: acc.1 := by
  unfold enqueueLink
  split
  · split
    · exact Or.inl rfl
    · next n hs => exact Or.inr ⟨n, hs, rfl⟩
  · exact Or.inl rfl

theorem enqueueLinks_length (tags : List String) (e : Error) (index : GNodeIndex)
    (children : List GNode) (acc : List GNode × ErrorLog) :
    (enqueueLinks tags e index children acc).1.length ≤ acc.1.length + children.length := by
  unfold enqueueLinks
  induction children generalizing acc with
  | nil => simp
  | cons c cs ih =>
    rw [List.foldl_cons]
    refine le_trans (ih _) ?_
    rcases enqueueLink_queue tags e index acc c with h | ⟨n, _, h⟩
    · rw [h, List.length_cons]
      omega
    · rw [h, List.length_cons, List.length_cons]
      omega

theorem enqueueLinks_mem (tags : List String) (e : Error) (index : GNodeIndex)
    (children : List GNode) (acc : List GNode × ErrorLog) :
    ∀ y ∈ (enqueueLinks tags e index children acc).1, y ∈ acc.1 ∨ y ∈ index := by
  unfold enqueueLinks
  induction children generalizing acc with
  | nil =>
    intro y hy
    exact Or.inl hy
  | cons c cs ih =>
    intro y hy
    rw [List.foldl_cons] at hy
    rcases ih _ y hy with h | h
    · rcases enqueueLink_queue tags e index acc c with h1 | ⟨n, hs, h1⟩
      · rw [h1] at h
        exact Or.inl h
      · rw [h1, List.mem_cons] at h
        rcases h with h | h
        · right
          rw [h]
          exact (searchRecordIndex_some index _ n hs).1
        · exact Or.inl h
    · exact Or.inr h

theorem enqueueLinks_subset (tags : List String) (e : Error) (index : GNodeIndex)
    (children : List GNode) (acc : List GNode × ErrorLog) :
    ∀ y ∈ acc.1, y ∈ (enqueueLinks tags e index children acc).1 := by
  unfold enqueueLinks
  induction children generalizing acc with
  | nil =>
    intro y hy
    exact hy
  | cons c cs ih =>
    intro y hy
    rw [List.foldl_cons]
    apply ih
    rcases enqueueLink_queue tags e index acc c with h1 | ⟨n, _, h1⟩
    · rw [h1]
      exact hy
    · rw [h1]
      exact List.mem_cons_of_mem _ hy

theorem pendingLines_mono (records : List GNode) (visited : StringSet) (k : String) :
    pendingLines records (addToSet visited k) ≤ pendingLines records visited := by
  unfold pendingLines
  induction records with
  | nil => simp
  | cons r rs ih =>
    simp only [List.map_cons, List.sum_cons]
    refine Nat.add_le_add ?_ ih
    cases hk : r.key with
    | none => simp
    | some k' =>
      by_cases h1 : isInSet (addToSet visited k) k' = true
      · simp [h1]
      · have h2 : isInSet visited k' = false := by
          cases h2 : isInSet visited k' with
          | false => rfl
          | true =>
            exfalso
            apply h1
            rw [isInSet_iff] at h2 ⊢
            exact List.mem_cons_of_mem _ h2
        simp [h1, h2]

theorem pendingLines_visit (records : List GNode) (visited : StringSet) (k : String)
    (x : GNode) (hx : x ∈ records) (hk : x.key = some k) (hv : isInSet visited k = false) :
    pendingLines records (addToSet visited k) + x.children.length ≤
      pendingLines records visited := by
  induction records with
  | nil => simp at hx
  | cons r rs ih =>
    rw [List.mem_cons] at hx
    rcases hx with h | h
    · subst h
      have hm := pendingLines_mono rs visited k
      have hin : isInSet (addToSet visited k) k = true := by
        rw [isInSet_iff]
        exact List.mem_cons_self _ _
      unfold pendingLines at hm ⊢
      simp only [List.map_cons, List.sum_cons, hk, hin, hv, if_true]
      simp only [Bool.false_eq_true, if_false]
      omega
    · have ih' := ih h
      have hm : (match r.key with
          | none => 0
          | some k' => if isInSet (addToSet visited k) k' then 0 else r.children.length) ≤
          (match r.key with
          | none => 0
          | some k' => if isInSet visited k' then 0 else r.children.length) := by
        have := pendingLines_mono [r] visited k
        simpa [pendingLines] using this
      unfold pendingLines at ih' ⊢
      simp only [List.map_cons, List.sum_cons]
      omega

theorem pendingLines_le (records : List GNode) (visited : StringSet) :
    pendingLines records visited ≤ (records.map (fun r => r.children.length)).sum := by
  unfold pendingLines
  induction records with
  | nil => simp
  | cons r rs ih =>
    simp only [List.map_cons, List.sum_cons]
    refine Nat.add_le_add ?_ ih
    cases hk : r.key with
    | none => simp
    | some k =>
      by_cases h : isInSet visited k = true
      · simp [h]
      · simp [h]

/-- What one iteration of the loop of createPartition does with the record it took from
the queue: nothing when the key is null or visited; otherwise the key becomes visited,
a person is added to the partition, and the queue receives in front at most one
record of the index per line of the record. -/
theorem processRecord_cases (index : GNodeIndex) (x : GNode) (st : PartitionState) :
    (processRecord index x st = st ∧
      (x.key = none ∨ ∃ k, x.key = some k ∧ k ∈ st.visited)) ∨
    ∃ k, x.key = some k ∧ k ∉ st.visited ∧
      (processRecord index x st).visited = addToSet st.visited k ∧
      (processRecord index x st).partition =
        (if recordType x = RecordType.GRPerson then st.partition ++ [x] else st.partition) ∧
      (processRecord index x st).queue.length ≤ st.queue.length + x.children.length ∧
      (∀ y ∈ (processRecord index x st).queue, y ∈ st.queue ∨ y ∈ index) ∧
      (∀ y ∈ st.queue, y ∈ (processRecord index x st).queue) := by
  unfold processRecord
  cases hk : x.key with
  | none => exact Or.inl ⟨rfl, Or.inl rfl⟩
  | some k =>
    by_cases hv : isInSet st.visited k = true
    · left
      simp only [hv, if_true]
      exact ⟨trivial, Or.inr ⟨k, rfl, (isInSet_iff _ _).mp hv⟩⟩
    · right
      have hv' : k ∉ st.visited := fun h => hv ((isInSet_iff _ _).mpr h)
      refine ⟨k, rfl, hv', ?_⟩
      simp only [hv]
      by_cases hp : recordType x = RecordType.GRPerson
      · simp only [hp, if_true]
        exact ⟨rfl, rfl, enqueueLinks_length _ _ _ _ (st.queue, st.log),
          enqueueLinks_mem _ _ _ _ (st.queue, st.log),
          enqueueLinks_subset _ _ _ _ (st.queue, st.log)⟩
      · by_cases hf : recordType x = RecordType.GRFamily
        · simp only [hp, hf, if_true, if_false]
          exact ⟨rfl, rfl, enqueueLinks_length _ _ _ _ (st.queue, st.log),
            enqueueLinks_mem _ _ _ _ (st.queue, st.log),
            enqueueLinks_subset _ _ _ _ (st.queue, st.log)⟩
        · simp only [hp, hf, if_false]
          exact ⟨rfl, rfl, Nat.le_add_right _ _, fun y hy => Or.inl hy, fun y hy => hy⟩

theorem getLast?_dropLast (l : List GNode) (x : GNode) (h : l.getLast? = some x) :
    l = l.dropLast ++ [x] := by
  have hne : l ≠ [] := by
    intro hnil
    simp [hnil] at h
  have h1 := List.dropLast_append_getLast hne
  rw [List.getLast?_eq_getLast l hne] at h
  simp only [Option.some.injEq] at h
  rw [h] at h1
  exact h1.symm

/-- One iteration does not increase the measure of the loop state. -/
theorem processRecord_measure (index : GNodeIndex) (records : List GNode) (x : GNode)
    (st : PartitionState) (hx : x ∈ records) :
    (processRecord index x st).queue.length + pendingLines records (processRecord index x st).visited
      ≤ st.queue.length + pendingLines records st.visited := by
  rcases processRecord_cases index x st with ⟨h, _⟩ | ⟨k, hk, hv, hvis, _, hlen, _, _⟩
  · rw [h]
  · rw [hvis]
    have hv' : isInSet st.visited k = false := by
      cases h : isInSet st.visited k with
      | false => rfl
      | true => exact absurd ((isInSet_iff _ _).mp h) hv
    have := pendingLines_visit records st.visited k x hx hk hv'
    omega

/-- The loop of createPartition ends: with more fuel than the measure of the state it
returns a final state. -/
theorem createPartitionLoop_some (index : GNodeIndex) (records : List GNode)
    (hindex : ∀ y ∈ index, y ∈ records) (fuel : Nat) (st : PartitionState)
    (hq : ∀ y ∈ st.queue, y ∈ records)
    (hfuel : st.queue.length + pendingLines records st.visited < fuel) :
    ∃ st', createPartitionLoop index fuel st = some st' := by
  induction fuel generalizing st with
  | zero => omega
  | succ fuel ih =>
    unfold createPartitionLoop getAndRemoveLastListElement
    cases hl : st.queue.getLast? with
    | none => exact ⟨st, rfl⟩
    | some x =>
      simp only
      have hsplit := getLast?_dropLast st.queue x hl
      have hxq : x ∈ st.queue := by
        rw [hsplit]
        simp
      have hlen : st.queue.length = st.queue.dropLast.length + 1 := by
        conv_lhs => rw [hsplit]
        simp
      apply ih
      · intro y hy
        rcases processRecord_cases index x
            { queue := st.queue.dropLast, visited := st.visited, partition := st.partition,
              log := st.log } with ⟨h, _⟩ | ⟨k, _, _, _, _, _, hmem, _⟩
        · rw [h] at hy
          exact hq y (List.mem_of_mem_dropLast hy)
        · rcases hmem y hy with h | h
          · exact hq y (List.mem_of_mem_dropLast h)
          · exact hindex y h
      · have := processRecord_measure index records x
          { queue := st.queue.dropLast, visited := st.visited, partition := st.partition,
            log := st.log } (hq x hxq)
        simp only at this
        omega

/-- The function createPartition returns: the fuel it takes is enough. -/
theorem createPartition_some (root : GNode) (gnodes : GNodeList) (index : GNodeIndex)
    (visited : StringSet) (log : ErrorLog) :
    ∃ r, createPartition root gnodes index visited log = some r := by
  have h := createPartitionLoop_some index (root :: index)
    (fun y hy => List.mem_cons_of_mem _ hy) (createPartitionFuel root index)
    { queue := prependToList [] root, visited := visited, partition := [], log := log }
    (by
      intro y hy
      simp only [prependToList, List.mem_singleton] at hy
      rw [hy]
      exact List.mem_cons_self _ _)
    (by
      have := pendingLines_le (root :: index) visited
      simp only [List.map_cons, List.sum_cons] at this
      simp only [prependToList, List.length_singleton, createPartitionFuel]
      omega)
  obtain ⟨st', hst⟩ := h
  exact ⟨(st'.partition, st'.visited, st'.log), by simp [createPartition, hst]⟩

/-! ## The partitioner: the invariant -/

theorem key_mem_filterMap (rs : List GNode) (r : GNode) (k : String) (hr : r ∈ rs)
    (hk : r.key = some k) : k ∈ rs.filterMap GNode.key :=
  List.mem_filterMap.mpr ⟨r, hr, hk⟩

/-- With pairwise distinct keys, two records of the list with the same key are the same
record. -/
theorem record_eq_of_key (rs : List GNode) (hkeys : (rs.filterMap GNode.key).Nodup)
    (a b : GNode) (k : String) (ha : a ∈ rs) (hb : b ∈ rs)
    (hak : a.key = some k) (hbk : b.key = some k) : a = b := by
  induction rs with
  | nil => simp at ha
  | cons r rs ih =>
    rw [List.mem_cons] at ha hb
    cases hrk : r.key with
    | none =>
      rw [List.filterMap_cons, hrk] at hkeys
      rcases ha with ha | ha
      · rw [ha, hrk] at hak
        simp at hak
      · rcases hb with hb | hb
        · rw [hb, hrk] at hbk
          simp at hbk
        · exact ih hkeys ha hb
    | some k' =>
      rw [List.filterMap_cons, hrk, List.nodup_cons] at hkeys
      rcases ha with ha | ha
      · rcases hb with hb | hb
        · rw [ha, hb]
        · exfalso
          apply hkeys.1
          have hk' : k' = k := by
            rw [ha, hrk] at hak
            simpa using hak
          rw [hk']
          exact key_mem_filterMap rs b k hb hbk
      · rcases hb with hb | hb
        · exfalso
          apply hkeys.1
          have hk' : k' = k := by
            rw [hb, hrk] at hbk
            simpa using hbk
          rw [hk']
          exact key_mem_filterMap rs a k ha hak
        · exact ih hkeys.2 ha hb

theorem PartitionInv.mono (rs acc : List GNode) (visited : StringSet) (k : String)
    (x : GNode) (hinv : PartitionInv rs acc visited) (hkeys : (rs.filterMap GNode.key).Nodup)
    (hx : x ∈ rs) (hk : x.key = some k) (hv : k ∉ visited) :
    PartitionInv rs (if recordType x = RecordType.GRPerson then acc ++ [x] else acc)
      (addToSet visited k) := by
  by_cases hp : recordType x = RecordType.GRPerson
  · simp only [hp, if_true]
    refine ⟨?_, ?_, ?_⟩
    · intro y hy
      rw [List.mem_append, List.mem_singleton] at hy
      rcases hy with hy | hy
      · obtain ⟨h1, h2, k', h3, h4⟩ := hinv.members y hy
        exact ⟨h1, h2, k', h3, List.mem_cons_of_mem _ h4⟩
      · rw [hy]
        exact ⟨hx, hp, k, hk, List.mem_cons_self _ _⟩
    · rw [List.map_append, List.nodup_append]
      refine ⟨hinv.nodup, by simp, ?_⟩
      intro key h1 h2
      simp only [List.map_cons, List.map_nil, List.mem_singleton] at h2
      rw [List.mem_map] at h1
      obtain ⟨y, hy, hyk⟩ := h1
      obtain ⟨_, _, k', h3, h4⟩ := hinv.members y hy
      rw [h2, hk, h3] at hyk
      simp only [Option.some.injEq] at hyk
      rw [hyk] at h4
      exact hv h4
    · intro r hr hrp k' hrk hk'
      simp only [addToSet, List.mem_cons] at hk'
      rw [List.mem_append, List.mem_singleton]
      rcases hk' with hk' | hk'
      · right
        rw [hk'] at hrk
        exact record_eq_of_key rs hkeys r x k hr hx hrk hk
      · left
        exact hinv.complete r hr hrp k' hrk hk'
  · simp only [hp, if_false]
    refine ⟨?_, hinv.nodup, ?_⟩
    · intro y hy
      obtain ⟨h1, h2, k', h3, h4⟩ := hinv.members y hy
      exact ⟨h1, h2, k', h3, List.mem_cons_of_mem _ h4⟩
    · intro r hr hrp k' hrk hk'
      simp only [addToSet, List.mem_cons] at hk'
      rcases hk' with hk' | hk'
      · exfalso
        rw [hk'] at hrk
        have := record_eq_of_key rs hkeys r x k hr hx hrk hk
        rw [this] at hrp
        exact hp hrp
      · exact hinv.complete r hr hrp k' hrk hk'

/-- One iteration of the loop of createPartition keeps the invariant; `pre` are the
persons of the partitions made before. -/
theorem processRecord_inv (rs : List GNode) (hkeys : (rs.filterMap GNode.key).Nodup)
    (index : GNodeIndex) (pre : List GNode) (x : GNode) (st : PartitionState) (hx : x ∈ rs)
    (hinv : PartitionInv rs (pre ++ st.partition) st.visited) :
    PartitionInv rs (pre ++ (processRecord index x st).partition)
        (processRecord index x st).visited ∧
      (∀ k ∈ st.visited, k ∈ (processRecord index x st).visited) ∧
      (∀ k, x.key = some k → k ∈ (processRecord index x st).visited) := by
  rcases processRecord_cases index x st with ⟨h, hc⟩ | ⟨k, hk, hv, hvis, hpart, _, _, _⟩
  · rw [h]
    refine ⟨hinv, fun k hk => hk, ?_⟩
    intro k hk
    rcases hc with hc | ⟨k', hk', hin⟩
    · rw [hc] at hk
      simp at hk
    · rw [hk] at hk'
      simp only [Option.some.injEq] at hk'
      rw [hk']
      exact hin
  · rw [hvis, hpart]
    refine ⟨?_, fun k' hk' => List.mem_cons_of_mem _ hk', ?_⟩
    · have := PartitionInv.mono rs (pre ++ st.partition) st.visited k x hinv hkeys hx hk hv
      by_cases hp : recordType x = RecordType.GRPerson
      · simp only [hp, if_true] at this ⊢
        rw [← List.append_assoc]
        exact this
      · simp only [hp, if_false] at this ⊢
        exact this
    · intro k' hk'
      rw [hk] at hk'
      simp only [Option.some.injEq] at hk'
      rw [← hk']
      exact List.mem_cons_self _ _

/-- The loop of createPartition keeps the invariant, only adds to the visited set, and
visits the key of every record of the queue. -/
theorem createPartitionLoop_inv (rs : List GNode) (hkeys : (rs.filterMap GNode.key).Nodup)
    (index : GNodeIndex) (hindex : ∀ y ∈ index, y ∈ rs) (pre : List GNode)
    (fuel : Nat) (st st' : PartitionState)
    (hrun : createPartitionLoop index fuel st = some st')
    (hq : ∀ y ∈ st.queue, y ∈ rs)
    (hinv : PartitionInv rs (pre ++ st.partition) st.visited) :
    PartitionInv rs (pre ++ st'.partition) st'.visited ∧
      (∀ k ∈ st.visited, k ∈ st'.visited) ∧
      (∀ y ∈ st.queue, ∀ k, y.key = some k → k ∈ st'.visited) := by
  induction fuel generalizing st with
  | zero => simp [createPartitionLoop] at hrun
  | succ fuel ih =>
    unfold createPartitionLoop getAndRemoveLastListElement at hrun
    cases hl : st.queue.getLast? with
    | none =>
      rw [hl] at hrun
      simp only [Option.some.injEq] at hrun
      rw [← hrun]
      refine ⟨hinv, fun k hk => hk, ?_⟩
      intro y hy
      rw [List.getLast?_eq_none_iff] at hl
      rw [hl] at hy
      simp at hy
    | some x =>
      rw [hl] at hrun
      simp only at hrun
      have hsplit := getLast?_dropLast st.queue x hl
      have hxq : x ∈ st.queue := by
        rw [hsplit]
        simp
      have hstep := processRecord_inv rs hkeys index pre x
        { queue := st.queue.dropLast, visited := st.visited, partition := st.partition,
          log := st.log } (hq x hxq) hinv
      obtain ⟨hinv1, hmono1, hvis1⟩ := hstep
      have hq1 : ∀ y ∈ (processRecord index x
          { queue := st.queue.dropLast, visited := st.visited, partition := st.partition,
            log := st.log }).queue, y ∈ rs := by
        intro y hy
        rcases processRecord_cases index x
            { queue := st.queue.dropLast, visited := st.visited, partition := st.partition,
              log := st.log } with ⟨h, _⟩ | ⟨k, _, _, _, _, _, hmem, _⟩
        · rw [h] at hy
          exact hq y (List.mem_of_mem_dropLast hy)
        · rcases hmem y hy with h | h
          · exact hq y (List.mem_of_mem_dropLast h)
          · exact hindex y h
      have hkeep : ∀ y ∈ st.queue.dropLast, y ∈ (processRecord index x
          { queue := st.queue.dropLast, visited := st.visited, partition := st.partition,
            log := st.log }).queue := by
        intro y hy
        rcases processRecord_cases index x
            { queue := st.queue.dropLast, visited := st.visited, partition := st.partition,
              log := st.log } with ⟨h, _⟩ | ⟨k, _, _, _, _, _, _, hsub⟩
        · rw [h]
          exact hy
        · exact hsub y hy
      obtain ⟨hinv2, hmono2, hvis2⟩ := ih _ hrun hq1 hinv1
      refine ⟨hinv2, fun k hk => hmono2 k (hmono1 k hk), ?_⟩
      intro y hy k hk
      rw [hsplit, List.mem_append, List.mem_singleton] at hy
      rcases hy with hy | hy
      · exact hvis2 y (hkeep y hy) k hk
      · rw [hy] at hk
        exact hmono2 k (hvis1 k hk)

/-- The call createPartition keeps the invariant for the persons emitted so far, only
adds to the visited set and visits the key of its root. -/
theorem createPartition_inv (rs : List GNode) (hkeys : (rs.filterMap GNode.key).Nodup)
    (index : GNodeIndex) (hindex : ∀ y ∈ index, y ∈ rs) (pre : List GNode)
    (root : GNode) (gnodes : GNodeList) (visited : StringSet) (log : ErrorLog)
    (hroot : root ∈ rs) (hinv : PartitionInv rs pre visited) :
    ∃ partition visited' log',
      createPartition root gnodes index visited log = some (partition, visited', log') ∧
      PartitionInv rs (pre ++ partition) visited' ∧
      (∀ k ∈ visited, k ∈ visited') ∧
      (∀ k, root.key = some k → k ∈ visited') := by
  obtain ⟨r, hr⟩ := createPartition_some root gnodes index visited log
  unfold createPartition at hr
  cases hloop : createPartitionLoop index (createPartitionFuel root index)
      { queue := prependToList [] root, visited := visited, partition := [], log := log } with
  | none =>
    rw [hloop] at hr
    simp at hr
  | some st' =>
    have h := createPartitionLoop_inv rs hkeys index hindex pre _ _ st' hloop
      (by
        intro y hy
        simp only [prependToList, List.mem_singleton] at hy
        rw [hy]
        exact hroot)
      (by simpa using hinv)
    obtain ⟨h1, h2, h3⟩ := h
    refine ⟨st'.partition, st'.visited, st'.log, ?_, h1, h2, ?_⟩
    · unfold createPartition
      rw [hloop]
      rfl
    · intro k hk
      exact h3 root (by simp [prependToList]) k hk

/-- The scan of getPartitions returns, keeps the invariant and visits the key of every
record of the part of the list it scans. -/
theorem getPartitionsLoop_inv (rs : List GNode) (hkeys : (rs.filterMap GNode.key).Nodup)
    (index : GNodeIndex) (hindex : ∀ y ∈ index, y ∈ rs) (gnodes : GNodeList)
    (rest : List GNode) (visited : StringSet) (partitions : List (List GNode))
    (log : ErrorLog) (hrest : ∀ y ∈ rest, y ∈ rs)
    (hinv : PartitionInv rs partitions.flatten visited) :
    ∃ result log' visited',
      getPartitionsLoop gnodes index rest visited partitions log = some (result, log') ∧
      PartitionInv rs result.flatten visited' ∧
      (∀ k ∈ visited, k ∈ visited') ∧
      (∀ y ∈ rest, ∀ k, y.key = some k → k ∈ visited') := by
  induction rest generalizing visited partitions log with
  | nil =>
    exact ⟨partitions, log, visited, rfl, hinv, fun k hk => hk, by simp⟩
  | cons root rest ih =>
    have hrest' : ∀ y ∈ rest, y ∈ rs := fun y hy => hrest y (List.mem_cons_of_mem _ hy)
    unfold getPartitionsLoop
    cases hk : root.key with
    | none =>
      obtain ⟨result, log', visited', h1, h2, h3, h4⟩ := ih visited partitions log hrest' hinv
      refine ⟨result, log', visited', h1, h2, h3, ?_⟩
      intro y hy k hyk
      rw [List.mem_cons] at hy
      rcases hy with hy | hy
      · rw [hy, hk] at hyk
        simp at hyk
      · exact h4 y hy k hyk
    | some key =>
      by_cases hv : isInSet visited key = true
      · simp only [hv, Bool.not_true, Bool.false_eq_true, if_false]
        obtain ⟨result, log', visited', h1, h2, h3, h4⟩ := ih visited partitions log hrest' hinv
        refine ⟨result, log', visited', h1, h2, h3, ?_⟩
        intro y hy k hyk
        rw [List.mem_cons] at hy
        rcases hy with hy | hy
        · rw [hy, hk] at hyk
          simp only [Option.some.injEq] at hyk
          rw [← hyk]
          exact h3 key ((isInSet_iff _ _).mp hv)
        · exact h4 y hy k hyk
      · have hv' : isInSet visited key = false := by
          cases h : isInSet visited key with
          | false => rfl
          | true => exact absurd h hv
        simp only [hv', Bool.not_false, if_true]
        obtain ⟨partition, visited1, log1, hc, hinv1, hmono1, hroot1⟩ :=
          createPartition_inv rs hkeys index hindex partitions.flatten root gnodes visited log
            (hrest root (List.mem_cons_self _ _)) hinv
        rw [hc]
        simp only
        have hinv1' : PartitionInv rs (partitions ++ [partition]).flatten visited1 := by
          simpa using hinv1
        obtain ⟨result, log', visited', h1, h2, h3, h4⟩ :=
          ih visited1 (partitions ++ [partition]) log1 hrest' hinv1'
        refine ⟨result, log', visited', h1, h2, fun k hk' => h3 k (hmono1 k hk'), ?_⟩
        intro y hy k hyk
        rw [List.mem_cons] at hy
        rcases hy with hy | hy
        · rw [hy] at hyk
          exact h3 k (hroot1 k hyk)
        · exact h4 y hy k hyk

theorem createIndexOfGNodes_eq (list : GNodeList) :
    createIndexOfGNodes list = list.filter (fun r => r.key.isSome) := by
  unfold createIndexOfGNodes
  have h : ∀ (l : List GNode) (acc : GNodeIndex),
      l.foldl (fun index root => if root.key.isSome then addToGNodeIndex index root else index)
        acc = acc ++ l.filter (fun r => r.key.isSome) := by
    intro l
    induction l with
    | nil => simp
    | cons r l ih =>
      intro acc
      rw [List.foldl_cons, ih]
      by_cases hr : r.key.isSome = true
      · simp [hr, addToGNodeIndex, List.filter_cons]
      · simp [hr, List.filter_cons]
  rw [h]
  simp

/-- C10: for records with pairwise distinct keys, the index built over them and a list
`gnodes` of these records that holds every person record with a key, getPartitions
returns; no partition holds a record twice, the partitions are pairwise disjoint,
every person record with a non-null key is in a partition, and the partitions hold
nothing but person records of the list with a key. -/
theorem getPartitions_cover (rs gnodes : GNodeList) (log : ErrorLog)
    (hkeys : (rs.filterMap GNode.key).Nodup)
    (hsub : ∀ g ∈ gnodes, g ∈ rs)
    (hall : ∀ r ∈ rs, recordType r = RecordType.GRPerson → r.key ≠ none → r ∈ gnodes) :
    ∃ partitions log',
      getPartitions gnodes (createIndexOfGNodes rs) log = some (partitions, log') ∧
      (∀ p ∈ partitions, p.Nodup) ∧
      partitions.Pairwise List.Disjoint ∧
      (∀ r ∈ rs, recordType r = RecordType.GRPerson → r.key ≠ none →
        ∃ p ∈ partitions, r ∈ p) ∧
      (∀ p ∈ partitions, ∀ x ∈ p,
        x ∈ rs ∧ recordType x = RecordType.GRPerson ∧ x.key ≠ none) := by
  have hindex : ∀ y ∈ createIndexOfGNodes rs, y ∈ rs := by
    intro y hy
    rw [createIndexOfGNodes_eq] at hy
    exact List.mem_of_mem_filter hy
  have hinit : PartitionInv rs ([] : List (List GNode)).flatten [] :=
    ⟨by simp, by simp, by simp⟩
  obtain ⟨result, log', visited', hrun, hinv, _, hvis⟩ :=
    getPartitionsLoop_inv rs hkeys (createIndexOfGNodes rs) hindex gnodes gnodes [] [] log
      hsub hinit
  have hnodup : result.flatten.Nodup := List.Nodup.of_map _ hinv.nodup
  rw [List.nodup_flatten] at hnodup
  refine ⟨result, log', hrun, hnodup.1, hnodup.2, ?_, ?_⟩
  · intro r hr hp hk
    cases hrk : r.key with
    | none => exact absurd hrk hk
    | some k =>
      have hmem := hinv.complete r hr hp k hrk (hvis r (hall r hr hp hk) k hrk)
      rw [List.mem_flatten] at hmem
      obtain ⟨p, hp1, hp2⟩ := hmem
      exact ⟨p, hp1, hp2⟩
  · intro p hp x hx
    have hmem : x ∈ result.flatten := List.mem_flatten.mpr ⟨p, hp, hx⟩
    obtain ⟨h1, h2, k, h3, _⟩ := hinv.members x hmem
    exact ⟨h1, h2, by simp [h3]⟩

/-- C10 (witness): scenario S6, the records of two disjoint families and the list of their
persons; the two partitions are Tom, Lu and their child, and Abe and Bea. -/
theorem getPartitions_cover_witness :
    (∃ partitions log',
      getPartitions (removeNonPersons twoFamilies) (createIndexOfGNodes twoFamilies) [] =
        some (partitions, log') ∧
      (∀ p ∈ partitions, p.Nodup) ∧
      partitions.Pairwise List.Disjoint ∧
      (∀ r ∈ twoFamilies, recordType r = RecordType.GRPerson → r.key ≠ none →
        ∃ p ∈ partitions, r ∈ p) ∧
      (∀ p ∈ partitions, ∀ x ∈ p,
        x ∈ twoFamilies ∧ recordType x = RecordType.GRPerson ∧ x.key ≠ none)) ∧
    (getPartitions (removeNonPersons twoFamilies) (createIndexOfGNodes twoFamilies) []).map
        (fun r => r.1.map (fun p => p.map GNode.key)) =
      some [[some "@I1@", some "@I2@", some "@I3@"], [some "@I6@", some "@I7@"]] :=
  ⟨getPartitions_cover twoFamilies (removeNonPersons twoFamilies) []
    (by decide)
    (fun g hg => List.mem_of_mem_filter hg)
    (fun r hr hp _ => List.mem_filter.mpr ⟨hr, by simp [hp]⟩),
   by decide⟩

/-! ## The name index -/

theorem NameIndex.search_cons (el : NameIndexEl) (rest : NameIndex) (nameKey : String) :
    NameIndex.searchHashTable (el :: rest) nameKey =
      if el.nameKey == nameKey then some el else NameIndex.searchHashTable rest nameKey := by
  unfold NameIndex.searchHashTable
  rw [List.find?_cons]
  cases (el.nameKey == nameKey) <;> rfl

theorem NameIndex.update_cons (el : NameIndexEl) (rest : NameIndex) (nameKey : String)
    (f : NameIndexEl → NameIndexEl) :
    NameIndex.updateElement (el :: rest) nameKey f =
      if el.nameKey == nameKey then f el :: rest
      else el :: NameIndex.updateElement rest nameKey f := by
  rw [NameIndex.updateElement]

theorem NameIndex.search_update_same (index : NameIndex) (nameKey : String)
    (f : NameIndexEl → NameIndexEl) (hf : ∀ el, (f el).nameKey = el.nameKey) :
    NameIndex.searchHashTable (NameIndex.updateElement index nameKey f) nameKey =
      (NameIndex.searchHashTable index nameKey).map f := by
  induction index with
  | nil => rfl
  | cons el rest ih =>
    rw [NameIndex.update_cons, NameIndex.search_cons]
    cases h : (el.nameKey == nameKey) with
    | true =>
      simp only [if_true]
      rw [NameIndex.search_cons, hf, h]
      rfl
    | false =>
      simp only [Bool.false_eq_true, if_false]
      rw [NameIndex.search_cons, h]
      simpa using ih

theorem NameIndex.search_update_other (index : NameIndex) (nameKey other : String)
    (f : NameIndexEl → NameIndexEl) (hf : ∀ el, (f el).nameKey = el.nameKey)
    (hne : other ≠ nameKey) :
    NameIndex.searchHashTable (NameIndex.updateElement index nameKey f) other =
      NameIndex.searchHashTable index other := by
  induction index with
  | nil => rfl
  | cons el rest ih =>
    rw [NameIndex.update_cons, NameIndex.search_cons]
    cases h : (el.nameKey == nameKey) with
    | true =>
      have hk : el.nameKey = nameKey := by simpa using h
      have hno : (el.nameKey == other) = false := by
        simp only [beq_eq_false_iff_ne, ne_eq]
        intro h2
        exact hne (h2.symm.trans hk)
      simp only [if_true]
      rw [NameIndex.search_cons, hf, hno]
      rfl
    | false =>
      simp only [Bool.false_eq_true, if_false]
      rw [NameIndex.search_cons, ih]

theorem NameIndex.update_unchanged (index : NameIndex) (nameKey : String)
    (f : NameIndexEl → NameIndexEl)
    (hf : ∀ el, NameIndex.searchHashTable index nameKey = some el → f el = el) :
    NameIndex.updateElement index nameKey f = index := by
  induction index with
  | nil => rfl
  | cons el rest ih =>
    rw [NameIndex.update_cons]
    cases h : (el.nameKey == nameKey) with
    | true =>
      simp only [if_true]
      rw [hf el (by rw [NameIndex.search_cons, h]; rfl)]
    | false =>
      simp only [Bool.false_eq_true, if_false]
      rw [ih]
      intro el2 hel2
      apply hf
      rw [NameIndex.search_cons, h]
      simpa using hel2

theorem NameIndex.search_add (index : NameIndex) (element : NameIndexEl) (nameKey : String) :
    NameIndex.searchHashTable (NameIndex.addToHashTable index element) nameKey =
      match NameIndex.searchHashTable index nameKey with
      | some el => some el
      | none => if element.nameKey == nameKey then some element else none := by
  unfold NameIndex.searchHashTable NameIndex.addToHashTable
  rw [List.find?_append]
  cases h : index.find? (fun el => el.nameKey == nameKey) with
  | some el => rfl
  | none =>
    by_cases hk : (element.nameKey == nameKey) = true
    · simp [hk]
    · simp [hk]

theorem NameIndex.search_key (index : NameIndex) (nameKey : String) (el : NameIndexEl)
    (h : NameIndex.searchHashTable index nameKey = some el) : el.nameKey = nameKey := by
  unfold NameIndex.searchHashTable at h
  simpa using List.find?_some h

/-- The bucket of the inserted name key after insertInNameIndex: the old bucket (empty when
there was none) with the record key added unless it was in it. -/
theorem search_insert_same (index : NameIndex) (nameKey recordKey : String) :
    ∃ el, NameIndex.searchHashTable (insertInNameIndex index nameKey recordKey) nameKey =
        some el ∧ el.nameKey = nameKey ∧
      el.recordKeys =
        (match NameIndex.searchHashTable index nameKey with
         | none => addToSet [] recordKey
         | some old =>
           if isInSet old.recordKeys recordKey then old.recordKeys
           else addToSet old.recordKeys recordKey) := by
  unfold insertInNameIndex
  rw [NameIndex.search_update_same _ _ _ (by intro el; split <;> rfl)]
  cases h : NameIndex.searchHashTable index nameKey with
  | none =>
    simp only [NameIndex.search_add, h, createNameIndexEl, beq_self_eq_true, if_true,
      Option.map_some']
    exact ⟨_, rfl, rfl, by simp [isInSet]⟩
  | some old =>
    simp only [h, Option.map_some']
    refine ⟨_, rfl, ?_, ?_⟩
    · have := NameIndex.search_key index nameKey old h
      split <;> simpa using this
    · by_cases hin : isInSet old.recordKeys recordKey = true
      · simp [hin]
      · simp [hin]

/-- The buckets of the other name keys are not touched by insertInNameIndex. -/
theorem search_insert_other (index : NameIndex) (nameKey recordKey other : String)
    (hne : other ≠ nameKey) :
    NameIndex.searchHashTable (insertInNameIndex index nameKey recordKey) other =
      NameIndex.searchHashTable index other := by
  unfold insertInNameIndex
  rw [NameIndex.search_update_other _ _ _ _ (by intro el; split <;> rfl) hne]
  cases h : NameIndex.searchHashTable index nameKey with
  | some old => rfl
  | none =>
    simp only [NameIndex.search_add, createNameIndexEl]
    have hno : (nameKey == other) = false := by
      simp only [beq_eq_false_iff_ne, ne_eq]
      exact fun h2 => hne h2.symm
    simp only [hno]
    cases NameIndex.searchHashTable index other <;> rfl

theorem inBucket_insert (index : NameIndex) (nameKey recordKey nk rk : String) :
    inBucket (insertInNameIndex index nameKey recordKey) nk rk =
      (inBucket index nk rk || (nk == nameKey && rk == recordKey)) := by
  by_cases hnk : nk = nameKey
  · subst hnk
    obtain ⟨el, hs, _, hrk⟩ := search_insert_same index nk recordKey
    unfold inBucket
    rw [hs]
    simp only [hrk, beq_self_eq_true, Bool.true_and]
    cases h : NameIndex.searchHashTable index nk with
    | none =>
      simp only [isInSet, addToSet, List.contains_cons, List.contains_nil, Bool.or_false,
        Bool.false_or]
    | some old =>
      simp only
      by_cases hin : isInSet old.recordKeys recordKey = true
      · simp only [hin, if_true]
        by_cases hrk' : rk = recordKey
        · subst hrk'
          simp [hin]
        · simp [hrk']
      · have hin2 : isInSet old.recordKeys recordKey = false := by simpa using hin
        simp only [hin2, Bool.false_eq_true, if_false]
        simp only [isInSet, addToSet, List.contains_cons]
        rw [Bool.or_comm]
  · unfold inBucket
    rw [search_insert_other index nameKey recordKey nk hnk]
    simp [hnk]

theorem inBucket_insertAll (pairs : List (String × String)) (index : NameIndex)
    (nk rk : String) :
    inBucket (insertAllInNameIndex index pairs) nk rk =
      (inBucket index nk rk || pairs.contains (nk, rk)) := by
  unfold insertAllInNameIndex
  induction pairs generalizing index with
  | nil => simp
  | cons p ps ih =>
    rw [List.foldl_cons, ih, inBucket_insert]
    simp only [List.contains_cons, Bool.or_assoc]
    have hp : ((nk, rk) == p) = (nk == p.1 && rk == p.2) := by
      cases p with
      | mk a b => rfl
    rw [hp]

/-- C13: insertInNameIndex is idempotent. When the record key is already a member of the
bucket of the name key, the call leaves the index as it is; so inserting a pair twice
gives the index that inserting it once gives. -/
theorem insertInNameIndex_idempotent (index : NameIndex) (nameKey recordKey : String) :
    (inBucket index nameKey recordKey = true →
      insertInNameIndex index nameKey recordKey = index) ∧
    insertInNameIndex (insertInNameIndex index nameKey recordKey) nameKey recordKey =
      insertInNameIndex index nameKey recordKey := by
  have hfix : ∀ idx : NameIndex, inBucket idx nameKey recordKey = true →
      insertInNameIndex idx nameKey recordKey = idx := by
    intro idx hin
    unfold inBucket at hin
    unfold insertInNameIndex
    cases h : NameIndex.searchHashTable idx nameKey with
    | none => simp [h] at hin
    | some el =>
      rw [h] at hin
      simp only at hin ⊢
      apply NameIndex.update_unchanged
      intro el2 hel2
      rw [h] at hel2
      simp only [Option.some.injEq] at hel2
      rw [← hel2]
      simp [hin]
  refine ⟨hfix index, hfix _ ?_⟩
  rw [inBucket_insert]
  simp

/-- C13 (witness): `@I1@` is in the bucket of Tom's name key, and inserting the pair again
changes nothing. -/
theorem insertInNameIndex_idempotent_witness :
    inBucket toyNameIndex "tom /toy/" "@I1@" = true ∧
      insertInNameIndex toyNameIndex "tom /toy/" "@I1@" = toyNameIndex :=
  ⟨by decide, (insertInNameIndex_idempotent toyNameIndex "tom /toy/" "@I1@").1 (by decide)⟩

/-- C14: after insertInNameIndex with the name key of a name, searchNameIndex for that
name returns a set, and the record key is in it. -/
theorem searchNameIndex_after_insert (nameToNameKey : String → String) (index : NameIndex)
    (name recordKey : String) :
    ∃ set, searchNameIndex nameToNameKey
        (insertInNameIndex index (nameToNameKey name) recordKey) name = some set ∧
      isInSet set recordKey = true := by
  obtain ⟨el, hs, _, hrk⟩ := search_insert_same index (nameToNameKey name) recordKey
  refine ⟨el.recordKeys, ?_, ?_⟩
  · unfold searchNameIndex
    rw [hs]
  · rw [hrk]
    cases h : NameIndex.searchHashTable index (nameToNameKey name) with
    | none => simp [isInSet, addToSet]
    | some old =>
      simp only
      by_cases hin : isInSet old.recordKeys recordKey = true
      · simp [hin]
      · have hin2 : isInSet old.recordKeys recordKey = false := by simpa using hin
        simp only [hin2, Bool.false_eq_true, if_false]
        simp [isInSet, addToSet]

/-- C15: after any sequence of insertInNameIndex calls on a fresh name index, a record key
is in the bucket of a name key exactly when that pair was inserted; and one insert
leaves the bucket of every other name key as it was. -/
theorem inBucket_iff_inserted (pairs : List (String × String)) (nameKey recordKey : String) :
    (inBucket (insertAllInNameIndex createNameIndex pairs) nameKey recordKey = true ↔
      (nameKey, recordKey) ∈ pairs) ∧
    (∀ (index : NameIndex) (nk rk other : String), other ≠ nk →
      NameIndex.searchHashTable (insertInNameIndex index nk rk) other =
        NameIndex.searchHashTable index other) := by
  constructor
  · rw [inBucket_insertAll]
    simp [inBucket, createNameIndex, NameIndex.searchHashTable]
  · intro index nk rk other hne
    exact search_insert_other index nk rk other hne

/-- C15 (witness): three inserts on a fresh index; the bucket of Lu's name key is the same
before and after an insert under Tom's name key. -/
theorem inBucket_iff_inserted_witness :
    (inBucket toyNameIndex "tom /toy/" "@I4@" = true ↔
      (("tom /toy/", "@I4@") : String × String) ∈
        [("tom /toy/", "@I1@"), ("lu /toy/", "@I2@"), ("tom /toy/", "@I4@")]) ∧
    NameIndex.searchHashTable (insertInNameIndex toyNameIndex "tom /toy/" "@I9@") "lu /toy/" =
      NameIndex.searchHashTable toyNameIndex "lu /toy/" :=
  ⟨(inBucket_iff_inserted
      [("tom /toy/", "@I1@"), ("lu /toy/", "@I2@"), ("tom /toy/", "@I4@")]
      "tom /toy/" "@I4@").1,
   (inBucket_iff_inserted [] "" "").2 toyNameIndex "tom /toy/" "@I9@" "lu /toy/" (by decide)⟩

/-- C16 (counterexample): no person of the toy name index is called Nobody, and
searchNameIndex returns null for that name, not an empty set. -/
theorem searchNameIndex_absent_null :
    NameIndex.searchHashTable toyNameIndex (lowerNameKey "Nobody") = none ∧
      searchNameIndex lowerNameKey toyNameIndex "Nobody" = none ∧
      searchNameIndex lowerNameKey toyNameIndex "Nobody" ≠ some [] := by
  decide

/-- C16 (amended): for a name whose name key has no bucket in the index, searchNameIndex
returns null: there is no set value, and the caller has to test for it. -/
theorem searchNameIndex_absent (nameToNameKey : String → String) (index : NameIndex)
    (name : String)
    (h : NameIndex.searchHashTable index (nameToNameKey name) = none) :
    searchNameIndex nameToNameKey index name = none := by
  unfold searchNameIndex
  rw [h]

/-- C16 (witness): the name Nobody in the toy name index. -/
theorem searchNameIndex_absent_witness :
    NameIndex.searchHashTable toyNameIndex (lowerNameKey "Nobody") = none ∧
      searchNameIndex lowerNameKey toyNameIndex "Nobody" = none :=
  ⟨by decide, searchNameIndex_absent lowerNameKey toyNameIndex "Nobody" (by decide)⟩

/-! ## Adding a child or a spouse to a family -/

theorem walkChain_some (nodes : List GNode) (j : Nat) (h : j ≤ nodes.length) :
    walkChain nodes j = some (nodes.take j, nodes.drop j) := by
  induction j generalizing nodes with
  | zero => simp [walkChain]
  | succ j ih =>
    cases nodes with
    | nil => simp at h
    | cons n rest =>
      simp only [List.length_cons, Nat.add_le_add_iff_right] at h
      simp only [walkChain, ih rest h, Option.map_some', List.take_succ_cons, List.drop_succ_cons]

theorem appendToChain_eq (chain : List GNode) (new : GNode) :
    appendToChain chain new = chain ++ [new] := by
  induction chain with
  | nil => rfl
  | cons n rest ih => simp only [appendToChain, ih, List.cons_append]

theorem childPosition_le (n : Nat) (index : Int) : childPosition n index ≤ n := by
  unfold childPosition
  split
  · exact Nat.le_refl n
  · omega

theorem chainWithTag_tag (root : GNode) (tag : String) :
    ∀ n ∈ chainWithTag root tag, n.tag = tag := by
  intro n hn
  unfold chainWithTag at hn
  simpa using (List.mem_filter.mp hn).2

theorem filter_chainWithTag_same (root : GNode) (tag : String) :
    (chainWithTag root tag).filter (fun n => n.tag == tag) = chainWithTag root tag := by
  rw [List.filter_eq_self]
  intro n hn
  simp [chainWithTag_tag root tag n hn]

theorem filter_chainWithTag_other (root : GNode) (tag other : String) (h : tag ≠ other) :
    (chainWithTag root other).filter (fun n => n.tag == tag) = [] := by
  rw [List.filter_eq_nil_iff]
  intro n hn
  rw [chainWithTag_tag root other n hn]
  simp only [beq_iff_eq]
  exact fun h2 => h h2.symm

theorem filter_chainWithout (root : GNode) (tag : String) (tags : List String)
    (h : tag ∈ tags) : (chainWithout root tags).filter (fun n => n.tag == tag) = [] := by
  rw [List.filter_eq_nil_iff]
  intro n hn
  unfold chainWithout at hn
  have h2 := (List.mem_filter.mp hn).2
  simp only [beq_iff_eq]
  intro h3
  rw [h3] at h2
  simp [h] at h2

/-- What addChildToFamily returns: the family with the new CHIL line at the position in
its CHIL chain, the child with the new FAMC line after its FAMC chain. -/
theorem addChildToFamily_eq (child family : GNode) (index : Int) (database : Database) :
    addChildToFamily child family index database =
      some (true,
        joinFamily family
          { frefn := chainWithTag family "REFN", husb := chainWithTag family "HUSB",
            wife := chainWithTag family "WIFE",
            chil := (chainWithTag family "CHIL").take
                (childPosition (chainWithTag family "CHIL").length index) ++
              createGNode none "CHIL" child.key ::
                (chainWithTag family "CHIL").drop
                  (childPosition (chainWithTag family "CHIL").length index),
            rest := chainWithout family ["REFN", "HUSB", "WIFE", "CHIL"] },
        joinPerson child
          { names := chainWithTag child "NAME", irefns := chainWithTag child "REFN",
            sex := chainWithTag child "SEX",
            body := chainWithout child ["NAME", "REFN", "SEX", "FAMC", "FAMS"],
            famcs := chainWithTag child "FAMC" ++ [createGNode none "FAMC" family.key],
            famss := chainWithTag child "FAMS" }) := by
  have hpos : (if index < 0 ∨ index > ((gNodesLength (splitFamily family).chil : Nat) : Int)
      then ((gNodesLength (splitFamily family).chil : Nat) : Int) else index).toNat =
      childPosition (chainWithTag family "CHIL").length index := by
    unfold childPosition gNodesLength splitFamily
    simp only
    split
    · simp
    · rfl
  unfold addChildToFamily
  simp only [hpos]
  rw [show (splitFamily family).chil = chainWithTag family "CHIL" from rfl,
    walkChain_some _ _ (childPosition_le _ _)]
  simp only [appendToChain_eq, splitFamily, splitPerson]

theorem children_joinFamily (family : GNode) (parts : FamilyParts) :
    (joinFamily family parts).children =
      parts.frefn ++ parts.husb ++ parts.wife ++ parts.chil ++ parts.rest := rfl

theorem children_joinPerson (person : GNode) (parts : PersonParts) :
    (joinPerson person parts).children =
      parts.names ++ parts.irefns ++ parts.sex ++ parts.body ++ parts.famcs ++ parts.famss :=
  rfl

theorem chainWithTag_joinFamily_chil (family : GNode) (chil : List GNode)
    (hchil : ∀ n ∈ chil, n.tag = "CHIL") :
    chainWithTag (joinFamily family
      { frefn := chainWithTag family "REFN", husb := chainWithTag family "HUSB",
        wife := chainWithTag family "WIFE", chil := chil,
        rest := chainWithout family ["REFN", "HUSB", "WIFE", "CHIL"] }) "CHIL" = chil := by
  have hself : chil.filter (fun n => n.tag == "CHIL") = chil := by
    rw [List.filter_eq_self]
    intro n hn
    simp [hchil n hn]
  show List.filter (fun n => n.tag == "CHIL") (joinFamily family _).children = chil
  rw [children_joinFamily]
  simp only [List.filter_append]
  rw [filter_chainWithTag_other family "CHIL" "REFN" (by decide),
    filter_chainWithTag_other family "CHIL" "HUSB" (by decide),
    filter_chainWithTag_other family "CHIL" "WIFE" (by decide),
    filter_chainWithout family "CHIL" ["REFN", "HUSB", "WIFE", "CHIL"] (by decide), hself]
  simp

theorem chainWithTag_joinFamily (family : GNode) (parts : FamilyParts) (tag : String) :
    chainWithTag (joinFamily family parts) tag =
      parts.frefn.filter (fun n => n.tag == tag) ++ parts.husb.filter (fun n => n.tag == tag) ++
        parts.wife.filter (fun n => n.tag == tag) ++ parts.chil.filter (fun n => n.tag == tag) ++
        parts.rest.filter (fun n => n.tag == tag) := by
  show List.filter (fun n => n.tag == tag) (joinFamily family parts).children = _
  rw [children_joinFamily]
  simp only [List.filter_append]

theorem chainWithTag_joinPerson (person : GNode) (parts : PersonParts) (tag : String) :
    chainWithTag (joinPerson person parts) tag =
      parts.names.filter (fun n => n.tag == tag) ++ parts.irefns.filter (fun n => n.tag == tag) ++
        parts.sex.filter (fun n => n.tag == tag) ++ parts.body.filter (fun n => n.tag == tag) ++
        parts.famcs.filter (fun n => n.tag == tag) ++
        parts.famss.filter (fun n => n.tag == tag) := by
  show List.filter (fun n => n.tag == tag) (joinPerson person parts).children = _
  rw [children_joinPerson]
  simp only [List.filter_append]

/-- C17: addChildToFamily returns, and it links both ways: afterwards the family (same
key) has a CHIL line whose value is the key of the child, and the child (same key) has
a FAMC line whose value is the key of the family. -/
theorem addChildToFamily_links (child family : GNode) (index : Int) (database : Database) :
    ∃ family' child', addChildToFamily child family index database =
        some (true, family', child') ∧
      family'.key = family.key ∧ child'.key = child.key ∧
      child.key ∈ valuesWithTag family' "CHIL" ∧
      family.key ∈ valuesWithTag child' "FAMC" := by
  refine ⟨_, _, addChildToFamily_eq child family index database, rfl, rfl, ?_, ?_⟩
  · unfold valuesWithTag
    rw [chainWithTag_joinFamily_chil]
    · rw [List.mem_map]
      exact ⟨createGNode none "CHIL" child.key, by simp, rfl⟩
    · intro n hn
      rw [List.mem_append, List.mem_cons] at hn
      rcases hn with h | h | h
      · exact chainWithTag_tag family "CHIL" n (List.mem_of_mem_take h)
      · rw [h]
        rfl
      · exact chainWithTag_tag family "CHIL" n (List.mem_of_mem_drop h)
  · unfold valuesWithTag
    rw [List.mem_map]
    refine ⟨createGNode none "FAMC" family.key, ?_, rfl⟩
    rw [chainWithTag_joinPerson]
    simp only [List.filter_append, List.mem_append]
    left
    right
    right
    simp [createGNode, GNode.tag]

/-- C18 (counterexample): `@F1@` lists each child once; `@I3@` is its child already, and
after addChildToFamily two CHIL lines of `@F1@` refer to `@I3@`. -/
theorem addChildToFamily_existing_child :
    (valuesWithTag fam1 "CHIL").Nodup ∧ kid.key = some "@I3@" ∧
      (addChildToFamily kid fam1 0 toyDatabase).map (fun r => valuesWithTag r.2.1 "CHIL") =
        some [some "@I3@", some "@I3@"] ∧
      (addChildToFamily kid fam1 0 toyDatabase).map
        (fun r => decide (valuesWithTag r.2.1 "CHIL").Nodup) = some false := by
  decide

/-- C18 (amended): when each person is referenced by at most one CHIL line of the family and
no CHIL line of the family refers to the child yet, each person is still referenced by
at most one CHIL line after addChildToFamily. -/
theorem addChildToFamily_keeps_single (child family : GNode) (index : Int)
    (database : Database) (hI4 : (valuesWithTag family "CHIL").Nodup)
    (hnew : child.key ∉ valuesWithTag family "CHIL") :
    ∃ family' child', addChildToFamily child family index database =
        some (true, family', child') ∧
      (valuesWithTag family' "CHIL").Nodup := by
  refine ⟨_, _, addChildToFamily_eq child family index database, ?_⟩
  unfold valuesWithTag at hI4 hnew ⊢
  rw [chainWithTag_joinFamily_chil]
  · rw [List.map_append, List.map_cons, List.nodup_middle, List.nodup_cons, ← List.map_append,
      List.take_append_drop]
    exact ⟨hnew, hI4⟩
  · intro n hn
    rw [List.mem_append, List.mem_cons] at hn
    rcases hn with h | h | h
    · exact chainWithTag_tag family "CHIL" n (List.mem_of_mem_take h)
    · rw [h]
      rfl
    · exact chainWithTag_tag family "CHIL" n (List.mem_of_mem_drop h)

/-- C18 (witness): Bea is no child of `@F1@` yet. -/
theorem addChildToFamily_keeps_single_witness :
    (valuesWithTag fam1 "CHIL").Nodup ∧ bea.key ∉ valuesWithTag fam1 "CHIL" ∧
    ∃ family' child', addChildToFamily bea fam1 1 toyDatabaseBea =
        some (true, family', child') ∧
      (valuesWithTag family' "CHIL").Nodup :=
  ⟨by decide, by decide,
    addChildToFamily_keeps_single bea fam1 1 toyDatabaseBea (by decide) (by decide)⟩

/-- C19 (counterexample): called with an unknown sex, addSpouseToFamily links Pat, `@I5@`,
to `@F1@` by a WIFE line. -/
theorem addSpouseToFamily_unknown_sex :
    pat.key = some "@I5@" ∧
      valuesWithTag fam1 "WIFE" = [some "@I2@"] ∧
      valuesWithTag (addSpouseToFamily pat fam1 SexType.sexUnknown toyDatabasePat).2.1 "WIFE" =
        [some "@I2@", some "@I5@"] := by
  decide

/-- C19 (amended): addSpouseToFamily links the spouse by a new HUSB line, after the HUSB
lines of the family, exactly when `sext` is male, and otherwise (female or unknown) by a
new WIFE line after the WIFE lines; the lines of the other role stay as they are. -/
theorem addSpouseToFamily_role (spouse family : GNode) (sext : SexType)
    (database : Database) :
    valuesWithTag (addSpouseToFamily spouse family sext database).2.1 "HUSB" =
        valuesWithTag family "HUSB" ++
          (if sext = SexType.sexMale then [spouse.key] else []) ∧
      valuesWithTag (addSpouseToFamily spouse family sext database).2.1 "WIFE" =
        valuesWithTag family "WIFE" ++
          (if sext = SexType.sexMale then [] else [spouse.key]) := by
  have hH := filter_chainWithTag_same family "HUSB"
  have hW := filter_chainWithTag_same family "WIFE"
  have h1 := filter_chainWithTag_other family "HUSB" "REFN" (by decide)
  have h2 := filter_chainWithTag_other family "HUSB" "WIFE" (by decide)
  have h3 := filter_chainWithTag_other family "HUSB" "CHIL" (by decide)
  have h4 := filter_chainWithout family "HUSB" ["REFN", "HUSB", "WIFE", "CHIL"] (by decide)
  have h5 := filter_chainWithTag_other family "WIFE" "REFN" (by decide)
  have h6 := filter_chainWithTag_other family "WIFE" "HUSB" (by decide)
  have h7 := filter_chainWithTag_other family "WIFE" "CHIL" (by decide)
  have h8 := filter_chainWithout family "WIFE" ["REFN", "HUSB", "WIFE", "CHIL"] (by decide)
  unfold addSpouseToFamily valuesWithTag
  simp only [chainWithTag_joinFamily, splitFamily, appendToChain_eq]
  by_cases hs : sext = SexType.sexMale
  · simp only [hs, if_true, List.filter_append, h1, h2, h3, h4, h5, h6, h7, h8, hH, hW]
    simp [createGNode, GNode.tag, GNode.value]
  · simp only [hs, if_false, List.filter_append, h1, h2, h3, h4, h5, h6, h7, h8, hH, hW]
    simp [createGNode, GNode.tag, GNode.value]

/-- C20: the validator only accumulates. After a call of validateDatabase the database is
the one before the call, with the same person index and family index and so the same
record trees, and the log is the log before the call followed by the entries the call
appended; the same holds for each call of validatePerson and for validatePersonIndex.
The call returns when every person has a NAME line and the messages fit the buffer. -/
theorem validateDatabase_accumulates (database : Database) (errorLog : ErrorLog) :
    (∀ r, validateDatabase database errorLog = some r →
      r.2.1 = database ∧ r.2.1.personIndex = database.personIndex ∧
      r.2.1.familyIndex = database.familyIndex ∧
      ∃ appended, r.2.2 = errorLog ++ appended) ∧
    (∀ r, validatePersonIndex database errorLog = some r →
      r.2.1 = database ∧ ∃ appended, r.2.2 = errorLog ++ appended) ∧
    (∀ person log r, validatePerson person database log = some r →
      r.2.1 = database ∧ ∃ appended, r.2.2 = log ++ appended) ∧
    (allNamed database = true → allFit database = true →
      ∃ r, validateDatabase database errorLog = some r) := by
  refine ⟨?_, ?_, ?_, ?_⟩
  · intro r hr
    obtain ⟨_, hr'⟩ := validateDatabase_some database errorLog r hr
    rw [hr']
    exact ⟨rfl, rfl, rfl, databaseErrors database, rfl⟩
  · intro r hr
    rw [validatePersonIndex_eq] at hr
    cases hruns : databaseRuns database with
    | false =>
      rw [hruns] at hr
      simp at hr
    | true =>
      rw [hruns] at hr
      simp only [if_true, Option.some.injEq] at hr
      rw [← hr]
      exact ⟨rfl, databaseErrors database, rfl⟩
  · intro person log r hr
    rw [validatePerson_eq] at hr
    cases hruns : personRuns person database with
    | false =>
      rw [hruns] at hr
      simp at hr
    | true =>
      rw [hruns] at hr
      simp only [if_true, Option.some.injEq] at hr
      rw [← hr]
      exact ⟨rfl, personErrors person database, rfl⟩
  · intro hname hfit
    rw [validateDatabase_eq, databaseRuns_of_named database hname hfit]
    exact ⟨_, rfl⟩

/-- C20 (witness): scenario S2 with a log that holds an entry: the call returns the same
database and the old entry followed by the new one. -/
theorem validateDatabase_accumulates_witness :
    allNamed toyDatabaseS2 = true ∧ allFit toyDatabaseS2 = true ∧
    ((∀ r, validateDatabase toyDatabaseS2 [oldError] = some r →
      r.2.1 = toyDatabaseS2 ∧ r.2.1.personIndex = toyDatabaseS2.personIndex ∧
      r.2.1.familyIndex = toyDatabaseS2.familyIndex ∧
      ∃ appended, r.2.2 = [oldError] ++ appended) ∧
    (∀ r, validatePersonIndex toyDatabaseS2 [oldError] = some r →
      r.2.1 = toyDatabaseS2 ∧ ∃ appended, r.2.2 = [oldError] ++ appended) ∧
    (∀ person log r, validatePerson person toyDatabaseS2 log = some r →
      r.2.1 = toyDatabaseS2 ∧ ∃ appended, r.2.2 = log ++ appended) ∧
    (allNamed toyDatabaseS2 = true → allFit toyDatabaseS2 = true →
      ∃ r, validateDatabase toyDatabaseS2 [oldError] = some r)) ∧
    resultAndLog (validateDatabase toyDatabaseS2 [oldError]) =
      some (false, [oldError, childNotFound toyDatabaseS2]) :=
  ⟨by decide, by decide, validateDatabase_accumulates toyDatabaseS2 [oldError], by decide⟩

/-! ## The partitioner: link lines that are not found -/

/-- The `for` loop over the lines of a record: the records found are put in front of the
queue, last line first, and one error is logged per link line that is not found. -/
theorem enqueueLinks_eq (tags : List String) (e : Error) (index : GNodeIndex)
    (children : List GNode) (queue : List GNode) (log : ErrorLog) :
    enqueueLinks tags e index children (queue, log) =
      ((children.filterMap
          (fun c => if tags.contains c.tag then searchRecordIndex index c.value else none)).reverse
          ++ queue,
       log ++ (children.filter
          (fun c => tags.contains c.tag && (searchRecordIndex index c.value).isNone)).map
          (fun _ => e)) := by
  unfold enqueueLinks
  induction children generalizing queue log with
  | nil => simp
  | cons c cs ih =>
    rw [List.foldl_cons]
    cases ht : tags.contains c.tag with
    | false =>
      have hm : c.tag ∉ tags := by simpa using ht
      have hstep : enqueueLink tags e index (queue, log) c = (queue, log) := by
        simp [enqueueLink, hm]
      rw [hstep, ih]
      simp [List.filterMap_cons, List.filter_cons, hm]
    | true =>
      have hm : c.tag ∈ tags := by simpa using ht
      cases hs : searchRecordIndex index c.value with
      | none =>
        have hstep : enqueueLink tags e index (queue, log) c = (queue, log ++ [e]) := by
          simp [enqueueLink, hm, hs, addErrorToLog]
        rw [hstep, ih]
        simp [List.filterMap_cons, List.filter_cons, hm, hs]
      | some n =>
        have hstep : enqueueLink tags e index (queue, log) c = (n :: queue, log) := by
          simp [enqueueLink, hm, hs, prependToList]
        rw [hstep, ih]
        simp [List.filterMap_cons, List.filter_cons, hm, hs]

/-- One iteration of the loop of createPartition on a record with a new key: every link
line that is found puts its record in front of the queue, every link line that is not
found logs one error and nothing else. -/
theorem processRecord_expand (index : GNodeIndex) (x : GNode) (st : PartitionState)
    (k : String) (hk : x.key = some k) (hv : isInSet st.visited k = false) :
    processRecord index x st =
      { queue := (x.children.filterMap (linkTarget index x)).reverse ++ st.queue,
        visited := addToSet st.visited k,
        partition :=
          if recordType x = RecordType.GRPerson then st.partition ++ [x] else st.partition,
        log := st.log ++
          (x.children.filter (unresolvedLink index x)).map (fun _ => notFoundError x) } := by
  have hT : linkTarget index x = fun c =>
      if (linkTags x).contains c.tag then searchRecordIndex index c.value else none := rfl
  have hU : unresolvedLink index x = fun c =>
      (linkTags x).contains c.tag && (searchRecordIndex index c.value).isNone := rfl
  unfold processRecord
  simp only [hk, hv, Bool.false_eq_true, if_false]
  rw [hT, hU]
  by_cases hp : recordType x = RecordType.GRPerson
  · have hlt : linkTags x = ["FAMS", "FAMC"] := by simp only [linkTags, hp, if_true]
    have hne : notFoundError x =
        createError ErrorType.linkageError "file" 0 "Couldn't find a family" := by
      simp only [notFoundError, hp, if_true]
    simp only [if_pos hp, hlt, hne, enqueueLinks_eq]
  · by_cases hf : recordType x = RecordType.GRFamily
    · have hlt : linkTags x = ["HUSB", "WIFE", "CHIL"] := by
        simp only [linkTags, if_neg hp, if_pos hf]
      have hne : notFoundError x =
          createError ErrorType.linkageError "" 0 "Couldn't find a person" := by
        simp only [notFoundError, if_neg hp]
      simp only [if_neg hp, if_pos hf, hlt, hne, enqueueLinks_eq]
    · have hlt : linkTags x = [] := by simp only [linkTags, if_neg hp, if_neg hf]
      simp only [if_neg hp, if_neg hf, hlt]
      simp

theorem processRecord_skip (index : GNodeIndex) (x : GNode) (st : PartitionState)
    (h : x.key = none ∨ ∃ k, x.key = some k ∧ isInSet st.visited k = true) :
    processRecord index x st = st := by
  unfold processRecord
  rcases h with h | ⟨k, hk, hv⟩
  · simp only [h]
  · simp only [hk, hv, if_true]

theorem dropUnresolved_key (index : GNodeIndex) (r : GNode) :
    (dropUnresolved index r).key = r.key := rfl

theorem dropUnresolved_recordType (index : GNodeIndex) (r : GNode) :
    recordType (dropUnresolved index r) = recordType r := rfl

theorem dropUnresolved_linkTags (index : GNodeIndex) (r : GNode) :
    linkTags (dropUnresolved index r) = linkTags r := rfl

theorem searchRecordIndex_map (index : GNodeIndex) (v : Option String) :
    searchRecordIndex (index.map (dropUnresolved index)) v =
      (searchRecordIndex index v).map (dropUnresolved index) := by
  cases v with
  | none => rfl
  | some k =>
    unfold searchRecordIndex
    simp only
    rw [List.find?_map]
    rfl

theorem linkTarget_dropUnresolved (index : GNodeIndex) (x : GNode) :
    (dropUnresolved index x).children.filterMap
        (linkTarget (index.map (dropUnresolved index)) (dropUnresolved index x)) =
      (x.children.filterMap (linkTarget index x)).map (dropUnresolved index) := by
  show (x.children.filter (fun c => !unresolvedLink index x c)).filterMap _ = _
  rw [List.filterMap_filter, List.map_filterMap]
  apply List.filterMap_congr
  intro c _
  unfold linkTarget unresolvedLink
  rw [dropUnresolved_linkTags, searchRecordIndex_map]
  cases ht : (linkTags x).contains c.tag with
  | false => simp
  | true =>
    cases hs : searchRecordIndex index c.value with
    | none => simp
    | some n => simp

theorem unresolved_dropUnresolved (index : GNodeIndex) (x : GNode) :
    (dropUnresolved index x).children.filter
        (unresolvedLink (index.map (dropUnresolved index)) (dropUnresolved index x)) = [] := by
  show (x.children.filter (fun c => !unresolvedLink index x c)).filter _ = []
  rw [List.filter_eq_nil_iff]
  intro c hc
  have hkeep := (List.mem_filter.mp hc).2
  unfold unresolvedLink at hkeep ⊢
  rw [dropUnresolved_linkTags, searchRecordIndex_map]
  cases ht : (linkTags x).contains c.tag with
  | false => simp
  | true =>
    cases hs : searchRecordIndex index c.value with
    | none =>
      rw [ht, hs] at hkeep
      simp at hkeep
    | some n => simp

/-- One iteration on the data without the unresolved link lines does what the iteration
on the data does, and leaves the log as it is. -/
theorem processRecord_clean (index : GNodeIndex) (x : GNode) (st : PartitionState)
    (log : ErrorLog) :
    processRecord (index.map (dropUnresolved index)) (dropUnresolved index x)
        (cleanState index st log) =
      cleanState index (processRecord index x st) log := by
  cases hk : x.key with
  | none =>
    rw [processRecord_skip index x st (Or.inl hk),
      processRecord_skip (index.map (dropUnresolved index)) (dropUnresolved index x)
        (cleanState index st log) (Or.inl (by rw [dropUnresolved_key, hk]))]
  | some k =>
    cases hv : isInSet st.visited k with
    | true =>
      rw [processRecord_skip index x st (Or.inr ⟨k, hk, hv⟩),
        processRecord_skip (index.map (dropUnresolved index)) (dropUnresolved index x)
          (cleanState index st log) (Or.inr ⟨k, by rw [dropUnresolved_key, hk], hv⟩)]
    | false =>
      rw [processRecord_expand index x st k hk hv,
        processRecord_expand _ (dropUnresolved index x) (cleanState index st log) k
          (by rw [dropUnresolved_key, hk]) hv,
        linkTarget_dropUnresolved, unresolved_dropUnresolved, dropUnresolved_recordType]
      unfold cleanState
      by_cases hp : recordType x = RecordType.GRPerson
      · simp [hp]
      · simp [hp]

/-- The loop on the data without the unresolved link lines runs like the loop on the data. -/
theorem createPartitionLoop_clean (index : GNodeIndex) (fuel : Nat) (st fin : PartitionState)
    (log : ErrorLog) (h : createPartitionLoop index fuel st = some fin) :
    createPartitionLoop (index.map (dropUnresolved index)) fuel (cleanState index st log) =
      some (cleanState index fin log) := by
  induction fuel generalizing st with
  | zero => simp [createPartitionLoop] at h
  | succ fuel ih =>
    unfold createPartitionLoop getAndRemoveLastListElement at h ⊢
    have hq : (cleanState index st log).queue = st.queue.map (dropUnresolved index) := rfl
    rw [hq, List.getLast?_map, ← List.map_dropLast]
    cases hl : st.queue.getLast? with
    | none =>
      rw [hl] at h
      simp only [Option.some.injEq] at h
      rw [← h]
      rfl
    | some x =>
      rw [hl] at h
      simp only [Option.map_some'] at h ⊢
      have := ih _ h
      rw [← processRecord_clean] at this
      exact this

/-- More fuel does not change what the loop of createPartition returns. -/
theorem createPartitionLoop_fuel (index : GNodeIndex) (fuel : Nat) (st fin : PartitionState)
    (h : createPartitionLoop index fuel st = some fin) (fuel2 : Nat) (hle : fuel ≤ fuel2) :
    createPartitionLoop index fuel2 st = some fin := by
  induction fuel generalizing st fuel2 with
  | zero => simp [createPartitionLoop] at h
  | succ fuel ih =>
    cases fuel2 with
    | zero => omega
    | succ fuel2 =>
      unfold createPartitionLoop at h ⊢
      cases hl : (getAndRemoveLastListElement st.queue).1 with
      | none =>
        have hpair : getAndRemoveLastListElement st.queue =
            (none, (getAndRemoveLastListElement st.queue).2) := by
          rw [← hl]
        rw [hpair] at h ⊢
        exact h
      | some x =>
        have hpair : getAndRemoveLastListElement st.queue =
            (some x, (getAndRemoveLastListElement st.queue).2) := by
          rw [← hl]
        rw [hpair] at h ⊢
        exact ih _ h fuel2 (by omega)

theorem createPartitionFuel_clean (index : GNodeIndex) (root : GNode) :
    createPartitionFuel (dropUnresolved index root) (index.map (dropUnresolved index)) ≤
      createPartitionFuel root index := by
  have hlen : ∀ r : GNode, (dropUnresolved index r).children.length ≤ r.children.length :=
    fun r => List.length_filter_le _ _
  have hsum : ∀ l : List GNode,
      ((l.map (dropUnresolved index)).map (fun r => r.children.length)).sum ≤
        (l.map (fun r => r.children.length)).sum := by
    intro l
    induction l with
    | nil => simp
    | cons r rs ih =>
      simp only [List.map_cons, List.sum_cons]
      exact Nat.add_le_add (hlen r) ih
  unfold createPartitionFuel
  have h1 := hlen root
  have h2 := hsum index
  omega

/-- The call createPartition on the data without the unresolved link lines returns the
partition of the call on the data (its records without these lines), visits the same
keys and logs nothing. -/
theorem createPartition_clean (root : GNode) (gnodes : GNodeList) (index : GNodeIndex)
    (visited : StringSet) (log : ErrorLog) (partition : List GNode) (visited' : StringSet)
    (log' : ErrorLog)
    (h : createPartition root gnodes index visited log = some (partition, visited', log')) :
    createPartition (dropUnresolved index root) (gnodes.map (dropUnresolved index))
        (index.map (dropUnresolved index)) visited log =
      some (partition.map (dropUnresolved index), visited', log) := by
  unfold createPartition at h
  cases hloop : createPartitionLoop index (createPartitionFuel root index)
      { queue := prependToList [] root, visited := visited, partition := [], log := log } with
  | none =>
    rw [hloop] at h
    simp at h
  | some fin =>
    rw [hloop] at h
    simp only [Option.map_some', Option.some.injEq, Prod.mk.injEq] at h
    obtain ⟨hp, hv, _⟩ := h
    have hclean := createPartitionLoop_clean index _ _ fin log hloop
    obtain ⟨r, hr⟩ := createPartition_some (dropUnresolved index root)
      (gnodes.map (dropUnresolved index)) (index.map (dropUnresolved index)) visited log
    unfold createPartition at hr ⊢
    cases hloop2 : createPartitionLoop (index.map (dropUnresolved index))
        (createPartitionFuel (dropUnresolved index root) (index.map (dropUnresolved index)))
        { queue := prependToList [] (dropUnresolved index root), visited := visited,
          partition := [], log := log } with
    | none =>
      rw [hloop2] at hr
      simp at hr
    | some fin2 =>
      have hmore := createPartitionLoop_fuel _ _ _ fin2 hloop2
        (createPartitionFuel root index) (createPartitionFuel_clean index root)
      have hsame : cleanState index
          { queue := prependToList [] root, visited := visited, partition := [], log := log }
          log =
          { queue := prependToList [] (dropUnresolved index root), visited := visited,
            partition := [], log := log } := rfl
      rw [hsame, hmore] at hclean
      simp only [Option.some.injEq] at hclean
      rw [hclean]
      simp only [Option.map_some', cleanState, hp, hv]

/-- C12: when createPartition expands a record, every link line that is found puts its
record in the queue, and every link line that is not found appends one linkage error
and puts nothing in the queue, the other lines being handled all the same; the call
returns, and on the data with the unresolved lines deleted it returns the same
partition (the same records without these lines) and visits the same keys. -/
theorem createPartition_unresolved_lines (root : GNode) (gnodes : GNodeList)
    (index : GNodeIndex) (visited : StringSet) (log : ErrorLog) :
    (∀ (x : GNode) (st : PartitionState) (k : String),
      x.key = some k → isInSet st.visited k = false →
        (processRecord index x st).queue =
            (x.children.filterMap (linkTarget index x)).reverse ++ st.queue ∧
          (processRecord index x st).log =
            st.log ++
              (x.children.filter (unresolvedLink index x)).map (fun _ => notFoundError x) ∧
          (notFoundError x).type = ErrorType.linkageError) ∧
    ∃ partition visited' log',
      createPartition root gnodes index visited log = some (partition, visited', log') ∧
      createPartition (dropUnresolved index root) (gnodes.map (dropUnresolved index))
          (index.map (dropUnresolved index)) visited log =
        some (partition.map (dropUnresolved index), visited', log) := by
  constructor
  · intro x st k hk hv
    rw [processRecord_expand index x st k hk hv]
    refine ⟨rfl, rfl, ?_⟩
    unfold notFoundError
    split <;> rfl
  · obtain ⟨r, hr⟩ := createPartition_some root gnodes index visited log
    obtain ⟨partition, visited', log'⟩ := r
    exact ⟨partition, visited', log', hr,
      createPartition_clean root gnodes index visited log partition visited' log' hr⟩

/-- C12 (witness): Cal has a FAMC line to the missing `@F7@` between two links that are
found; the call logs one error, goes on, and gives the partition it gives without
that line. -/
theorem createPartition_unresolved_lines_witness :
    (∃ partition visited' log',
      createPartition cal recordsUnresolved (createIndexOfGNodes recordsUnresolved) [] [] =
        some (partition, visited', log') ∧
      createPartition (dropUnresolved (createIndexOfGNodes recordsUnresolved) cal)
          (recordsUnresolved.map (dropUnresolved (createIndexOfGNodes recordsUnresolved)))
          ((createIndexOfGNodes recordsUnresolved).map
            (dropUnresolved (createIndexOfGNodes recordsUnresolved))) [] [] =
        some (partition.map (dropUnresolved (createIndexOfGNodes recordsUnresolved)),
          visited', [])) ∧
    (createPartition cal recordsUnresolved (createIndexOfGNodes recordsUnresolved) [] []).map
        (fun r => (r.1.map GNode.key, r.2.2)) =
      some ([some "@I8@", some "@I1@", some "@I2@", some "@I3@", some "@I6@", some "@I7@"],
        [createError ErrorType.linkageError "file" 0 "Couldn't find a family"]) :=
  ⟨(createPartition_unresolved_lines cal recordsUnresolved
      (createIndexOfGNodes recordsUnresolved) [] []).2,
   by decide⟩

/-! ## The partitioner: partitions and reachability -/

theorem follows_target (rs : List GNode) (index : GNodeIndex) (x y : GNode)
    (h : follows rs index x y) : y ∈ index ∧ ∃ k, y.key = some k := by
  obtain ⟨_, hy⟩ := h
  rw [List.mem_filterMap] at hy
  obtain ⟨c, _, hc⟩ := hy
  unfold linkTarget at hc
  split at hc
  · obtain ⟨h1, h2⟩ := searchRecordIndex_some index _ y hc
    refine ⟨h1, ?_⟩
    cases hv : c.value with
    | none =>
      rw [hv] at hc
      simp [searchRecordIndex] at hc
    | some k => exact ⟨k, by rw [h2, hv]⟩
  · simp at hc

theorem reachInv_skip (rs : List GNode) (index : GNodeIndex) (seed : GNode)
    (visited0 : StringSet) (x : GNode) (st : PartitionState)
    (hx : ∀ y, follows rs index y x → ∃ k, x.key = some k ∧ k ∈ st.visited)
    (hs : seed = x → ∃ k, x.key = some k ∧ k ∈ st.visited)
    (hinv : ReachInv rs index seed visited0
      { queue := st.queue ++ [x], visited := st.visited, partition := st.partition,
        log := st.log }) :
    ReachInv rs index seed visited0 st := by
  refine ⟨hinv.mono, ?_, hinv.reached, ?_, ?_, hinv.persons⟩
  · intro y hy
    exact hinv.queue y (by simp [hy])
  · intro z hz k hzk hkv hk0 y hzy
    rcases hinv.expanded z hz k hzk hkv hk0 y hzy with h | h
    · exact Or.inl h
    · simp only [List.mem_append, List.mem_singleton] at h
      rcases h with h | h
      · exact Or.inr h
      · left
        rw [h]
        rw [h] at hzy
        exact hx z hzy
  · rcases hinv.seeded with h | h
    · exact Or.inl h
    · simp only [List.mem_append, List.mem_singleton] at h
      rcases h with h | h
      · exact Or.inr h
      · left
        rw [h]
        exact hs h

/-- One iteration of the loop of createPartition keeps the reachability invariant. -/
theorem reachInv_step (rs : List GNode) (hkeys : (rs.filterMap GNode.key).Nodup)
    (index : GNodeIndex) (hindex : ∀ y ∈ index, y ∈ rs) (seed : GNode) (ks : String)
    (hseed : seed.key = some ks) (visited0 : StringSet) (x : GNode) (st : PartitionState)
    (hinv : ReachInv rs index seed visited0
      { queue := st.queue ++ [x], visited := st.visited, partition := st.partition,
        log := st.log }) :
    ReachInv rs index seed visited0 (processRecord index x st) := by
  obtain ⟨hxrs, hxreach⟩ := hinv.queue x (by simp)
  cases hk : x.key with
  | none =>
    rw [processRecord_skip index x st (Or.inl hk)]
    apply reachInv_skip rs index seed visited0 x st _ _ hinv
    · intro y hy
      obtain ⟨_, k', hk'⟩ := follows_target rs index y x hy
      rw [hk] at hk'
      simp at hk'
    · intro h
      rw [h, hk] at hseed
      simp at hseed
  | some k =>
    cases hv : isInSet st.visited k with
    | true =>
      rw [processRecord_skip index x st (Or.inr ⟨k, hk, hv⟩)]
      have hmem : k ∈ st.visited := (isInSet_iff _ _).mp hv
      exact reachInv_skip rs index seed visited0 x st (fun _ _ => ⟨k, hk, hmem⟩)
        (fun _ => ⟨k, hk, hmem⟩) hinv
    | false =>
      have hnot : k ∉ st.visited := by
        intro h
        rw [(isInSet_iff _ _).mpr h] at hv
        simp at hv
      have hk0 : k ∉ visited0 := fun h => hnot (hinv.mono k h)
      rw [processRecord_expand index x st k hk hv]
      refine ⟨?_, ?_, ?_, ?_, ?_, ?_⟩
      · intro k' hk'
        exact List.mem_cons_of_mem _ (hinv.mono k' hk')
      · intro y hy
        simp only [List.mem_append, List.mem_reverse] at hy
        rcases hy with hy | hy
        · have hf : follows rs index x y := ⟨hxrs, hy⟩
          exact ⟨hindex y (follows_target rs index x y hf).1,
            Relation.ReflTransGen.tail hxreach hf⟩
        · exact hinv.queue y (by simp [hy])
      · intro z hz kz hzk hkv hkz0
        simp only [addToSet, List.mem_cons] at hkv
        rcases hkv with hkv | hkv
        · rw [hkv] at hzk
          rw [record_eq_of_key rs hkeys z x k hz hxrs hzk hk]
          exact hxreach
        · exact hinv.reached z hz kz hzk hkv hkz0
      · intro z hz kz hzk hkv hkz0 y hzy
        simp only [addToSet, List.mem_cons] at hkv
        rcases hkv with hkv | hkv
        · rw [hkv] at hzk
          have hzx := record_eq_of_key rs hkeys z x k hz hxrs hzk hk
          rw [hzx] at hzy
          right
          simp only [List.mem_append, List.mem_reverse]
          exact Or.inl hzy.2
        · rcases hinv.expanded z hz kz hzk hkv hkz0 y hzy with h | h
          · obtain ⟨k', h1, h2⟩ := h
            exact Or.inl ⟨k', h1, List.mem_cons_of_mem _ h2⟩
          · simp only [List.mem_append, List.mem_singleton] at h
            rcases h with h | h
            · right
              simp only [List.mem_append, List.mem_reverse]
              exact Or.inr h
            · left
              rw [h]
              exact ⟨k, hk, List.mem_cons_self _ _⟩
      · rcases hinv.seeded with h | h
        · obtain ⟨k', h1, h2⟩ := h
          exact Or.inl ⟨k', h1, List.mem_cons_of_mem _ h2⟩
        · simp only [List.mem_append, List.mem_singleton] at h
          rcases h with h | h
          · right
            simp only [List.mem_append, List.mem_reverse]
            exact Or.inr h
          · left
            rw [h]
            exact ⟨k, hk, List.mem_cons_self _ _⟩
      · intro y
        have hold := hinv.persons y
        simp only at hold
        by_cases hp : recordType x = RecordType.GRPerson
        · simp only [hp, if_true, List.mem_append, addToSet, List.mem_cons, List.not_mem_nil,
            or_false]
          constructor
          · rintro (hy | hy)
            · obtain ⟨h1, h2, k', h3, h4, h5⟩ := hold.mp hy
              exact ⟨h1, h2, k', h3, Or.inr h4, h5⟩
            · rw [hy]
              exact ⟨hxrs, hp, k, hk, Or.inl rfl, hk0⟩
          · rintro ⟨h1, h2, k', h3, h4, h5⟩
            rcases h4 with h4 | h4
            · right
              rw [h4] at h3
              exact record_eq_of_key rs hkeys y x k h1 hxrs h3 hk
            · left
              exact hold.mpr ⟨h1, h2, k', h3, h4, h5⟩
        · simp only [hp, if_false, addToSet, List.mem_cons]
          constructor
          · intro hy
            obtain ⟨h1, h2, k', h3, h4, h5⟩ := hold.mp hy
            exact ⟨h1, h2, k', h3, Or.inr h4, h5⟩
          · rintro ⟨h1, h2, k', h3, h4, h5⟩
            rcases h4 with h4 | h4
            · exfalso
              rw [h4] at h3
              rw [record_eq_of_key rs hkeys y x k h1 hxrs h3 hk] at h2
              exact hp h2
            · exact hold.mpr ⟨h1, h2, k', h3, h4, h5⟩
/-- The loop of createPartition keeps the reachability invariant and ends with an empty
queue. -/
theorem reachInv_loop (rs : List GNode) (hkeys : (rs.filterMap GNode.key).Nodup)
    (index : GNodeIndex) (hindex : ∀ y ∈ index, y ∈ rs) (seed : GNode) (ks : String)
    (hseed : seed.key = some ks) (visited0 : StringSet) (fuel : Nat) (st fin : PartitionState)
    (hrun : createPartitionLoop index fuel st = some fin)
    (hinv : ReachInv rs index seed visited0 st) :
    ReachInv rs index seed visited0 fin ∧ fin.queue = [] := by
  induction fuel generalizing st with
  | zero => simp [createPartitionLoop] at hrun
  | succ fuel ih =>
    unfold createPartitionLoop getAndRemoveLastListElement at hrun
    cases hl : st.queue.getLast? with
    | none =>
      rw [hl] at hrun
      simp only [Option.some.injEq] at hrun
      rw [← hrun]
      exact ⟨hinv, List.getLast?_eq_none_iff.mp hl⟩
    | some x =>
      rw [hl] at hrun
      simp only at hrun
      have hsplit := getLast?_dropLast st.queue x hl
      have hst : st =
          { queue := st.queue.dropLast ++ [x], visited := st.visited, partition := st.partition,
            log := st.log } := by
        cases st
        simp only [PartitionState.mk.injEq, and_true]
        exact hsplit
      rw [hst] at hinv
      exact ih _ hrun (reachInv_step rs hkeys index hindex seed ks hseed visited0 x
        { queue := st.queue.dropLast, visited := st.visited, partition := st.partition,
          log := st.log } hinv)

theorem closedSet_reach (rs : List GNode) (index : GNodeIndex) (visited : StringSet)
    (hclosed : ClosedSet rs index visited) (a b : GNode)
    (h : Relation.ReflTransGen (follows rs index) a b) (ka : String)
    (hka : a.key = some ka) (hin : ka ∈ visited) :
    ∃ kb, b.key = some kb ∧ kb ∈ visited := by
  induction h with
  | refl => exact ⟨ka, hka, hin⟩
  | tail _ hstep ih =>
    obtain ⟨ky, h1, h2⟩ := ih
    exact hclosed _ hstep.1 ky h1 h2 _ hstep

/-- The call createPartition, started from a keyed record whose key is new, on a visited
set closed under steps: the visited set is closed again, and the partition holds the
persons reached from the root. The steps are symmetric. -/
theorem createPartition_reach (rs : List GNode) (hkeys : (rs.filterMap GNode.key).Nodup)
    (index : GNodeIndex) (hindex : ∀ y ∈ index, y ∈ rs)
    (hsym : ∀ x y, follows rs index x y → follows rs index y x)
    (root : GNode) (kr : String) (hroot : root ∈ rs) (hkey : root.key = some kr)
    (gnodes : GNodeList) (visited : StringSet) (log : ErrorLog)
    (hnew : kr ∉ visited) (hclosed : ClosedSet rs index visited)
    (partition : List GNode) (visited' : StringSet) (log' : ErrorLog)
    (h : createPartition root gnodes index visited log = some (partition, visited', log')) :
    ClosedSet rs index visited' ∧ ReachedFrom rs index root partition := by
  unfold createPartition at h
  cases hloop : createPartitionLoop index (createPartitionFuel root index)
      { queue := prependToList [] root, visited := visited, partition := [], log := log } with
  | none =>
    rw [hloop] at h
    simp at h
  | some fin =>
    rw [hloop] at h
    simp only [Option.map_some', Option.some.injEq, Prod.mk.injEq] at h
    obtain ⟨hp, hv, _⟩ := h
    have hinit : ReachInv rs index root visited
        { queue := prependToList [] root, visited := visited, partition := [], log := log } := by
      refine ⟨fun k hk => hk, ?_, ?_, ?_, ?_, ?_⟩
      · intro x hx
        simp only [prependToList, List.mem_singleton] at hx
        rw [hx]
        exact ⟨hroot, Relation.ReflTransGen.refl⟩
      · intro x _ k _ h1 h2
        exact absurd h1 h2
      · intro x _ k _ h1 h2
        exact absurd h1 h2
      · right
        simp [prependToList]
      · intro x
        constructor
        · intro hx
          simp at hx
        · rintro ⟨_, _, k, _, h1, h2⟩
          exact absurd h1 h2
    obtain ⟨hfin, hempty⟩ := reachInv_loop rs hkeys index hindex root kr hkey visited _ _ fin
      hloop hinit
    subst hp
    subst hv
    have hdone : ClosedSet rs index fin.visited := by
      intro x hx k hxk hk y hxy
      by_cases hk0 : k ∈ visited
      · obtain ⟨k', h1, h2⟩ := hclosed x hx k hxk hk0 y hxy
        exact ⟨k', h1, hfin.mono k' h2⟩
      · rcases hfin.expanded x hx k hxk hk hk0 y hxy with h1 | h1
        · exact h1
        · rw [hempty] at h1
          simp at h1
    have hrootv : kr ∈ fin.visited := by
      rcases hfin.seeded with ⟨k, h1, h2⟩ | h1
      · rw [hkey] at h1
        simp only [Option.some.injEq] at h1
        rw [h1]
        exact h2
      · rw [hempty] at h1
        simp at h1
    have hreachrs : ∀ x, Relation.ReflTransGen (follows rs index) root x → x ∈ rs := by
      intro x hx
      cases hx with
      | refl => exact hroot
      | tail _ hstep => exact hindex x (follows_target rs index _ x hstep).1
    refine ⟨hdone, hroot, ?_⟩
    intro x
    constructor
    · intro hx
      obtain ⟨h1, h2, k, h3, h4, h5⟩ := (hfin.persons x).mp hx
      exact ⟨h2, hfin.reached x h1 k h3 h4 h5⟩
    · rintro ⟨hperson, hreach⟩
      obtain ⟨k, h1, h2⟩ := closedSet_reach rs index _ hdone root x hreach kr hkey hrootv
      have hxrs := hreachrs x hreach
      have hk0 : k ∉ visited := by
        intro hk0
        have hback : Relation.ReflTransGen (follows rs index) x root :=
          Relation.ReflTransGen.symmetric (fun a b hab => hsym a b hab) hreach
        obtain ⟨k', h3, h4⟩ := closedSet_reach rs index visited hclosed x root hback k h1 hk0
        rw [hkey] at h3
        simp only [Option.some.injEq] at h3
        rw [h3] at hnew
        exact hnew h4
      exact (hfin.persons x).mpr ⟨hxrs, hperson, k, h1, h2, hk0⟩

/-- The scan of getPartitions: with symmetric steps, every partition it returns holds the
persons reached from a seed. -/
theorem getPartitionsLoop_reach (rs : List GNode) (hkeys : (rs.filterMap GNode.key).Nodup)
    (index : GNodeIndex) (hindex : ∀ y ∈ index, y ∈ rs)
    (hsym : ∀ x y, follows rs index x y → follows rs index y x)
    (gnodes : GNodeList) (rest : List GNode) (visited : StringSet)
    (partitions : List (List GNode)) (log : ErrorLog)
    (result : List (List GNode)) (log' : ErrorLog)
    (hrun : getPartitionsLoop gnodes index rest visited partitions log = some (result, log'))
    (hrest : ∀ y ∈ rest, y ∈ rs) (hclosed : ClosedSet rs index visited)
    (hparts : ∀ part ∈ partitions, ∃ seed, ReachedFrom rs index seed part) :
    ∀ part ∈ result, ∃ seed, ReachedFrom rs index seed part := by
  induction rest generalizing visited partitions log with
  | nil =>
    simp only [getPartitionsLoop, Option.some.injEq, Prod.mk.injEq] at hrun
    rw [← hrun.1]
    exact hparts
  | cons root rest ih =>
    have hrest' : ∀ y ∈ rest, y ∈ rs := fun y hy => hrest y (List.mem_cons_of_mem _ hy)
    unfold getPartitionsLoop at hrun
    cases hk : root.key with
    | none =>
      rw [hk] at hrun
      exact ih visited partitions log hrun hrest' hclosed hparts
    | some key =>
      rw [hk] at hrun
      simp only at hrun
      cases hv : isInSet visited key with
      | true =>
        rw [hv] at hrun
        simp only [Bool.not_true, Bool.false_eq_true, if_false] at hrun
        exact ih visited partitions log hrun hrest' hclosed hparts
      | false =>
        rw [hv] at hrun
        simp only [Bool.not_false, if_true] at hrun
        have hnew : key ∉ visited := by
          intro h
          rw [(isInSet_iff _ _).mpr h] at hv
          simp at hv
        cases hc : createPartition root gnodes index visited log with
        | none =>
          rw [hc] at hrun
          simp at hrun
        | some r =>
          obtain ⟨partition, visited1, log1⟩ := r
          rw [hc] at hrun
          simp only at hrun
          obtain ⟨hclosed1, hreached⟩ := createPartition_reach rs hkeys index hindex hsym root
            key (hrest root (List.mem_cons_self _ _)) hk gnodes visited log hnew hclosed
            partition visited1 log1 hc
          apply ih visited1 (partitions ++ [partition]) log1 hrun hrest' hclosed1
          intro part hpart
          rw [List.mem_append, List.mem_singleton] at hpart
          rcases hpart with hpart | hpart
          · exact hparts part hpart
          · rw [hpart]
            exact ⟨root, hreached⟩
theorem searchRecordIndex_createIndex (rs : List GNode)
    (hkeys : (rs.filterMap GNode.key).Nodup) (y : GNode) (k : String) (hy : y ∈ rs)
    (hk : y.key = some k) :
    searchRecordIndex (createIndexOfGNodes rs) (some k) = some y := by
  have hmem : y ∈ createIndexOfGNodes rs := by
    rw [createIndexOfGNodes_eq, List.mem_filter]
    exact ⟨hy, by simp [hk]⟩
  cases hs : searchRecordIndex (createIndexOfGNodes rs) (some k) with
  | none =>
    unfold searchRecordIndex at hs
    simp only at hs
    rw [List.find?_eq_none] at hs
    have := hs y hmem
    simp [hk] at this
  | some z =>
    obtain ⟨h1, h2⟩ := searchRecordIndex_some _ _ z hs
    rw [createIndexOfGNodes_eq] at h1
    rw [record_eq_of_key rs hkeys z y k (List.mem_of_mem_filter h1) hy h2 hk]

/-- Over records with pairwise distinct keys and their index, a step of createPartition
from `x` leads to `y` exactly when `x` has a link line with the key of `y`. -/
theorem follows_iff_linksTo (rs : List GNode) (hkeys : (rs.filterMap GNode.key).Nodup)
    (x y : GNode) (hx : x ∈ rs) :
    follows rs (createIndexOfGNodes rs) x y ↔ (y ∈ rs ∧ linksTo x y = true) := by
  constructor
  · rintro ⟨_, hy⟩
    rw [List.mem_filterMap] at hy
    obtain ⟨c, hc, hlink⟩ := hy
    unfold linkTarget at hlink
    split at hlink
    · next htag =>
      obtain ⟨h1, h2⟩ := searchRecordIndex_some _ _ y hlink
      rw [createIndexOfGNodes_eq] at h1
      refine ⟨List.mem_of_mem_filter h1, ?_⟩
      unfold linksTo
      rw [List.any_eq_true]
      refine ⟨c, hc, ?_⟩
      cases hv : c.value with
      | none =>
        rw [hv] at hlink
        simp [searchRecordIndex] at hlink
      | some k =>
        rw [hv] at h2
        have hm : c.tag ∈ linkTags x := by simpa using htag
        simp [hm, h2]
    · simp at hlink
  · rintro ⟨hy, hlink⟩
    refine ⟨hx, ?_⟩
    unfold linksTo at hlink
    rw [List.any_eq_true] at hlink
    obtain ⟨c, hc, hcond⟩ := hlink
    simp only [Bool.and_eq_true, beq_iff_eq] at hcond
    obtain ⟨⟨htag, hsome⟩, hval⟩ := hcond
    rw [List.mem_filterMap]
    refine ⟨c, hc, ?_⟩
    obtain ⟨k, hk⟩ := Option.isSome_iff_exists.mp hsome
    unfold linkTarget
    rw [if_pos htag, hk]
    exact searchRecordIndex_createIndex rs hkeys y k hy (by rw [← hval, hk])

theorem wellLinked_spec (rs : List GNode) (hwell : wellLinked rs = true) (x y : GNode)
    (hx : x ∈ rs) (hy : y ∈ rs) (h : linksTo x y = true) :
    linksTo y x = true ∧
      ((recordType x = RecordType.GRPerson ∧ recordType y = RecordType.GRFamily) ∨
       (recordType x = RecordType.GRFamily ∧ recordType y = RecordType.GRPerson)) := by
  unfold wellLinked at hwell
  simp only [List.all_eq_true] at hwell
  have := hwell x hx y hy
  simpa [h] using this

/-- C11 (counterexample): `@F3@` has a HUSB line to `@I9@` and `@I10@` has a FAMS line to
`@F3@`, so a path of the graph joins `@I9@` and `@I10@` through `@F3@`; `@I9@` has no
FAMS line back, and getPartitions puts the two persons in two partitions. -/
theorem getPartitions_one_way_link :
    (recordsOneWay.filterMap GNode.key).Nodup ∧
      Relation.ReflTransGen (adjacent recordsOneWay) sol una ∧
      ∃ partitions log',
        getPartitions (removeNonPersons recordsOneWay) (createIndexOfGNodes recordsOneWay)
          [] = some (partitions, log') ∧
        partitions.map (fun p => p.map GNode.key) = [[some "@I9@"], [some "@I10@"]] ∧
        ¬ ∃ part ∈ partitions, sol ∈ part ∧ una ∈ part := by
  refine ⟨by decide, ?_, [[sol], [una]], [], rfl, rfl, ?_⟩
  · have h1 : adjacent recordsOneWay sol fam3 :=
      ⟨by simp [recordsOneWay], by simp [recordsOneWay], Or.inl (by decide)⟩
    have h2 : adjacent recordsOneWay fam3 una :=
      ⟨by simp [recordsOneWay], by simp [recordsOneWay], Or.inr (by decide)⟩
    exact (Relation.ReflTransGen.single h1).tail h2
  · rintro ⟨part, hpart, hs, hu⟩
    simp only [List.mem_cons, List.mem_singleton, List.not_mem_nil, or_false] at hpart
    rcases hpart with h | h
    · rw [h, List.mem_singleton] at hu
      have := congrArg GNode.key hu
      revert this
      decide
    · rw [h, List.mem_singleton] at hs
      have := congrArg GNode.key hs
      revert this
      decide

/-- C11 (amended): for records with pairwise distinct keys in which every link between two
records has its back link and joins a person and a family, the partitions getPartitions
returns are the connected components of the person-family graph: two keyed persons
lie in one partition exactly when a path of the graph joins them. -/
theorem getPartitions_components (rs gnodes : GNodeList) (log : ErrorLog)
    (hkeys : (rs.filterMap GNode.key).Nodup)
    (hsub : ∀ g ∈ gnodes, g ∈ rs)
    (hall : ∀ r ∈ rs, recordType r = RecordType.GRPerson → r.key ≠ none → r ∈ gnodes)
    (hwell : wellLinked rs = true) :
    ∃ partitions log',
      getPartitions gnodes (createIndexOfGNodes rs) log = some (partitions, log') ∧
      ∀ p ∈ rs, ∀ q ∈ rs, recordType p = RecordType.GRPerson →
        recordType q = RecordType.GRPerson → p.key ≠ none → q.key ≠ none →
        ((∃ part ∈ partitions, p ∈ part ∧ q ∈ part) ↔
          Relation.ReflTransGen (adjacent rs) p q) := by
  have hindex : ∀ y ∈ createIndexOfGNodes rs, y ∈ rs := by
    intro y hy
    rw [createIndexOfGNodes_eq] at hy
    exact List.mem_of_mem_filter hy
  have hsym : ∀ x y, follows rs (createIndexOfGNodes rs) x y →
      follows rs (createIndexOfGNodes rs) y x := by
    intro x y hxy
    have hx := hxy.1
    obtain ⟨hy, hl⟩ := (follows_iff_linksTo rs hkeys x y hx).mp hxy
    exact (follows_iff_linksTo rs hkeys y x hy).mpr
      ⟨hx, (wellLinked_spec rs hwell x y hx hy hl).1⟩
  have hto : ∀ a b, follows rs (createIndexOfGNodes rs) a b → adjacent rs a b := by
    intro a b hab
    have ha := hab.1
    obtain ⟨hb, hl⟩ := (follows_iff_linksTo rs hkeys a b ha).mp hab
    refine ⟨ha, hb, ?_⟩
    rcases (wellLinked_spec rs hwell a b ha hb hl).2 with ⟨h1, h2⟩ | ⟨h1, h2⟩
    · left
      simp [joined, h1, h2, hl]
    · right
      simp [joined, h1, h2, hl]
  have hfrom : ∀ a b, adjacent rs a b → follows rs (createIndexOfGNodes rs) a b := by
    rintro a b ⟨ha, hb, hj⟩
    have hlinks : linksTo a b = true ∨ linksTo b a = true := by
      rcases hj with hj | hj
      · simp only [joined, Bool.and_eq_true, Bool.or_eq_true] at hj
        exact hj.2
      · simp only [joined, Bool.and_eq_true, Bool.or_eq_true] at hj
        exact hj.2.symm
    rcases hlinks with hl | hl
    · exact (follows_iff_linksTo rs hkeys a b ha).mpr ⟨hb, hl⟩
    · exact hsym b a ((follows_iff_linksTo rs hkeys b a hb).mpr ⟨ha, hl⟩)
  have hinit : PartitionInv rs ([] : List (List GNode)).flatten [] :=
    ⟨by simp, by simp, by simp⟩
  obtain ⟨result, log', visited', hrun, hinv, _, hvis⟩ :=
    getPartitionsLoop_inv rs hkeys (createIndexOfGNodes rs) hindex gnodes gnodes [] [] log
      hsub hinit
  have hchar := getPartitionsLoop_reach rs hkeys (createIndexOfGNodes rs) hindex hsym gnodes
    gnodes [] [] log result log' hrun hsub
    (by
      intro x _ k _ hk
      simp at hk)
    (by simp)
  refine ⟨result, log', hrun, ?_⟩
  intro p hp q _ hpp hqp hpk _
  constructor
  · rintro ⟨part, hpart, hp1, hq1⟩
    obtain ⟨seed, _, hiff⟩ := hchar part hpart
    have h1 := ((hiff p).mp hp1).2
    have h2 := ((hiff q).mp hq1).2
    have h3 : Relation.ReflTransGen (follows rs (createIndexOfGNodes rs)) p seed :=
      Relation.ReflTransGen.symmetric (fun a b hab => hsym a b hab) h1
    exact Relation.ReflTransGen.mono hto (h3.trans h2)
  · intro hpath
    have hreach : Relation.ReflTransGen (follows rs (createIndexOfGNodes rs)) p q :=
      Relation.ReflTransGen.mono hfrom hpath
    cases hk : p.key with
    | none => exact absurd hk hpk
    | some k =>
      have hmem := hinv.complete p hp hpp k hk (hvis p (hall p hp hpp hpk) k hk)
      rw [List.mem_flatten] at hmem
      obtain ⟨part, hpart, hp1⟩ := hmem
      obtain ⟨seed, _, hiff⟩ := hchar part hpart
      have h1 := ((hiff p).mp hp1).2
      exact ⟨part, hpart, hp1, (hiff q).mpr ⟨hqp, h1.trans hreach⟩⟩

/-- C11 (witness): the records of two disjoint families have every link both ways; Tom and
Lu are in one partition and joined by a path through `@F1@`. -/
theorem getPartitions_components_witness :
    (twoFamilies.filterMap GNode.key).Nodup ∧ wellLinked twoFamilies = true ∧
    ∃ partitions log',
      getPartitions (removeNonPersons twoFamilies) (createIndexOfGNodes twoFamilies) [] =
        some (partitions, log') ∧
      ∀ p ∈ twoFamilies, ∀ q ∈ twoFamilies, recordType p = RecordType.GRPerson →
        recordType q = RecordType.GRPerson → p.key ≠ none → q.key ≠ none →
        ((∃ part ∈ partitions, p ∈ part ∧ q ∈ part) ↔
          Relation.ReflTransGen (adjacent twoFamilies) p q) :=
  ⟨by decide, by decide,
    getPartitions_components twoFamilies (removeNonPersons twoFamilies) []
      (by decide)
      (fun g hg => List.mem_of_mem_filter hg)
      (fun r hr hp _ => List.mem_filter.mpr ⟨hr, by simp [hp]⟩)
      (by decide)⟩

/-! ## Sequences -/

theorem appendAllToSequence_block (sequence : Sequence) (items : List (String × Option Nat)) :
    (appendAllToSequence sequence items).block =
      sequence.block ++ items.map (fun item => createSequenceEl sequence.database item.1 item.2) ∧
    (appendAllToSequence sequence items).database = sequence.database := by
  induction items generalizing sequence with
  | nil => simp [appendAllToSequence]
  | cons item rest ih =>
    have h := ih (appendToSequence sequence item.1 item.2)
    simp only [appendAllToSequence, List.foldl_cons] at h ⊢
    rw [h.1, h.2]
    simp [appendToSequence]

theorem isInSequence_eq (sequence : Sequence) (key : String) :
    isInSequence sequence key = true ↔ ∃ el ∈ sequence.block, el.key = key := by
  simp [isInSequence]

theorem removeFirstWithKey_none (key : String) (block : List SequenceEl) :
    removeFirstWithKey key block = none ↔ ∀ el ∈ block, el.key ≠ key := by
  induction block with
  | nil => simp [removeFirstWithKey]
  | cons el rest ih =>
    by_cases h : el.key = key
    · simp [removeFirstWithKey, h]
    · simp [removeFirstWithKey, h, ih]

theorem removeFirstWithKey_some (key : String) (block result : List SequenceEl)
    (h : removeFirstWithKey key block = some result) :
    ∃ pre el post, block = pre ++ el :: post ∧ (∀ e ∈ pre, e.key ≠ key) ∧ el.key = key ∧
      result = pre ++ post := by
  induction block generalizing result with
  | nil => simp [removeFirstWithKey] at h
  | cons el rest ih =>
    by_cases hk : el.key = key
    · simp only [removeFirstWithKey, hk, beq_self_eq_true, if_true, Option.some.injEq] at h
      exact ⟨[], el, rest, rfl, by simp, hk, by simp [h]⟩
    · have hk' : (el.key == key) = false := by simpa using hk
      simp only [removeFirstWithKey, hk', Bool.false_eq_true, if_false, Option.map_eq_some'] at h
      obtain ⟨r, hr, hres⟩ := h
      obtain ⟨pre, e, post, h1, h2, h3, h4⟩ := ih r hr
      refine ⟨el :: pre, e, post, by simp [h1], ?_, h3, by simp [← hres, h4]⟩
      intro x hx
      rw [List.mem_cons] at hx
      rcases hx with hx | hx
      · rw [hx]
        exact hk
      · exact h2 x hx

/-- C21: isInSequence returns true exactly when some element of the Sequence has the
key; after appends to a new Sequence these are the keys appended; on the Sequence of the
test program `@I1@` and `@I2@` are in and `@I3@` is not. -/
theorem isInSequence_iff (database : Database) (sequence : Sequence) (key : String)
    (items : List (String × Option Nat)) :
    (isInSequence sequence key = true ↔ ∃ el ∈ sequence.block, el.key = key) ∧
    (isInSequence (appendAllToSequence (createSequence database) items) key = true ↔
      key ∈ items.map (fun item => item.1)) ∧
    isInSequence (testSequence database) "@I1@" = true ∧
    isInSequence (testSequence database) "@I2@" = true ∧
    isInSequence (testSequence database) "@I3@" = false := by
  refine ⟨isInSequence_eq sequence key, ?_, rfl, rfl, rfl⟩
  rw [isInSequence_eq, (appendAllToSequence_block _ _).1]
  simp only [createSequence, createSequenceEl, List.nil_append, List.mem_map]
  constructor
  · rintro ⟨el, ⟨item, hitem, hel⟩, hkey⟩
    exact ⟨item, hitem, by rw [← hkey, ← hel]⟩
  · rintro ⟨item, hitem, hkey⟩
    exact ⟨_, ⟨item, hitem, rfl⟩, hkey⟩

/-- C22: removeFromSequence returns true exactly when the key occurs; then the block is
the old one without the first element that has the key, everything else in its order,
and the flags and the database stay; when it returns false the Sequence is unchanged. -/
theorem removeFromSequence_first (sequence : Sequence) (key : String) :
    ((removeFromSequence sequence key).1 = true ↔ ∃ el ∈ sequence.block, el.key = key) ∧
    ((∃ pre el post, sequence.block = pre ++ el :: post ∧ (∀ e ∈ pre, e.key ≠ key) ∧
        el.key = key ∧
        removeFromSequence sequence key =
          (true, { block := pre ++ post, sortType := sequence.sortType,
                   unique := sequence.unique, database := sequence.database })) ∨
      ((∀ el ∈ sequence.block, el.key ≠ key) ∧
        removeFromSequence sequence key = (false, sequence))) := by
  unfold removeFromSequence
  cases h : removeFirstWithKey key sequence.block with
  | none =>
    have hn := (removeFirstWithKey_none key sequence.block).mp h
    refine ⟨?_, Or.inr ⟨hn, rfl⟩⟩
    simp only [Bool.false_eq_true, false_iff, not_exists, not_and]
    exact fun el hel => hn el hel
  | some block =>
    obtain ⟨pre, el, post, h1, h2, h3, h4⟩ := removeFirstWithKey_some key _ _ h
    refine ⟨?_, Or.inl ⟨pre, el, post, h1, h2, h3, by rw [h4]⟩⟩
    simp only [true_iff]
    exact ⟨el, by simp [h1], h3⟩

/-- C22 (witness): the test program removes `@I1@` from the Sequence of `@I1@` and
`@I2@`; the call returns true and leaves `@I2@`. -/
theorem removeFromSequence_first_witness :
    (((removeFromSequence (testSequence toyDatabase) "@I1@").1 = true ↔
        ∃ el ∈ (testSequence toyDatabase).block, el.key = "@I1@") ∧
      ((∃ pre el post, (testSequence toyDatabase).block = pre ++ el :: post ∧
          (∀ e ∈ pre, e.key ≠ "@I1@") ∧ el.key = "@I1@" ∧
          removeFromSequence (testSequence toyDatabase) "@I1@" =
            (true, { block := pre ++ post, sortType := (testSequence toyDatabase).sortType,
                     unique := (testSequence toyDatabase).unique,
                     database := (testSequence toyDatabase).database })) ∨
        ((∀ el ∈ (testSequence toyDatabase).block, el.key ≠ "@I1@") ∧
          removeFromSequence (testSequence toyDatabase) "@I1@" =
            (false, testSequence toyDatabase)))) ∧
    (removeFromSequence (testSequence toyDatabase) "@I1@").1 = true ∧
    (removeFromSequence (testSequence toyDatabase) "@I1@").2.block.map (fun el => el.key) =
      ["@I2@"] ∧
    (removeFromSequence (testSequence toyDatabase) "@I3@").1 = false :=
  ⟨removeFromSequence_first (testSequence toyDatabase) "@I1@", by decide, by decide, by decide⟩

/-- C23: the length of a Sequence is the number of appendToSequence calls since it was
created or last emptied: a new Sequence has length 0, each append adds one, and
emptySequence sets the length to 0 and keeps the database. -/
theorem lengthSequence_counts (database : Database) (sequence : Sequence) (key : String)
    (value : Option Nat) (items : List (String × Option Nat)) :
    lengthSequence (createSequence database) = 0 ∧
    lengthSequence (appendToSequence sequence key value) = lengthSequence sequence + 1 ∧
    lengthSequence (emptySequence sequence) = 0 ∧
    (emptySequence sequence).database = sequence.database ∧
    lengthSequence (appendAllToSequence (createSequence database) items) = items.length ∧
    lengthSequence (appendAllToSequence (emptySequence sequence) items) = items.length ∧
    (appendAllToSequence (emptySequence sequence) items).database = sequence.database := by
  refine ⟨rfl, ?_, rfl, rfl, ?_, ?_, ?_⟩
  · simp [lengthSequence, appendToSequence]
  · simp [lengthSequence, (appendAllToSequence_block _ _).1, createSequence]
  · simp [lengthSequence, (appendAllToSequence_block _ _).1, emptySequence]
  · rw [(appendAllToSequence_block _ _).2]
    rfl

/-! ## The validator: unknown sex, assertions and error kinds -/

/-- C25 (failing input): Pat, `@I5@`, has a NAME line, no SEX line and one FAMS line, to
`@F1@`, which resolves and lists Pat in its WIFE line; validatePerson appends two
errors for that family, SpouseSexUnknown and then SpouseNotLinked, although the family
links back to Pat. -/
theorem validatePerson_unknown_sex_listed :
    SEXV pat = SexType.sexUnknown ∧ (NAME pat).isSome = true ∧
      (FORFAMCS pat toyDatabasePatWife).length = 0 ∧
      (FORFAMSS pat toyDatabasePatWife).map (fun l => (l.key, l.family.isSome)) =
        [(some "@F1@", true)] ∧
      (FORWIFES fam1PatWife toyDatabasePatWife).map GNode.key = [pat.key] ∧
      resultAndLog (validatePerson pat toyDatabasePatWife []) =
        some (false,
          [spouseSexUnknown toyDatabasePatWife, spouseNotLinked toyDatabasePatWife]) := by
  decide

/-- C26 (counterexample): the husband `@I9@` of `@F3@` has no FAMS line back to the family,
and `@I11@` has two FAMS lines to `@F4@`; validateFamily fails its assertion on both
families, and nothing is logged. -/
theorem validateFamily_assert_fails :
    (FORHUSBS fam3 toyDatabaseOneWay).map GNode.key = [some "@I9@"] ∧
      numBackLinks fam3 (FORFAMSS sol toyDatabaseOneWay) = 0 ∧
      validateFamily fam3 toyDatabaseOneWay [] = none ∧
      (FORHUSBS fam4 toyDatabaseTwice).map GNode.key = [some "@I11@"] ∧
      numBackLinks fam4 (FORFAMSS jim toyDatabaseTwice) = 2 ∧
      validateFamily fam4 toyDatabaseTwice [] = none := by
  decide

/-- C26 (amended): validateFamily fails an assertion, and logs nothing, exactly when
some person of a HUSB or WIFE line of the family has a number of FAMS links back to the
family other than one, or some person of a CHIL line a number of FAMC links back other
than one; otherwise it returns true, and the log is unchanged or grows by the
empty-family error. -/
theorem validateFamily_asserts (family : GNode) (database : Database) (errorLog : ErrorLog) :
    (validateFamily family database errorLog = none ↔
      (∃ p ∈ FORHUSBS family database ++ FORWIFES family database,
        numBackLinks family (FORFAMSS p database) ≠ 1) ∨
      (∃ c ∈ FORCHILDREN family database,
        numBackLinks family (FORFAMCS c database) ≠ 1)) ∧
    (validateFamily family database errorLog = none ∨
      validateFamily family database errorLog = some (true, errorLog) ∨
      validateFamily family database errorLog =
        some (true, errorLog ++ [emptyFamily database])) := by
  unfold validateFamily
  by_cases hH : (FORHUSBS family database).all
      (fun husband => numBackLinks family (FORFAMSS husband database) == 1) = true
  · by_cases hW : (FORWIFES family database).all
        (fun wife => numBackLinks family (FORFAMSS wife database) == 1) = true
    · by_cases hC : (FORCHILDREN family database).all
          (fun child => numBackLinks family (FORFAMCS child database) == 1) = true
      · simp only [hH, hW, hC, Bool.not_true, Bool.false_eq_true, if_false]
        have hH' := List.all_eq_true.mp hH
        have hW' := List.all_eq_true.mp hW
        have hC' := List.all_eq_true.mp hC
        constructor
        · constructor
          · intro h
            split at h <;> simp at h
          · rintro (⟨p, hp, hne⟩ | ⟨c, hc, hne⟩)
            · rw [List.mem_append] at hp
              rcases hp with hp | hp
              · exact absurd (by simpa using hH' p hp) hne
              · exact absurd (by simpa using hW' p hp) hne
            · exact absurd (by simpa using hC' c hc) hne
        · right
          split
          · right
            rfl
          · left
            rfl
      · simp only [hH, hW, hC, Bool.not_true, Bool.false_eq_true, if_false, Bool.not_false,
          if_true, true_iff, true_or, and_true]
        right
        simp only [List.all_eq_true, not_forall] at hC
        obtain ⟨c, hc, hne⟩ := hC
        exact ⟨c, hc, by simpa using hne⟩
    · simp only [hH, hW, Bool.not_true, Bool.false_eq_true, if_false, Bool.not_false,
        if_true, true_iff, true_or, and_true]
      left
      simp only [List.all_eq_true, not_forall] at hW
      obtain ⟨p, hp, hne⟩ := hW
      exact ⟨p, List.mem_append_right _ hp, by simpa using hne⟩
  · simp only [hH, Bool.not_false, if_true, true_iff, true_or, and_true]
    left
    simp only [List.all_eq_true, not_forall] at hH
    obtain ⟨p, hp, hne⟩ := hH
    exact ⟨p, List.mem_append_left _ hp, by simpa using hne⟩

/-- C26 (witness): the family `@F3@`, whose husband has no FAMS line back, and the family
`@F1@` of the toy database, where every link has its one back link. -/
theorem validateFamily_asserts_witness :
    ((validateFamily fam3 toyDatabaseOneWay [] = none ↔
      (∃ p ∈ FORHUSBS fam3 toyDatabaseOneWay ++ FORWIFES fam3 toyDatabaseOneWay,
        numBackLinks fam3 (FORFAMSS p toyDatabaseOneWay) ≠ 1) ∨
      (∃ c ∈ FORCHILDREN fam3 toyDatabaseOneWay,
        numBackLinks fam3 (FORFAMCS c toyDatabaseOneWay) ≠ 1)) ∧
    (validateFamily fam3 toyDatabaseOneWay [] = none ∨
      validateFamily fam3 toyDatabaseOneWay [] = some (true, []) ∨
      validateFamily fam3 toyDatabaseOneWay [] =
        some (true, [] ++ [emptyFamily toyDatabaseOneWay]))) ∧
    validateFamily fam1 toyDatabase [] = some (true, []) :=
  ⟨validateFamily_asserts fam3 toyDatabaseOneWay [], by decide⟩

theorem filter_length_split (l : List GNode) (p q : GNode → Bool) :
    (l.filter p).length + (l.filter (fun n => !p n && q n)).length =
      (l.filter (fun n => p n || q n)).length := by
  induction l with
  | nil => rfl
  | cons n rest ih =>
    simp only [List.filter_cons]
    cases hp : p n <;> cases hq : q n <;> simp [ih.symm] <;> omega

theorem filter_length_not (l : List GNode) (p : GNode → Bool) :
    (l.filter p).length + (l.filter (fun n => !p n)).length = l.length := by
  induction l with
  | nil => rfl
  | cons n rest ih =>
    simp only [List.filter_cons]
    cases hp : p n <;> simp [ih.symm] <;> omega

theorem splitFamily_length (family : GNode) :
    (chainWithTag family "REFN").length + (chainWithTag family "HUSB").length +
      (chainWithTag family "WIFE").length + (chainWithTag family "CHIL").length +
      (chainWithout family ["REFN", "HUSB", "WIFE", "CHIL"]).length =
    family.children.length := by
  unfold chainWithTag chainWithout
  generalize family.children = l
  have e2 : l.filter (fun n => n.tag == "HUSB") =
      l.filter (fun n => !(n.tag == "REFN") && n.tag == "HUSB") := by
    apply List.filter_congr
    intro n _
    by_cases h : n.tag = "HUSB" <;> simp [h]
  have e3 : l.filter (fun n => n.tag == "WIFE") =
      l.filter (fun n => !(n.tag == "REFN" || n.tag == "HUSB") && n.tag == "WIFE") := by
    apply List.filter_congr
    intro n _
    by_cases h : n.tag = "WIFE" <;> simp [h]
  have e4 : l.filter (fun n => n.tag == "CHIL") =
      l.filter (fun n => !((n.tag == "REFN" || n.tag == "HUSB") || n.tag == "WIFE") &&
        n.tag == "CHIL") := by
    apply List.filter_congr
    intro n _
    by_cases h : n.tag = "CHIL" <;> simp [h]
  have e5 : l.filter (fun n => !(List.contains ["REFN", "HUSB", "WIFE", "CHIL"] n.tag)) =
      l.filter (fun n => !(((n.tag == "REFN" || n.tag == "HUSB") || n.tag == "WIFE") ||
        n.tag == "CHIL")) := by
    apply List.filter_congr
    intro n _
    simp only [List.contains, List.elem]
    cases (n.tag == "REFN") <;> cases (n.tag == "HUSB") <;> cases (n.tag == "WIFE") <;>
      cases (n.tag == "CHIL") <;> rfl
  rw [e2, e3, e4, e5,
    filter_length_split l (fun n => n.tag == "REFN") (fun n => n.tag == "HUSB"),
    filter_length_split l (fun n => n.tag == "REFN" || n.tag == "HUSB")
      (fun n => n.tag == "WIFE"),
    filter_length_split l (fun n => (n.tag == "REFN" || n.tag == "HUSB") || n.tag == "WIFE")
      (fun n => n.tag == "CHIL"),
    filter_length_not]

theorem splitPerson_length (person : GNode) :
    (chainWithTag person "NAME").length + (chainWithTag person "REFN").length +
      (chainWithTag person "SEX").length +
      (chainWithout person ["NAME", "REFN", "SEX", "FAMC", "FAMS"]).length +
      (chainWithTag person "FAMC").length + (chainWithTag person "FAMS").length =
    person.children.length := by
  unfold chainWithTag chainWithout
  generalize person.children = l
  have e2 : l.filter (fun n => n.tag == "REFN") =
      l.filter (fun n => !(n.tag == "NAME") && n.tag == "REFN") := by
    apply List.filter_congr
    intro n _
    by_cases h : n.tag = "REFN" <;> simp [h]
  have e3 : l.filter (fun n => n.tag == "SEX") =
      l.filter (fun n => !(n.tag == "NAME" || n.tag == "REFN") && n.tag == "SEX") := by
    apply List.filter_congr
    intro n _
    by_cases h : n.tag = "SEX" <;> simp [h]
  have e4 : l.filter (fun n => n.tag == "FAMC") =
      l.filter (fun n => !((n.tag == "NAME" || n.tag == "REFN") || n.tag == "SEX") &&
        n.tag == "FAMC") := by
    apply List.filter_congr
    intro n _
    by_cases h : n.tag = "FAMC" <;> simp [h]
  have e5 : l.filter (fun n => n.tag == "FAMS") =
      l.filter (fun n => !(((n.tag == "NAME" || n.tag == "REFN") || n.tag == "SEX") ||
        n.tag == "FAMC") && n.tag == "FAMS") := by
    apply List.filter_congr
    intro n _
    by_cases h : n.tag = "FAMS" <;> simp [h]
  have e6 : l.filter (fun n => !(List.contains ["NAME", "REFN", "SEX", "FAMC", "FAMS"] n.tag)) =
      l.filter (fun n => !((((n.tag == "NAME" || n.tag == "REFN") || n.tag == "SEX") ||
        n.tag == "FAMC") || n.tag == "FAMS")) := by
    apply List.filter_congr
    intro n _
    simp only [List.contains, List.elem]
    cases (n.tag == "NAME") <;> cases (n.tag == "REFN") <;> cases (n.tag == "SEX") <;>
      cases (n.tag == "FAMC") <;> cases (n.tag == "FAMS") <;> rfl
  have h := filter_length_not l (fun n => (((n.tag == "NAME" || n.tag == "REFN") ||
    n.tag == "SEX") || n.tag == "FAMC") || n.tag == "FAMS")
  rw [← filter_length_split l (fun n => ((n.tag == "NAME" || n.tag == "REFN") ||
      n.tag == "SEX") || n.tag == "FAMC") (fun n => n.tag == "FAMS"),
    ← filter_length_split l (fun n => (n.tag == "NAME" || n.tag == "REFN") || n.tag == "SEX")
      (fun n => n.tag == "FAMC"),
    ← filter_length_split l (fun n => n.tag == "NAME" || n.tag == "REFN")
      (fun n => n.tag == "SEX"),
    ← filter_length_split l (fun n => n.tag == "NAME") (fun n => n.tag == "REFN"),
    ← e2, ← e3, ← e4, ← e5, ← e6] at h
  omega

theorem chil_chain_tag (child family : GNode) (pos : Nat) :
    ∀ n ∈ (chainWithTag family "CHIL").take pos ++
        createGNode none "CHIL" child.key :: (chainWithTag family "CHIL").drop pos,
      n.tag = "CHIL" := by
  intro n hn
  rw [List.mem_append, List.mem_cons] at hn
  rcases hn with h | h | h
  · exact chainWithTag_tag family "CHIL" n (List.mem_of_mem_take h)
  · rw [h]
    rfl
  · exact chainWithTag_tag family "CHIL" n (List.mem_of_mem_drop h)

/-- C28: addChildToFamily returns (the position walk stays inside the CHIL list), and
the CHIL list of the family afterwards is the old one with one new CHIL line, whose
value is the key of the child, at position `index` when `0 ≤ index ≤ n` and at the end
when `index < 0` or `index > n`; the old lines keep their order and the length is
`n + 1`. -/
theorem addChildToFamily_position (child family : GNode) (index : Int)
    (database : Database) :
    ∃ family' child', addChildToFamily child family index database =
        some (true, family', child') ∧
      walkChain (chainWithTag family "CHIL")
          (childPosition (chainWithTag family "CHIL").length index) =
        some ((chainWithTag family "CHIL").take
            (childPosition (chainWithTag family "CHIL").length index),
          (chainWithTag family "CHIL").drop
            (childPosition (chainWithTag family "CHIL").length index)) ∧
      (0 ≤ index → index ≤ ((chainWithTag family "CHIL").length : Int) →
        chainWithTag family' "CHIL" =
          (chainWithTag family "CHIL").take index.toNat ++
            createGNode none "CHIL" child.key ::
              (chainWithTag family "CHIL").drop index.toNat) ∧
      (index < 0 ∨ ((chainWithTag family "CHIL").length : Int) < index →
        chainWithTag family' "CHIL" =
          chainWithTag family "CHIL" ++ [createGNode none "CHIL" child.key]) ∧
      (createGNode none "CHIL" child.key).value = child.key ∧
      (chainWithTag family' "CHIL").length = (chainWithTag family "CHIL").length + 1 ∧
      (chainWithTag family "CHIL").Sublist (chainWithTag family' "CHIL") := by
  refine ⟨_, _, addChildToFamily_eq child family index database,
    walkChain_some _ _ (childPosition_le _ _), ?_, ?_, rfl, ?_, ?_⟩
  · intro h0 hn
    rw [chainWithTag_joinFamily_chil _ _ (chil_chain_tag child family _)]
    have hpos : childPosition (chainWithTag family "CHIL").length index = index.toNat := by
      unfold childPosition
      rw [if_neg (by omega)]
    rw [hpos]
  · intro h
    rw [chainWithTag_joinFamily_chil _ _ (chil_chain_tag child family _)]
    have hpos : childPosition (chainWithTag family "CHIL").length index =
        (chainWithTag family "CHIL").length := by
      unfold childPosition
      rw [if_pos (by omega)]
    rw [hpos, List.take_length, List.drop_length]
  · rw [chainWithTag_joinFamily_chil _ _ (chil_chain_tag child family _)]
    have h := List.take_append_drop
      (childPosition (chainWithTag family "CHIL").length index) (chainWithTag family "CHIL")
    have hl := congrArg List.length h
    simp only [List.length_append] at hl
    simp only [List.length_append, List.length_cons]
    omega
  · rw [chainWithTag_joinFamily_chil _ _ (chil_chain_tag child family _)]
    have h := List.take_append_drop
      (childPosition (chainWithTag family "CHIL").length index) (chainWithTag family "CHIL")
    nth_rewrite 1 [← h]
    exact List.Sublist.append (List.Sublist.refl _) (List.sublist_cons_self _ _)

/-- C28 (witness): Bea added to `@F1@`, which has the one child `@I3@`, at position 0, at
position 1, and with the positions -1 and 5, which put her at the end. -/
theorem addChildToFamily_position_witness :
    (∃ family' child', addChildToFamily bea fam1 0 toyDatabaseBea =
        some (true, family', child') ∧
      walkChain (chainWithTag fam1 "CHIL")
          (childPosition (chainWithTag fam1 "CHIL").length 0) =
        some ((chainWithTag fam1 "CHIL").take
            (childPosition (chainWithTag fam1 "CHIL").length 0),
          (chainWithTag fam1 "CHIL").drop
            (childPosition (chainWithTag fam1 "CHIL").length 0)) ∧
      ((0 : Int) ≤ 0 → (0 : Int) ≤ ((chainWithTag fam1 "CHIL").length : Int) →
        chainWithTag family' "CHIL" =
          (chainWithTag fam1 "CHIL").take (0 : Int).toNat ++
            createGNode none "CHIL" bea.key ::
              (chainWithTag fam1 "CHIL").drop (0 : Int).toNat) ∧
      ((0 : Int) < 0 ∨ ((chainWithTag fam1 "CHIL").length : Int) < 0 →
        chainWithTag family' "CHIL" =
          chainWithTag fam1 "CHIL" ++ [createGNode none "CHIL" bea.key]) ∧
      (createGNode none "CHIL" bea.key).value = bea.key ∧
      (chainWithTag family' "CHIL").length = (chainWithTag fam1 "CHIL").length + 1 ∧
      (chainWithTag fam1 "CHIL").Sublist (chainWithTag family' "CHIL")) ∧
    (addChildToFamily bea fam1 0 toyDatabaseBea).map
        (fun r => valuesWithTag r.2.1 "CHIL") = some [some "@I7@", some "@I3@"] ∧
    (addChildToFamily bea fam1 1 toyDatabaseBea).map
        (fun r => valuesWithTag r.2.1 "CHIL") = some [some "@I3@", some "@I7@"] ∧
    (addChildToFamily bea fam1 (-1) toyDatabaseBea).map
        (fun r => valuesWithTag r.2.1 "CHIL") = some [some "@I3@", some "@I7@"] ∧
    (addChildToFamily bea fam1 5 toyDatabaseBea).map
        (fun r => valuesWithTag r.2.1 "CHIL") = some [some "@I3@", some "@I7@"] :=
  ⟨addChildToFamily_position bea fam1 0 toyDatabaseBea, by decide, by decide, by decide,
    by decide⟩

/-- C29: addSpouseToFamily returns true and adds exactly one line to the family: a HUSB
line after the HUSB lines when `sext` is male, otherwise (female or unknown) a WIFE line
after the WIFE lines, its value the key of the spouse; the list of the other role and
the CHIL list stay as they are. It adds exactly one line to the spouse, a FAMS line
after the FAMS lines, its value the key of the family; the FAMC list stays as it is. -/
theorem addSpouseToFamily_appends (spouse family : GNode) (sext : SexType)
    (database : Database) :
    (addSpouseToFamily spouse family sext database).1 = true ∧
    chainWithTag (addSpouseToFamily spouse family sext database).2.1 "HUSB" =
      chainWithTag family "HUSB" ++
        (if sext = SexType.sexMale then [createGNode none "HUSB" spouse.key] else []) ∧
    chainWithTag (addSpouseToFamily spouse family sext database).2.1 "WIFE" =
      chainWithTag family "WIFE" ++
        (if sext = SexType.sexMale then [] else [createGNode none "WIFE" spouse.key]) ∧
    chainWithTag (addSpouseToFamily spouse family sext database).2.1 "CHIL" =
      chainWithTag family "CHIL" ∧
    (addSpouseToFamily spouse family sext database).2.1.children.length =
      family.children.length + 1 ∧
    chainWithTag (addSpouseToFamily spouse family sext database).2.2 "FAMS" =
      chainWithTag spouse "FAMS" ++ [createGNode none "FAMS" family.key] ∧
    chainWithTag (addSpouseToFamily spouse family sext database).2.2 "FAMC" =
      chainWithTag spouse "FAMC" ∧
    (addSpouseToFamily spouse family sext database).2.2.children.length =
      spouse.children.length + 1 ∧
    (createGNode none "HUSB" spouse.key).value = spouse.key ∧
    (createGNode none "WIFE" spouse.key).value = spouse.key ∧
    (createGNode none "FAMS" family.key).value = family.key := by
  have hH := filter_chainWithTag_same family "HUSB"
  have hW := filter_chainWithTag_same family "WIFE"
  have hC := filter_chainWithTag_same family "CHIL"
  have h1 := filter_chainWithTag_other family "HUSB" "REFN" (by decide)
  have h2 := filter_chainWithTag_other family "HUSB" "WIFE" (by decide)
  have h3 := filter_chainWithTag_other family "HUSB" "CHIL" (by decide)
  have h4 := filter_chainWithout family "HUSB" ["REFN", "HUSB", "WIFE", "CHIL"] (by decide)
  have h5 := filter_chainWithTag_other family "WIFE" "REFN" (by decide)
  have h6 := filter_chainWithTag_other family "WIFE" "HUSB" (by decide)
  have h7 := filter_chainWithTag_other family "WIFE" "CHIL" (by decide)
  have h8 := filter_chainWithout family "WIFE" ["REFN", "HUSB", "WIFE", "CHIL"] (by decide)
  have h9 := filter_chainWithTag_other family "CHIL" "REFN" (by decide)
  have h10 := filter_chainWithTag_other family "CHIL" "HUSB" (by decide)
  have h11 := filter_chainWithTag_other family "CHIL" "WIFE" (by decide)
  have h12 := filter_chainWithout family "CHIL" ["REFN", "HUSB", "WIFE", "CHIL"] (by decide)
  have p1 := filter_chainWithTag_same spouse "FAMS"
  have p2 := filter_chainWithTag_same spouse "FAMC"
  have p3 := filter_chainWithTag_other spouse "FAMS" "NAME" (by decide)
  have p4 := filter_chainWithTag_other spouse "FAMS" "REFN" (by decide)
  have p5 := filter_chainWithTag_other spouse "FAMS" "SEX" (by decide)
  have p6 := filter_chainWithTag_other spouse "FAMS" "FAMC" (by decide)
  have p7 := filter_chainWithout spouse "FAMS" ["NAME", "REFN", "SEX", "FAMC", "FAMS"]
    (by decide)
  have p8 := filter_chainWithTag_other spouse "FAMC" "NAME" (by decide)
  have p9 := filter_chainWithTag_other spouse "FAMC" "REFN" (by decide)
  have p10 := filter_chainWithTag_other spouse "FAMC" "SEX" (by decide)
  have p11 := filter_chainWithTag_other spouse "FAMC" "FAMS" (by decide)
  have p12 := filter_chainWithout spouse "FAMC" ["NAME", "REFN", "SEX", "FAMC", "FAMS"]
    (by decide)
  have hfl := splitFamily_length family
  have hpl := splitPerson_length spouse
  unfold addSpouseToFamily
  simp only [chainWithTag_joinFamily, chainWithTag_joinPerson, children_joinFamily,
    children_joinPerson, splitFamily, splitPerson, appendToChain_eq]
  refine ⟨trivial, ?_, ?_, ?_, ?_, ?_, ?_, ?_, rfl, rfl, rfl⟩
  · by_cases hs : sext = SexType.sexMale
    · simp only [hs, if_true, List.filter_append, h1, h2, h3, h4, hH]
      simp [createGNode, GNode.tag]
    · simp only [hs, if_false, List.filter_append, h1, h2, h3, h4, hH]
      simp [createGNode, GNode.tag]
  · by_cases hs : sext = SexType.sexMale
    · simp only [hs, if_true, List.filter_append, h5, h6, h7, h8, hW]
      simp [createGNode, GNode.tag]
    · simp only [hs, if_false, List.filter_append, h5, h6, h7, h8, hW]
      simp [createGNode, GNode.tag]
  · by_cases hs : sext = SexType.sexMale
    · simp only [hs, if_true, List.filter_append, h9, h10, h11, h12, hC]
      simp [createGNode, GNode.tag]
    · simp only [hs, if_false, List.filter_append, h9, h10, h11, h12, hC]
      simp [createGNode, GNode.tag]
  · by_cases hs : sext = SexType.sexMale
    · simp only [hs, if_true, List.length_append, List.length_cons, List.length_nil]
      omega
    · simp only [hs, if_false, List.length_append, List.length_cons, List.length_nil]
      omega
  · simp only [List.filter_append, p1, p3, p4, p5, p6, p7]
    simp [createGNode, GNode.tag]
  · simp only [List.filter_append, p2, p8, p9, p10, p11, p12]
    simp [createGNode, GNode.tag]
  · simp only [List.length_append, List.length_cons, List.length_nil]
    omega

/-! ## The order of the partitions -/

theorem processRecord_partition (index : GNodeIndex) (x : GNode) (st : PartitionState) :
    ∃ more, (processRecord index x st).partition = st.partition ++ more := by
  rcases processRecord_cases index x st with ⟨h, _⟩ | ⟨k, _, _, _, hpart, _⟩
  · exact ⟨[], by rw [h, List.append_nil]⟩
  · rw [hpart]
    by_cases hp : recordType x = RecordType.GRPerson
    · exact ⟨[x], by simp [hp]⟩
    · exact ⟨[], by simp [hp]⟩

theorem createPartitionLoop_prefix (index : GNodeIndex) (fuel : Nat) (st st' : PartitionState)
    (h : createPartitionLoop index fuel st = some st') :
    ∃ more, st'.partition = st.partition ++ more := by
  induction fuel generalizing st with
  | zero => simp [createPartitionLoop] at h
  | succ fuel ih =>
    unfold createPartitionLoop at h
    cases hq : getAndRemoveLastListElement st.queue with
    | mk last queue =>
      rw [hq] at h
      cases last with
      | none =>
        simp only [Option.some.injEq] at h
        exact ⟨[], by rw [← h, List.append_nil]⟩
      | some root =>
        simp only at h
        obtain ⟨more, hmore⟩ := ih _ h
        obtain ⟨more1, hmore1⟩ := processRecord_partition index root
          { queue := queue, visited := st.visited, partition := st.partition, log := st.log }
        refine ⟨more1 ++ more, ?_⟩
        rw [hmore, hmore1, List.append_assoc]

/-- The partition createPartition builds for a person whose key is unvisited starts with
that person. -/
theorem createPartition_head (root : GNode) (gnodes : GNodeList) (index : GNodeIndex)
    (visited : StringSet) (log : ErrorLog) (k : String) (hk : root.key = some k)
    (hv : isInSet visited k = false) (hp : recordType root = RecordType.GRPerson)
    (partition : List GNode) (visited' : StringSet) (log' : ErrorLog)
    (h : createPartition root gnodes index visited log = some (partition, visited', log')) :
    partition.head? = some root := by
  unfold createPartition at h
  rw [Option.map_eq_some'] at h
  obtain ⟨st', hrun, hst⟩ := h
  have hfuel : createPartitionFuel root index =
      (1 + root.children.length + (index.map (fun r => r.children.length)).sum) + 1 := by
    unfold createPartitionFuel
    omega
  rw [hfuel] at hrun
  unfold createPartitionLoop at hrun
  simp only [prependToList, getAndRemoveLastListElement, List.getLast?_singleton,
    List.dropLast_single] at hrun
  rw [processRecord_expand index root _ k hk hv] at hrun
  obtain ⟨more, hmore⟩ := createPartitionLoop_prefix index _ _ st' hrun
  simp only [hp, if_true, List.nil_append] at hmore
  have hpart : partition = st'.partition := by
    simp only [Prod.mk.injEq] at hst
    exact hst.1.symm
  rw [hpart, hmore]
  rfl
theorem scanState_snoc (gnodes : GNodeList) (index : GNodeIndex) (log : ErrorLog)
    (pre : List GNode) (root : GNode) :
    scanState gnodes index log (pre ++ [root]) =
      scanStep gnodes index (scanState gnodes index log pre) root := by
  unfold scanState
  rw [List.foldl_append]
  rfl

/-- The scan of getPartitions from the state the records `pre` leave: it returns, and it
adds one partition for each seed among the records `rest`, in their order; the partition
of a seed that is a person starts with the seed. -/
theorem getPartitionsLoop_seeds (gnodes : GNodeList) (index : GNodeIndex) (log : ErrorLog)
    (pre rest : List GNode) (acc : List (List GNode)) :
    ∃ new log',
      getPartitionsLoop gnodes index rest (scanState gnodes index log pre).1 acc
          (scanState gnodes index log pre).2 = some (acc ++ new, log') ∧
      List.Forall₂ (fun seed part => recordType seed = RecordType.GRPerson →
          part.head? = some seed) (seedsFrom gnodes index log pre rest) new ∧
      (seedsFrom gnodes index log pre rest).Sublist rest := by
  induction rest generalizing pre acc with
  | nil =>
    exact ⟨[], (scanState gnodes index log pre).2, by simp [getPartitionsLoop],
      by simp [seedsFrom], by simp [seedsFrom]⟩
  | cons root rest ih =>
    have hsnoc := scanState_snoc gnodes index log pre root
    unfold getPartitionsLoop seedsFrom isSeed
    unfold scanStep at hsnoc
    cases hk : root.key with
    | none =>
      simp only [hk] at hsnoc
      obtain ⟨new, log', h1, h2, h3⟩ := ih (pre ++ [root]) acc
      rw [hsnoc] at h1
      simp only [Bool.false_eq_true, if_false]
      exact ⟨new, log', h1, h2, List.Sublist.cons _ h3⟩
    | some k =>
      simp only [hk] at hsnoc
      cases hv : isInSet (scanState gnodes index log pre).1 k with
      | true =>
        simp only [hv, if_true] at hsnoc
        obtain ⟨new, log', h1, h2, h3⟩ := ih (pre ++ [root]) acc
        rw [hsnoc] at h1
        simp only [hv, Bool.not_true, Bool.false_eq_true, if_false]
        exact ⟨new, log', h1, h2, List.Sublist.cons _ h3⟩
      | false =>
        obtain ⟨⟨partition, visited', log1⟩, hr⟩ := createPartition_some root gnodes index
          (scanState gnodes index log pre).1 (scanState gnodes index log pre).2
        simp only [hv, Bool.false_eq_true, if_false, hr] at hsnoc
        obtain ⟨new, log', h1, h2, h3⟩ := ih (pre ++ [root]) (acc ++ [partition])
        rw [hsnoc] at h1
        simp only [hv, Bool.not_false, if_true, hr]
        refine ⟨partition :: new, log', ?_, ?_, List.Sublist.cons₂ _ h3⟩
        · rw [h1]
          simp
        · refine List.Forall₂.cons ?_ h2
          intro hp
          exact createPartition_head root gnodes index _ _ k hk hv hp partition visited' log1 hr

theorem head_of_seeds (seeds : List GNode) (new : List (List GNode))
    (h : List.Forall₂ (fun seed part => recordType seed = RecordType.GRPerson →
      part.head? = some seed) seeds new)
    (hpers : ∀ s ∈ seeds, recordType s = RecordType.GRPerson) :
    new.map List.head? = seeds.map some := by
  induction h with
  | nil => rfl
  | cons hhead _ ih =>
    simp only [List.map_cons, List.cons.injEq]
    exact ⟨hhead (hpers _ (List.mem_cons_self _ _)),
      ih (fun s hs => hpers s (List.mem_cons_of_mem _ hs))⟩

theorem seedsFrom_cons (gnodes : GNodeList) (index : GNodeIndex) (log : ErrorLog)
    (pre : List GNode) (root : GNode) (post : List GNode) :
    seedsFrom gnodes index log pre (root :: post) =
      (if isSeed gnodes index log pre root then [root] else []) ++
        seedsFrom gnodes index log (pre ++ [root]) post := by
  by_cases h : isSeed gnodes index log pre root = true
  · simp [seedsFrom, h]
  · simp [seedsFrom, h]

/-- C24 (counterexample): getPartitions tests only the key of a record of the list. With
the family `@F1@` first in the list, the one seed is `@F1@` and the one partition starts
with Tom, `@I1@`, not with its seed; for the list of the source record `@S1@` alone, the
seed is `@S1@` and the one partition is empty. -/
theorem getPartitions_family_seed :
    (partitionSeeds familyFirst (createIndexOfGNodes familyFirst) []).map GNode.key =
      [some "@F1@"] ∧
    (getPartitions familyFirst (createIndexOfGNodes familyFirst) []).map
        (fun r => r.1.map (fun p => p.map GNode.key)) =
      some [[some "@I1@", some "@I2@", some "@I3@"]] ∧
    (partitionSeeds [sourceRecord] (createIndexOfGNodes [sourceRecord]) []).map GNode.key =
      [some "@S1@"] ∧
    (getPartitions [sourceRecord] (createIndexOfGNodes [sourceRecord]) []).map
        (fun r => r.1.map (fun p => p.map GNode.key)) = some [[]] := by
  decide

/-- C24: for a list of person records (what main passes), getPartitions returns the
partitions in seed-discovery order: the seeds are the records of the list whose key is
unvisited when the scan reaches them, the i-th partition starts with the i-th seed, and
the seeds are in the order of the list. -/
theorem getPartitions_seed_order (gnodes : GNodeList) (index : GNodeIndex) (log : ErrorLog)
    (hpers : ∀ r ∈ gnodes, recordType r = RecordType.GRPerson) :
    ∃ partitions log', getPartitions gnodes index log = some (partitions, log') ∧
      partitions.map List.head? = (partitionSeeds gnodes index log).map some ∧
      (partitionSeeds gnodes index log).Sublist gnodes ∧
      (∀ pre root post, gnodes = pre ++ root :: post →
        (isSeed gnodes index log pre root = true ↔
          ∃ k, root.key = some k ∧ k ∉ (scanState gnodes index log pre).1) ∧
        seedsFrom gnodes index log pre (root :: post) =
          (if isSeed gnodes index log pre root then [root] else []) ++
            seedsFrom gnodes index log (pre ++ [root]) post) := by
  obtain ⟨new, log', h1, h2, h3⟩ := getPartitionsLoop_seeds gnodes index log [] gnodes []
  refine ⟨new, log', ?_, ?_, h3, ?_⟩
  · simpa [getPartitions, scanState] using h1
  · exact head_of_seeds _ _ h2 (fun s hs => hpers s (h3.subset hs))
  · intro pre root post _
    refine ⟨?_, seedsFrom_cons gnodes index log pre root post⟩
    unfold isSeed
    cases hk : root.key with
    | none => simp
    | some k =>
      simp only [Bool.not_eq_true', Option.some.injEq, exists_eq_left']
      rw [← isInSet_iff]
      simp

/-- C24 (witness): scenario S6, the persons of two disjoint families in file order: the
seeds are Tom, `@I1@`, and Abe, `@I6@`, and the two partitions start with them. -/
theorem getPartitions_seed_order_witness :
    (∀ r ∈ removeNonPersons twoFamilies, recordType r = RecordType.GRPerson) ∧
    (∃ partitions log',
      getPartitions (removeNonPersons twoFamilies) (createIndexOfGNodes twoFamilies) [] =
        some (partitions, log') ∧
      partitions.map List.head? =
        (partitionSeeds (removeNonPersons twoFamilies)
          (createIndexOfGNodes twoFamilies) []).map some ∧
      (partitionSeeds (removeNonPersons twoFamilies)
        (createIndexOfGNodes twoFamilies) []).Sublist (removeNonPersons twoFamilies) ∧
      (∀ pre root post, removeNonPersons twoFamilies = pre ++ root :: post →
        (isSeed (removeNonPersons twoFamilies) (createIndexOfGNodes twoFamilies) [] pre
            root = true ↔
          ∃ k, root.key = some k ∧
            k ∉ (scanState (removeNonPersons twoFamilies)
              (createIndexOfGNodes twoFamilies) [] pre).1) ∧
        seedsFrom (removeNonPersons twoFamilies) (createIndexOfGNodes twoFamilies) [] pre
            (root :: post) =
          (if isSeed (removeNonPersons twoFamilies) (createIndexOfGNodes twoFamilies) [] pre
              root then [root] else []) ++
            seedsFrom (removeNonPersons twoFamilies) (createIndexOfGNodes twoFamilies) []
              (pre ++ [root]) post)) ∧
    (removeNonPersons twoFamilies).map GNode.key =
      [some "@I1@", some "@I6@", some "@I2@", some "@I7@", some "@I3@"] ∧
    (partitionSeeds (removeNonPersons twoFamilies) (createIndexOfGNodes twoFamilies) []).map
        GNode.key = [some "@I1@", some "@I6@"] ∧
    (getPartitions (removeNonPersons twoFamilies) (createIndexOfGNodes twoFamilies) []).map
        (fun r => r.1.map (fun p => p.map GNode.key)) =
      some [[some "@I1@", some "@I2@", some "@I3@"], [some "@I6@", some "@I7@"]] :=
  ⟨by decide,
   getPartitions_seed_order (removeNonPersons twoFamilies) (createIndexOfGNodes twoFamilies) []
    (by decide),
   by decide, by decide, by decide⟩

/-! ## Adding a child to a valid database -/

theorem linesFrom_map_node (nodes : List GNode) (before : Nat) :
    (linesFrom before nodes).map (fun l => l.node) = nodes := by
  induction nodes generalizing before with
  | nil => rfl
  | cons n rest ih => simp [linesFrom, ih]

theorem linesWithTag_map_node (root : GNode) (tag : String) :
    (linesWithTag root tag).map (fun l => l.node) = chainWithTag root tag := by
  unfold linesWithTag chainWithTag
  have h := linesFrom_map_node root.children 1
  generalize linesFrom 1 root.children = ls at h
  rw [← h, List.filter_map]
  rfl

theorem mem_chainWithTag_iff (root : GNode) (tag : String) (n : GNode) :
    n ∈ chainWithTag root tag ↔ ∃ l ∈ linesWithTag root tag, l.node = n := by
  rw [← linesWithTag_map_node, List.mem_map]

theorem chilCount_chain (person family : GNode) (database : Database) :
    chilCount person family database =
      ((chainWithTag family "CHIL").filter
        (fun n => sameNodeOpt person (keyToPerson n.value database))).length := by
  unfold chilCount
  rw [← linesWithTag_map_node, List.filter_map, List.length_map]
  rfl

theorem FORHUSBS_chain (family : GNode) (database : Database) :
    FORHUSBS family database =
      (chainWithTag family "HUSB").filterMap (fun n => keyToPerson n.value database) := by
  unfold FORHUSBS
  rw [← linesWithTag_map_node, List.filterMap_map]
  rfl

theorem FORWIFES_chain (family : GNode) (database : Database) :
    FORWIFES family database =
      (chainWithTag family "WIFE").filterMap (fun n => keyToPerson n.value database) := by
  unfold FORWIFES
  rw [← linesWithTag_map_node, List.filterMap_map]
  rfl

theorem personErrors_nil_iff_linked (person : GNode) (database : Database) :
    personErrors person database = [] ↔ personLinked person database := by
  rw [personErrors_eq_nil_iff, danglingErrors_eq_nil_iff, childErrors_eq_nil_iff,
    spouseErrors_eq_nil_iff]
  unfold personLinked FORFAMCS FORFAMSS FORFAMILIES
  constructor
  · rintro ⟨hd, hc, hs⟩
    constructor
    · intro n hn
      obtain ⟨l, hl, rfl⟩ := (mem_chainWithTag_iff _ _ _).mp hn
      have h1 := hd ⟨keyToFamily l.node.value database, l.node.value, l⟩
        (List.mem_append_left _ (List.mem_map.mpr ⟨l, hl, rfl⟩))
      cases hf : keyToFamily l.node.value database with
      | none => exact absurd hf h1
      | some f =>
        exact ⟨f, rfl, hc _ (List.mem_map.mpr ⟨l, hl, rfl⟩) f hf⟩
    · intro n hn
      obtain ⟨l, hl, rfl⟩ := (mem_chainWithTag_iff _ _ _).mp hn
      have h1 := hd ⟨keyToFamily l.node.value database, l.node.value, l⟩
        (List.mem_append_right _ (List.mem_map.mpr ⟨l, hl, rfl⟩))
      cases hf : keyToFamily l.node.value database with
      | none => exact absurd hf h1
      | some f =>
        exact ⟨f, rfl, hs f (List.mem_filterMap.mpr ⟨l, hl, hf⟩)⟩
  · rintro ⟨hc, hs⟩
    refine ⟨?_, ?_, ?_⟩
    · intro link hlink
      rw [List.mem_append, List.mem_map, List.mem_map] at hlink
      rcases hlink with ⟨l, hl, rfl⟩ | ⟨l, hl, rfl⟩
      · obtain ⟨f, hf, _⟩ := hc l.node ((mem_chainWithTag_iff _ _ _).mpr ⟨l, hl, rfl⟩)
        simp [hf]
      · obtain ⟨f, hf, _⟩ := hs l.node ((mem_chainWithTag_iff _ _ _).mpr ⟨l, hl, rfl⟩)
        simp [hf]
    · intro link hlink family hfam
      rw [List.mem_map] at hlink
      obtain ⟨l, hl, rfl⟩ := hlink
      obtain ⟨f, hf, hcount⟩ := hc l.node ((mem_chainWithTag_iff _ _ _).mpr ⟨l, hl, rfl⟩)
      simp only at hfam
      rw [hf] at hfam
      simp only [Option.some.injEq] at hfam
      rw [← hfam]
      exact hcount
    · intro family hfam
      rw [List.mem_filterMap] at hfam
      obtain ⟨l, hl, hlf⟩ := hfam
      obtain ⟨f, hf, hrole⟩ := hs l.node ((mem_chainWithTag_iff _ _ _).mpr ⟨l, hl, rfl⟩)
      rw [hf] at hlf
      simp only [Option.some.injEq] at hlf
      rw [← hlf]
      exact hrole
theorem searchHashTable_update (index : RecordIndex) (root : GNode) (key : Option String) :
    searchHashTable (updateRecord index root) key =
      (searchHashTable index key).map (fun el =>
        if sameNode el.root root then { root := root, lineNumber := el.lineNumber } else el) := by
  cases key with
  | none => rfl
  | some k =>
    unfold searchHashTable updateRecord
    simp only
    rw [List.find?_map]
    congr 1
    congr 1
    funext el
    simp only [Function.comp]
    by_cases h : sameNode el.root root = true
    · have hk : el.root.key = root.key := by simpa [sameNode] using h
      simp [h, hk]
    · simp [h]

theorem keyToPerson_update (database database' : Database) (root : GNode)
    (h : database'.personIndex = updateRecord database.personIndex root)
    (v : Option String) :
    (keyToPerson v database').map GNode.key = (keyToPerson v database).map GNode.key := by
  unfold keyToPerson
  rw [h, searchHashTable_update]
  cases hs : searchHashTable database.personIndex v with
  | none => rfl
  | some el =>
    simp only [Option.map_some', Option.some.injEq]
    by_cases hn : sameNode el.root root = true
    · have hk : el.root.key = root.key := by simpa [sameNode] using hn
      simp [hn, hk]
    · simp [hn]

theorem keyToFamily_update (database database' : Database) (root : GNode)
    (h : database'.familyIndex = updateRecord database.familyIndex root)
    (v : Option String) :
    keyToFamily v database' =
      (keyToFamily v database).map (fun f => if sameNode f root then root else f) := by
  unfold keyToFamily
  rw [h, searchHashTable_update]
  cases hs : searchHashTable database.familyIndex v with
  | none => rfl
  | some el =>
    simp only [Option.map_some', Option.some.injEq]
    by_cases hn : sameNode el.root root = true
    · simp [hn]
    · simp [hn]

theorem sameNodeOpt_congr (a b : GNode) (x y : Option GNode) (hab : a.key = b.key)
    (hxy : x.map GNode.key = y.map GNode.key) : sameNodeOpt a x = sameNodeOpt b y := by
  cases x with
  | none =>
    cases y with
    | none => rfl
    | some y => simp at hxy
  | some x =>
    cases y with
    | none => simp at hxy
    | some y =>
      simp only [Option.map_some', Option.some.injEq] at hxy
      simp only [sameNodeOpt, sameNode, hab, hxy]

theorem chilCount_congr (p p' f f' : GNode) (database database' : Database)
    (hp : p'.key = p.key) (hchain : chainWithTag f' "CHIL" = chainWithTag f "CHIL")
    (hres : ∀ v, (keyToPerson v database').map GNode.key =
      (keyToPerson v database).map GNode.key) :
    chilCount p' f' database' = chilCount p f database := by
  rw [chilCount_chain, chilCount_chain, hchain]
  congr 1
  apply List.filter_congr
  intro n _
  exact sameNodeOpt_congr _ _ _ _ hp (hres n.value)

theorem chilCount_insert (p p' f f' new : GNode) (database database' : Database) (pos : Nat)
    (hp : p'.key = p.key)
    (hchain : chainWithTag f' "CHIL" =
      (chainWithTag f "CHIL").take pos ++ new :: (chainWithTag f "CHIL").drop pos)
    (hres : ∀ v, (keyToPerson v database').map GNode.key =
      (keyToPerson v database).map GNode.key) :
    chilCount p' f' database' = chilCount p f database +
      (if sameNodeOpt p' (keyToPerson new.value database') then 1 else 0) := by
  have hcongr : ∀ l : List GNode,
      l.filter (fun n => sameNodeOpt p' (keyToPerson n.value database')) =
        l.filter (fun n => sameNodeOpt p (keyToPerson n.value database)) := by
    intro l
    apply List.filter_congr
    intro n _
    exact sameNodeOpt_congr _ _ _ _ hp (hres n.value)
  rw [chilCount_chain, chilCount_chain, hchain, List.filter_append, List.filter_cons,
    hcongr, hcongr]
  have h := congrArg
    (fun l => (l.filter (fun n => sameNodeOpt p (keyToPerson n.value database))).length)
    (List.take_append_drop pos (chainWithTag f "CHIL"))
  simp only [List.filter_append, List.length_append] at h
  cases hn : sameNodeOpt p' (keyToPerson new.value database') with
  | true =>
    simp only [if_true, List.length_append, List.length_cons]
    omega
  | false =>
    simp only [Bool.false_eq_true, if_false, List.length_append]
    omega

theorem head_filterMap_congr (l : List GNode) (g g' : GNode → Option GNode)
    (h : ∀ n, (g' n).map GNode.key = (g n).map GNode.key) :
    (l.filterMap g').head?.map GNode.key = (l.filterMap g).head?.map GNode.key := by
  induction l with
  | nil => rfl
  | cons n rest ih =>
    have hn := h n
    cases hg : g n with
    | none =>
      cases hg' : g' n with
      | none => simp only [List.filterMap_cons, hg, hg', ih]
      | some y =>
        rw [hg, hg'] at hn
        simp at hn
    | some x =>
      cases hg' : g' n with
      | none =>
        rw [hg, hg'] at hn
        simp at hn
      | some y =>
        rw [hg, hg'] at hn
        simp only [List.filterMap_cons, hg, hg', List.head?_cons]
        exact hn

theorem find?_eq_head?_filter (l : List GNode) (p : GNode → Bool) :
    l.find? p = (l.filter p).head? := by
  induction l with
  | nil => rfl
  | cons n rest ih =>
    cases hp : p n with
    | true => simp only [List.find?_cons, List.filter_cons, hp, if_true, List.head?_cons]
    | false =>
      simp only [List.find?_cons, List.filter_cons, hp, Bool.false_eq_true, if_false]
      exact ih

theorem SEXV_congr (p p' : GNode) (h : chainWithTag p' "SEX" = chainWithTag p "SEX") :
    SEXV p' = SEXV p := by
  unfold SEXV findTag
  rw [find?_eq_head?_filter, find?_eq_head?_filter]
  unfold chainWithTag at h
  rw [h]

theorem NAME_congr (p p' : GNode) (h : chainWithTag p' "NAME" = chainWithTag p "NAME") :
    NAME p' = NAME p := by
  unfold NAME findTag
  rw [find?_eq_head?_filter, find?_eq_head?_filter]
  unfold chainWithTag at h
  rw [h]
theorem addChildToFamily_chains (child family : GNode) (index : Int) (database : Database) :
    ∃ family' child', addChildToFamily child family index database =
        some (true, family', child') ∧
      family'.key = family.key ∧ child'.key = child.key ∧
      chainWithTag family' "HUSB" = chainWithTag family "HUSB" ∧
      chainWithTag family' "WIFE" = chainWithTag family "WIFE" ∧
      chainWithTag family' "CHIL" =
        (chainWithTag family "CHIL").take
            (childPosition (chainWithTag family "CHIL").length index) ++
          createGNode none "CHIL" child.key ::
            (chainWithTag family "CHIL").drop
              (childPosition (chainWithTag family "CHIL").length index) ∧
      chainWithTag child' "FAMC" =
        chainWithTag child "FAMC" ++ [createGNode none "FAMC" family.key] ∧
      chainWithTag child' "FAMS" = chainWithTag child "FAMS" ∧
      chainWithTag child' "SEX" = chainWithTag child "SEX" ∧
      chainWithTag child' "NAME" = chainWithTag child "NAME" := by
  have hH := filter_chainWithTag_same family "HUSB"
  have hW := filter_chainWithTag_same family "WIFE"
  have h1 := filter_chainWithTag_other family "HUSB" "REFN" (by decide)
  have h2 := filter_chainWithTag_other family "HUSB" "WIFE" (by decide)
  have h4 := filter_chainWithout family "HUSB" ["REFN", "HUSB", "WIFE", "CHIL"] (by decide)
  have h5 := filter_chainWithTag_other family "WIFE" "REFN" (by decide)
  have h6 := filter_chainWithTag_other family "WIFE" "HUSB" (by decide)
  have h8 := filter_chainWithout family "WIFE" ["REFN", "HUSB", "WIFE", "CHIL"] (by decide)
  have p1 := filter_chainWithTag_same child "FAMS"
  have p2 := filter_chainWithTag_same child "FAMC"
  have p0 := filter_chainWithTag_same child "SEX"
  have p3 := filter_chainWithTag_other child "FAMS" "NAME" (by decide)
  have p4 := filter_chainWithTag_other child "FAMS" "REFN" (by decide)
  have p5 := filter_chainWithTag_other child "FAMS" "SEX" (by decide)
  have p6 := filter_chainWithTag_other child "FAMS" "FAMC" (by decide)
  have p7 := filter_chainWithout child "FAMS" ["NAME", "REFN", "SEX", "FAMC", "FAMS"]
    (by decide)
  have p8 := filter_chainWithTag_other child "FAMC" "NAME" (by decide)
  have p9 := filter_chainWithTag_other child "FAMC" "REFN" (by decide)
  have p10 := filter_chainWithTag_other child "FAMC" "SEX" (by decide)
  have p11 := filter_chainWithTag_other child "FAMC" "FAMS" (by decide)
  have p12 := filter_chainWithout child "FAMC" ["NAME", "REFN", "SEX", "FAMC", "FAMS"]
    (by decide)
  have q1 := filter_chainWithTag_other child "SEX" "NAME" (by decide)
  have q2 := filter_chainWithTag_other child "SEX" "REFN" (by decide)
  have q3 := filter_chainWithTag_other child "SEX" "FAMC" (by decide)
  have q4 := filter_chainWithTag_other child "SEX" "FAMS" (by decide)
  have q5 := filter_chainWithout child "SEX" ["NAME", "REFN", "SEX", "FAMC", "FAMS"]
    (by decide)
  have n0 := filter_chainWithTag_same child "NAME"
  have n1 := filter_chainWithTag_other child "NAME" "REFN" (by decide)
  have n2 := filter_chainWithTag_other child "NAME" "SEX" (by decide)
  have n3 := filter_chainWithTag_other child "NAME" "FAMC" (by decide)
  have n4 := filter_chainWithTag_other child "NAME" "FAMS" (by decide)
  have n5 := filter_chainWithout child "NAME" ["NAME", "REFN", "SEX", "FAMC", "FAMS"]
    (by decide)
  have hchilH : ∀ l : List GNode, (∀ n ∈ l, n.tag = "CHIL") →
      l.filter (fun n => n.tag == "HUSB") = [] := by
    intro l hl
    rw [List.filter_eq_nil_iff]
    intro n hn
    simp [hl n hn]
  have hchilW : ∀ l : List GNode, (∀ n ∈ l, n.tag = "CHIL") →
      l.filter (fun n => n.tag == "WIFE") = [] := by
    intro l hl
    rw [List.filter_eq_nil_iff]
    intro n hn
    simp [hl n hn]
  have htag := chil_chain_tag child family
    (childPosition (chainWithTag family "CHIL").length index)
  refine ⟨_, _, addChildToFamily_eq child family index database, rfl, rfl, ?_, ?_, ?_, ?_,
    ?_, ?_, ?_⟩
  · rw [chainWithTag_joinFamily]
    simp only [h1, h2, h4, hH, hchilH _ htag, List.nil_append, List.append_nil]
  · rw [chainWithTag_joinFamily]
    simp only [h5, h6, h8, hW, hchilW _ htag, List.nil_append, List.append_nil]
  · exact chainWithTag_joinFamily_chil _ _ htag
  · rw [chainWithTag_joinPerson]
    simp only [List.filter_append, p2, p8, p9, p10, p11, p12]
    simp [createGNode, GNode.tag]
  · rw [chainWithTag_joinPerson]
    simp only [List.filter_append, p1, p3, p4, p5, p6, p7]
    simp [createGNode, GNode.tag]
  · rw [chainWithTag_joinPerson]
    simp only [List.filter_append, p0, q1, q2, q3, q4, q5]
    simp [createGNode, GNode.tag]
  · rw [chainWithTag_joinPerson]
    simp only [List.filter_append, n0, n1, n2, n3, n4, n5]
    simp [createGNode, GNode.tag]

/-- The families a key resolves to after one family record was edited in place. -/
theorem keyToFamily_after (database database' : Database) (family family' : GNode)
    (hfk : family'.key = family.key)
    (hF : database'.familyIndex = updateRecord database.familyIndex family')
    (hfam : keyToFamily family.key database = some family)
    (v : Option String) (f : GNode) (hf : keyToFamily v database = some f) :
    (sameNode f family' = true ∧ f = family ∧ keyToFamily v database' = some family') ∨
    (sameNode f family' = false ∧ keyToFamily v database' = some f) := by
  have hupd := keyToFamily_update database database' family' hF v
  rw [hf] at hupd
  simp only [Option.map_some'] at hupd
  cases hs : sameNode f family' with
  | true =>
    left
    have hkey : f.key = family.key := by
      have : f.key = family'.key := by simpa [sameNode] using hs
      rw [this, hfk]
    have hv : f.key = v := (keyToFamily_some database v f hf).1
    have : keyToFamily v database = some family := by
      rw [← hv, hkey]
      exact hfam
    rw [hf] at this
    simp only [Option.some.injEq] at this
    refine ⟨rfl, this, ?_⟩
    rw [hupd, hs]
    rfl
  | false =>
    right
    refine ⟨rfl, ?_⟩
    rw [hupd, hs]
    rfl

/-- No CHIL line of the family resolves to the child when none has its key as value. -/
theorem chilCount_zero_of_new (child family : GNode) (database : Database)
    (hnew : child.key ∉ valuesWithTag family "CHIL") :
    chilCount child family database = 0 := by
  rw [chilCount_chain, List.length_eq_zero, List.filter_eq_nil_iff]
  intro n hn hsame
  apply hnew
  unfold valuesWithTag
  rw [List.mem_map]
  refine ⟨n, hn, ?_⟩
  cases hq : keyToPerson n.value database with
  | none =>
    rw [hq] at hsame
    simp [sameNodeOpt] at hsame
  | some q =>
    rw [hq] at hsame
    have hqk := (keyToPerson_some database _ q hq).1
    have : child.key = q.key := by simpa [sameNodeOpt, sameNode] using hsame
    rw [this, hqk]
theorem familyToHusband_congr (f f' : GNode) (database database' : Database)
    (hchain : chainWithTag f' "HUSB" = chainWithTag f "HUSB")
    (hres : ∀ v, (keyToPerson v database').map GNode.key =
      (keyToPerson v database).map GNode.key) :
    (familyToHusband f' database').map GNode.key =
      (familyToHusband f database).map GNode.key := by
  unfold familyToHusband
  rw [FORHUSBS_chain, FORHUSBS_chain, hchain]
  exact head_filterMap_congr _ _ _ (fun n => hres n.value)

theorem familyToWife_congr (f f' : GNode) (database database' : Database)
    (hchain : chainWithTag f' "WIFE" = chainWithTag f "WIFE")
    (hres : ∀ v, (keyToPerson v database').map GNode.key =
      (keyToPerson v database).map GNode.key) :
    (familyToWife f' database').map GNode.key =
      (familyToWife f database).map GNode.key := by
  unfold familyToWife
  rw [FORWIFES_chain, FORWIFES_chain, hchain]
  exact head_filterMap_congr _ _ _ (fun n => hres n.value)

/-- A FAMS line that passes the spouse check before the edit passes it afterwards. -/
theorem role_after (database database' : Database) (family family' child' p p' : GNode)
    (hfk : family'.key = family.key)
    (hH : chainWithTag family' "HUSB" = chainWithTag family "HUSB")
    (hW : chainWithTag family' "WIFE" = chainWithTag family "WIFE")
    (hP : database'.personIndex = updateRecord database.personIndex child')
    (hF : database'.familyIndex = updateRecord database.familyIndex family')
    (hfam : keyToFamily family.key database = some family)
    (hpk : p'.key = p.key) (hsex : SEXV p' = SEXV p)
    (v : Option String)
    (hrole : ∃ f, keyToFamily v database = some f ∧
      ((SEXV p = SexType.sexMale ∧ sameNodeOpt p (familyToHusband f database) = true) ∨
        (SEXV p = SexType.sexFemale ∧ sameNodeOpt p (familyToWife f database) = true))) :
    ∃ f', keyToFamily v database' = some f' ∧
      ((SEXV p' = SexType.sexMale ∧ sameNodeOpt p' (familyToHusband f' database') = true) ∨
        (SEXV p' = SexType.sexFemale ∧
          sameNodeOpt p' (familyToWife f' database') = true)) := by
  obtain ⟨f, hf, hr⟩ := hrole
  have hres := keyToPerson_update database database' child' hP
  have key : ∀ f', chainWithTag f' "HUSB" = chainWithTag f "HUSB" →
      chainWithTag f' "WIFE" = chainWithTag f "WIFE" →
      ((SEXV p' = SexType.sexMale ∧ sameNodeOpt p' (familyToHusband f' database') = true) ∨
        (SEXV p' = SexType.sexFemale ∧
          sameNodeOpt p' (familyToWife f' database') = true)) := by
    intro f' h1 h2
    rw [hsex]
    rcases hr with ⟨hs, hn⟩ | ⟨hs, hn⟩
    · left
      refine ⟨hs, ?_⟩
      rw [sameNodeOpt_congr p' p _ _ hpk (familyToHusband_congr f f' database database' h1 hres)]
      exact hn
    · right
      refine ⟨hs, ?_⟩
      rw [sameNodeOpt_congr p' p _ _ hpk (familyToWife_congr f f' database database' h2 hres)]
      exact hn
  rcases keyToFamily_after database database' family family' hfk hF hfam v f hf with
    ⟨_, hff, hnew⟩ | ⟨_, hnew⟩
  · refine ⟨family', hnew, key family' ?_ ?_⟩
    · rw [hH, hff]
    · rw [hW, hff]
  · exact ⟨f, hnew, key f rfl rfl⟩
/-- A person that passes the checks of validatePerson before addChildToFamily passes
them afterwards, when the child was no child of the family yet. -/
theorem personLinked_after (database database' : Database)
    (child family child' family' : GNode) (pos : Nat)
    (hfk : family'.key = family.key) (hck : child'.key = child.key)
    (hH : chainWithTag family' "HUSB" = chainWithTag family "HUSB")
    (hW : chainWithTag family' "WIFE" = chainWithTag family "WIFE")
    (hC : chainWithTag family' "CHIL" =
      (chainWithTag family "CHIL").take pos ++
        createGNode none "CHIL" child.key :: (chainWithTag family "CHIL").drop pos)
    (hFAMC : chainWithTag child' "FAMC" =
      chainWithTag child "FAMC" ++ [createGNode none "FAMC" family.key])
    (hFAMS : chainWithTag child' "FAMS" = chainWithTag child "FAMS")
    (hSEX : chainWithTag child' "SEX" = chainWithTag child "SEX")
    (hP : database'.personIndex = updateRecord database.personIndex child')
    (hF : database'.familyIndex = updateRecord database.familyIndex family')
    (hfam : keyToFamily family.key database = some family)
    (hchild : keyToPerson child.key database = some child)
    (hnew : child.key ∉ valuesWithTag family "CHIL")
    (hchildOK : personLinked child database)
    (p : GNode) (hp : personLinked p database) :
    personLinked (if sameNode p child' then child' else p) database' := by
  have hres := keyToPerson_update database database' child' hP
  have hnewline : ∀ q : GNode,
      sameNodeOpt q (keyToPerson (createGNode none "CHIL" child.key).value database') =
        (q.key == child.key) := by
    intro q
    have h := hres child.key
    rw [hchild] at h
    show sameNodeOpt q (keyToPerson child.key database') = _
    cases hr : keyToPerson child.key database' with
    | none =>
      rw [hr] at h
      simp at h
    | some r =>
      rw [hr] at h
      simp only [Option.map_some', Option.some.injEq] at h
      simp only [sameNodeOpt, sameNode, h]
  have hsame : sameNode family family' = true := by simp [sameNode, hfk]
  by_cases hs : sameNode p child' = true
  · simp only [hs, if_true]
    constructor
    · intro n hn
      rw [hFAMC, List.mem_append, List.mem_singleton] at hn
      rcases hn with hn | hn
      · obtain ⟨f, hf, hcount⟩ := hchildOK.1 n hn
        rcases keyToFamily_after database database' family family' hfk hF hfam n.value f hf
          with ⟨_, hff, _⟩ | ⟨_, hnewf⟩
        · rw [hff, chilCount_zero_of_new child family database hnew] at hcount
          omega
        · refine ⟨f, hnewf, ?_⟩
          rw [chilCount_congr child child' f f database database' hck rfl hres]
          exact hcount
      · rw [hn]
        show ∃ f, keyToFamily family.key database' = some f ∧ _
        rcases keyToFamily_after database database' family family' hfk hF hfam family.key
          family hfam with ⟨_, _, hnewf⟩ | ⟨hne, _⟩
        · refine ⟨family', hnewf, ?_⟩
          rw [chilCount_insert child child' family family' _ database database' pos hck hC hres,
            chilCount_zero_of_new child family database hnew, hnewline]
          simp [hck]
        · rw [hsame] at hne
          simp at hne
    · intro n hn
      rw [hFAMS] at hn
      exact role_after database database' family family' child' child child' hfk hH hW hP hF
        hfam hck (SEXV_congr child child' hSEX) n.value (hchildOK.2 n hn)
  · have hs' : sameNode p child' = false := by
      cases h : sameNode p child' with
      | true => exact absurd h hs
      | false => rfl
    rw [hs']
    simp only [Bool.false_eq_true, if_false]
    have hpk : ¬ p.key = child.key := by
      intro h
      apply hs
      simp [sameNode, h, hck]
    constructor
    · intro n hn
      obtain ⟨f, hf, hcount⟩ := hp.1 n hn
      rcases keyToFamily_after database database' family family' hfk hF hfam n.value f hf
        with ⟨_, hff, hnewf⟩ | ⟨_, hnewf⟩
      · refine ⟨family', hnewf, ?_⟩
        rw [chilCount_insert p p family family' _ database database' pos rfl hC hres,
          hnewline, ← hff, hcount]
        simp [hpk]
      · refine ⟨f, hnewf, ?_⟩
        rw [chilCount_congr p p f f database database' rfl rfl hres]
        exact hcount
    · intro n hn
      exact role_after database database' family family' child' p p hfk hH hW hP hF
        hfam rfl rfl n.value (hp.2 n hn)
/-- C30: adding a new child keeps a valid database valid. For a database on which
validateDatabase with an empty log returns true, a family and a person that their keys
resolve to in the indexes, the person not referenced by a CHIL line of the family yet:
addChildToFamily returns, and on the database with the two edited records
validateDatabase with an empty log returns true again and logs nothing. -/
theorem addChildToFamily_keeps_valid (child family : GNode) (index : Int)
    (database : Database)
    (hvalid : (validateDatabase database []).map (fun r => r.1) = some true)
    (hfam : keyToFamily family.key database = some family)
    (hchild : keyToPerson child.key database = some child)
    (hnew : child.key ∉ valuesWithTag family "CHIL") :
    ∃ database', databaseAfterAddChild child family index database = some database' ∧
      validateDatabase database' [] = some (true, database', []) := by
  obtain ⟨family', child', hrun, hfk, hck, hH, hW, hC, hFAMC, hFAMS, hSEX, hNAME⟩ :=
    addChildToFamily_chains child family index database
  have hall := personErrors_nil_of_valid database hvalid
  obtain ⟨_, elc, helc, hroot⟩ := keyToPerson_some database _ child hchild
  have hchildOK : personLinked child database := by
    rw [← hroot]
    exact (personErrors_nil_iff_linked _ _).mp (hall elc helc).2
  have hchildName : (NAME child').isSome = true := by
    rw [NAME_congr child child' hNAME, ← hroot]
    have := (hall elc helc).1
    unfold personRuns at this
    simp only [Bool.and_eq_true] at this
    exact this.1.1
  have hper : ∀ el' ∈ updateRecord database.personIndex child',
      personErrors el'.root
        { personIndex := updateRecord database.personIndex child',
          familyIndex := updateRecord database.familyIndex family',
          lastSegment := database.lastSegment } = [] ∧ (NAME el'.root).isSome = true := by
    intro el' hel'
    simp only [updateRecord, List.mem_map] at hel'
    obtain ⟨el, hel, rfl⟩ := hel'
    rw [personErrors_nil_iff_linked]
    have h := personLinked_after database
      { personIndex := updateRecord database.personIndex child',
        familyIndex := updateRecord database.familyIndex family',
        lastSegment := database.lastSegment }
      child family child' family' _ hfk hck hH hW hC hFAMC hFAMS hSEX rfl rfl hfam hchild
      hnew hchildOK el.root ((personErrors_nil_iff_linked _ _).mp (hall el hel).2)
    have hname : (NAME el.root).isSome = true := by
      have := (hall el hel).1
      unfold personRuns at this
      simp only [Bool.and_eq_true] at this
      exact this.1.1
    by_cases hs : sameNode el.root child' = true
    · simp only [hs, if_true] at h ⊢
      exact ⟨h, hchildName⟩
    · have hs' : sameNode el.root child' = false := by
        cases hb : sameNode el.root child' with
        | true => exact absurd hb hs
        | false => rfl
      rw [hs'] at h ⊢
      simp only [Bool.false_eq_true, if_false] at h ⊢
      exact ⟨h, hname⟩
  refine ⟨{ personIndex := updateRecord database.personIndex child',
            familyIndex := updateRecord database.familyIndex family',
            lastSegment := database.lastSegment }, ?_, ?_⟩
  · unfold databaseAfterAddChild
    rw [hrun]
    rfl
  · have hnamed : allNamed
        { personIndex := updateRecord database.personIndex child',
          familyIndex := updateRecord database.familyIndex family',
          lastSegment := database.lastSegment } = true := by
      unfold allNamed
      rw [List.all_eq_true]
      intro el' hel'
      exact (hper el' hel').2
    have hfit : allFit
        { personIndex := updateRecord database.personIndex child',
          familyIndex := updateRecord database.familyIndex family',
          lastSegment := database.lastSegment } = true := by
      unfold allFit
      rw [List.all_eq_true]
      intro el' hel'
      apply linksFit_of_resolved
      have hp := (hper el' hel').1
      rw [personErrors_eq_nil_iff] at hp
      exact (danglingErrors_eq_nil_iff _ _).mp hp.1
    have hnil : databaseErrors
        { personIndex := updateRecord database.personIndex child',
          familyIndex := updateRecord database.familyIndex family',
          lastSegment := database.lastSegment } = [] := by
      unfold databaseErrors
      rw [List.flatten_eq_nil_iff]
      intro l hl
      rw [List.mem_map] at hl
      obtain ⟨el', hel', rfl⟩ := hl
      exact (hper el' hel').1
    rw [validateDatabase_eq, databaseRuns_of_named _ hnamed hfit, hnil]
    rfl

/-- C30 (witness): Bea, `@I7@`, child in `@F2@`, becomes a child in `@F1@` as well; the
database of the two families is valid before and after. -/
theorem addChildToFamily_keeps_valid_witness :
    (validateDatabase toyDatabaseTwoFamilies []).map (fun r => r.1) = some true ∧
    bea.key ∉ valuesWithTag fam1 "CHIL" ∧
    (∃ database', databaseAfterAddChild bea fam1 1 toyDatabaseTwoFamilies = some database' ∧
      validateDatabase database' [] = some (true, database', [])) ∧
    (databaseAfterAddChild bea fam1 1 toyDatabaseTwoFamilies).map
        (fun d => (d.familyIndex.map (fun el => valuesWithTag el.root "CHIL"),
          d.personIndex.map (fun el => valuesWithTag el.root "FAMC"))) =
      some ([[some "@I3@", some "@I7@"], [some "@I7@"]],
        [[], [], [], [some "@F2@", some "@F1@"], [some "@F1@"]]) :=
  ⟨by decide, by decide,
    addChildToFamily_keeps_valid bea fam1 1 toyDatabaseTwoFamilies (by decide) rfl rfl
      (by decide),
    by decide⟩

/-! ## Termination and cost of createPartition -/

theorem pendingLinks_mono (records : List GNode) (visited : StringSet) (k : String) :
    pendingLinks records (addToSet visited k) ≤ pendingLinks records visited := by
  unfold pendingLinks
  induction records with
  | nil => simp
  | cons r rs ih =>
    simp only [List.map_cons, List.sum_cons]
    refine Nat.add_le_add ?_ ih
    cases hk : r.key with
    | none => simp
    | some k' =>
      by_cases h1 : isInSet (addToSet visited k) k' = true
      · simp [h1]
      · have h2 : isInSet visited k' = false := by
          cases h2 : isInSet visited k' with
          | false => rfl
          | true =>
            exfalso
            apply h1
            rw [isInSet_iff] at h2 ⊢
            exact List.mem_cons_of_mem _ h2
        simp [h1, h2]

theorem pendingLinks_visit (records : List GNode) (visited : StringSet) (k : String)
    (x : GNode) (hx : x ∈ records) (hk : x.key = some k) (hv : isInSet visited k = false) :
    pendingLinks records (addToSet visited k) + linkLines x ≤ pendingLinks records visited := by
  induction records with
  | nil => simp at hx
  | cons r rs ih =>
    rw [List.mem_cons] at hx
    rcases hx with h | h
    · subst h
      have hm := pendingLinks_mono rs visited k
      have hin : isInSet (addToSet visited k) k = true := by
        rw [isInSet_iff]
        exact List.mem_cons_self _ _
      unfold pendingLinks at hm ⊢
      simp only [List.map_cons, List.sum_cons, hk, hin, hv, if_true]
      simp only [Bool.false_eq_true, if_false]
      omega
    · have ih' := ih h
      have hm := pendingLinks_mono [r] visited k
      unfold pendingLinks at hm ih' ⊢
      simp only [List.map_cons, List.map_nil, List.sum_cons, List.sum_nil, Nat.add_zero]
        at hm ih' ⊢
      omega

theorem pendingLinks_le (records : List GNode) (visited : StringSet) :
    pendingLinks records visited ≤ totalLinkLines records := by
  unfold pendingLinks totalLinkLines
  induction records with
  | nil => simp
  | cons r rs ih =>
    simp only [List.map_cons, List.sum_cons]
    refine Nat.add_le_add ?_ ih
    cases hk : r.key with
    | none => simp
    | some k =>
      by_cases h : isInSet visited k = true
      · simp [h]
      · simp [h]

/-- The link lines of a record that are found in the index are among its link lines. -/
theorem resolved_le_linkLines (index : GNodeIndex) (x : GNode) :
    (x.children.filterMap (linkTarget index x)).length ≤ linkLines x := by
  unfold linkLines
  induction x.children with
  | nil => simp
  | cons c rest ih =>
    by_cases ht : (linkTags x).contains c.tag = true
    · cases hl : linkTarget index x c with
      | none =>
        simp only [List.filter_cons, ht, if_true, List.filterMap_cons, hl, List.length_cons]
        omega
      | some y =>
        simp only [List.filter_cons, ht, if_true, List.filterMap_cons, hl, List.length_cons]
        omega
    · have hl : linkTarget index x c = none := by
        unfold linkTarget
        rw [if_neg ht]
      simp only [List.filter_cons, ht, if_false, List.filterMap_cons, hl]
      exact ih

/-- The loop with the counts is the loop of createPartition. -/
theorem createPartitionLoopCount_fst (index : GNodeIndex) (fuel : Nat) (st : PartitionState)
    (count : PartitionCount) :
    (createPartitionLoopCount index fuel st count).map (fun r => r.1) =
      createPartitionLoop index fuel st := by
  induction fuel generalizing st count with
  | zero => rfl
  | succ fuel ih =>
    unfold createPartitionLoopCount createPartitionLoop
    cases hq : getAndRemoveLastListElement st.queue with
    | mk last queue =>
      cases last with
      | none => rfl
      | some root => exact ih _ _
/-- One iteration of the loop of createPartition keeps the invariant of the counts. -/
theorem countRecord_inv (index : GNodeIndex) (records : List GNode) (visited : StringSet)
    (bound : Nat) (hindex : ∀ y ∈ index, y ∈ records) (x : GNode) (st : PartitionState)
    (count : PartitionCount) (hx : x ∈ records)
    (hinv : CountInv records visited bound st count) :
    CountInv records visited bound (processRecord index x st)
      (countRecord index x st count) := by
  cases hk : x.key with
  | none =>
    rw [processRecord_skip index x st (Or.inl hk)]
    unfold countRecord
    simp only [hk]
    exact hinv
  | some k =>
    cases hv : isInSet st.visited k with
    | true =>
      rw [processRecord_skip index x st (Or.inr ⟨k, hk, hv⟩)]
      unfold countRecord
      simp only [hk, hv, if_true]
      exact hinv
    | false =>
      have hnot : k ∉ st.visited := by
        intro h
        rw [← isInSet_iff, hv] at h
        simp at h
      rw [processRecord_expand index x st k hk hv]
      unfold countRecord
      simp only [hk, hv, Bool.false_eq_true, if_false]
      refine ⟨?_, ?_, ?_, ?_, ?_, ?_, ?_⟩
      · simp only [addToSet, hinv.visited_eq, List.cons_append]
      · rw [List.nodup_cons]
        refine ⟨?_, hinv.nodup⟩
        intro h
        apply hnot
        rw [hinv.visited_eq]
        exact List.mem_append_left _ h
      · intro k' hk'
        rw [List.mem_cons] at hk'
        rcases hk' with h | h
        · rw [h]
          intro hin
          apply hnot
          rw [hinv.visited_eq]
          exact List.mem_append_right _ hin
        · exact hinv.fresh k' h
      · simp only [List.map_cons, hk, hinv.keys]
      · intro y hy
        rw [List.mem_cons] at hy
        rcases hy with h | h
        · rw [h]
          exact hx
        · exact hinv.members y h
      · have h1 := pendingLinks_visit records st.visited k x hx hk hv
        have h2 := resolved_le_linkLines index x
        have h3 := hinv.bound
        simp only
        omega
      · intro y hy
        simp only [List.mem_append, List.mem_reverse, List.mem_filterMap] at hy
        rcases hy with ⟨c, _, hc⟩ | h
        · unfold linkTarget at hc
          split at hc
          · exact hindex y (searchRecordIndex_some index _ y hc).1
          · simp at hc
        · exact hinv.queue y h

/-- The loop of createPartition keeps the invariant of the counts. -/
theorem createPartitionLoopCount_inv (index : GNodeIndex) (records : List GNode)
    (visited : StringSet) (bound : Nat) (hindex : ∀ y ∈ index, y ∈ records) (fuel : Nat)
    (st fin : PartitionState) (count cfin : PartitionCount)
    (hrun : createPartitionLoopCount index fuel st count = some (fin, cfin))
    (hinv : CountInv records visited bound st count) :
    CountInv records visited bound fin cfin := by
  induction fuel generalizing st count with
  | zero => simp [createPartitionLoopCount] at hrun
  | succ fuel ih =>
    unfold createPartitionLoopCount getAndRemoveLastListElement at hrun
    cases hl : st.queue.getLast? with
    | none =>
      rw [hl] at hrun
      simp only [Option.some.injEq, Prod.mk.injEq] at hrun
      rw [← hrun.1, ← hrun.2]
      exact hinv
    | some x =>
      rw [hl] at hrun
      simp only at hrun
      have hsplit := getLast?_dropLast st.queue x hl
      have hxq : x ∈ st.queue := by
        rw [hsplit]
        simp
      have hinv0 : CountInv records visited bound
          { queue := st.queue.dropLast, visited := st.visited, partition := st.partition,
            log := st.log } count :=
        ⟨hinv.visited_eq, hinv.nodup, hinv.fresh, hinv.keys, hinv.members, hinv.bound,
          fun y hy => hinv.queue y (List.mem_of_mem_dropLast hy)⟩
      exact ih _ _ hrun
        (countRecord_inv index records visited bound hindex x _ count (hinv.queue x hxq) hinv0)

/-- The counts of a call of createPartition exist, and with them the invariant for the
records the queue draws from. -/
theorem createPartitionCount_inv (root : GNode) (gnodes : GNodeList) (index : GNodeIndex)
    (visited : StringSet) (log : ErrorLog) (records : List GNode)
    (hindex : ∀ y ∈ index, y ∈ records) (hroot : root ∈ records) :
    ∃ partition visited' log' count,
      createPartition root gnodes index visited log = some (partition, visited', log') ∧
      createPartitionCount root index visited log = some count ∧
      visited' = count.added ++ visited ∧ count.added.Nodup ∧
      (∀ k ∈ count.added, k ∉ visited) ∧
      count.expanded.map GNode.key = count.added.map some ∧
      (∀ x ∈ count.expanded, x ∈ records) ∧
      count.insertions ≤ 1 + totalLinkLines records := by
  obtain ⟨⟨partition, visited', log'⟩, hr⟩ := createPartition_some root gnodes index visited log
  have hfst := createPartitionLoopCount_fst index (createPartitionFuel root index)
    { queue := prependToList [] root, visited := visited, partition := [], log := log }
    { insertions := 1, added := [], expanded := [] }
  unfold createPartition at hr
  cases hloop : createPartitionLoopCount index (createPartitionFuel root index)
      { queue := prependToList [] root, visited := visited, partition := [], log := log }
      { insertions := 1, added := [], expanded := [] } with
  | none =>
    rw [hloop] at hfst
    rw [← hfst] at hr
    simp at hr
  | some r =>
    obtain ⟨fin, cfin⟩ := r
    rw [hloop] at hfst
    simp only [Option.map_some'] at hfst
    rw [← hfst] at hr
    simp only [Option.map_some', Option.some.injEq, Prod.mk.injEq] at hr
    have hinit : CountInv records visited (1 + pendingLinks records visited)
        { queue := prependToList [] root, visited := visited, partition := [], log := log }
        { insertions := 1, added := [], expanded := [] } :=
      ⟨rfl, List.nodup_nil, by simp, rfl, by simp, Nat.le_refl _, by
        intro y hy
        simp only [prependToList, List.mem_singleton] at hy
        rw [hy]
        exact hroot⟩
    have hfin := createPartitionLoopCount_inv index records visited _ hindex _ _ fin _ cfin
      hloop hinit
    refine ⟨partition, visited', log', cfin, ?_, ?_, ?_, hfin.nodup, hfin.fresh, hfin.keys,
      hfin.members, ?_⟩
    · unfold createPartition
      rw [← hfst]
      simp only [Option.map_some', Option.some.injEq, Prod.mk.injEq]
      exact hr
    · unfold createPartitionCount
      rw [hloop]
      rfl
    · rw [← hr.2.1]
      exact hfin.visited_eq
    · have h1 := hfin.bound
      have h2 := pendingLinks_le records visited
      omega
/-- The insertions the counts record for one iteration are the records the iteration
puts in the queue. -/
theorem countRecord_insertions (index : GNodeIndex) (x : GNode) (st : PartitionState)
    (count : PartitionCount) :
    (processRecord index x st).queue.length + count.insertions =
      st.queue.length + (countRecord index x st count).insertions := by
  cases hk : x.key with
  | none =>
    rw [processRecord_skip index x st (Or.inl hk)]
    unfold countRecord
    simp only [hk]
  | some k =>
    cases hv : isInSet st.visited k with
    | true =>
      rw [processRecord_skip index x st (Or.inr ⟨k, hk, hv⟩)]
      unfold countRecord
      simp only [hk, hv, if_true]
    | false =>
      rw [processRecord_expand index x st k hk hv]
      unfold countRecord
      simp only [hk, hv, Bool.false_eq_true, if_false, List.length_append, List.length_reverse]
      omega

/-- C31: createPartition terminates on every index, whatever cycles the links form: the
call returns, the visited set afterwards is the old one with the keys added on top, no
key is added twice or was visited before, the records expanded are the ones whose keys
were added, each once, and the number of queue insertions is at most 1 plus the link
lines of the root and of the records of the index, hence at most 1 plus the link lines
of the records of the index when the root is one of them. -/
theorem createPartition_terminates (root : GNode) (gnodes : GNodeList) (index : GNodeIndex)
    (visited : StringSet) (log : ErrorLog) :
    ∃ partition visited' log' count,
      createPartition root gnodes index visited log = some (partition, visited', log') ∧
      createPartitionCount root index visited log = some count ∧
      visited' = count.added ++ visited ∧ count.added.Nodup ∧
      (∀ k ∈ count.added, k ∉ visited) ∧
      count.expanded.map GNode.key = count.added.map some ∧
      count.expanded.Nodup ∧
      count.insertions ≤ 1 + linkLines root + totalLinkLines index ∧
      (root ∈ index → count.insertions ≤ 1 + totalLinkLines index) ∧
      (∀ x st c, (processRecord index x st).queue.length + c.insertions =
        st.queue.length + (countRecord index x st c).insertions) := by
  obtain ⟨partition, visited', log', count, h1, h2, h3, h4, h5, h6, _, h8⟩ :=
    createPartitionCount_inv root gnodes index visited log (root :: index)
      (fun y hy => List.mem_cons_of_mem _ hy) (List.mem_cons_self _ _)
  refine ⟨partition, visited', log', count, h1, h2, h3, h4, h5, h6, ?_, ?_, ?_,
    countRecord_insertions index⟩
  · apply List.Nodup.of_map GNode.key
    rw [h6]
    exact h4.map (fun a b h => Option.some.inj h)
  · have : totalLinkLines (root :: index) = linkLines root + totalLinkLines index := by
      simp [totalLinkLines]
    omega
  · intro hroot
    obtain ⟨_, _, _, count', _, g2, _, _, _, _, _, g8⟩ :=
      createPartitionCount_inv root gnodes index visited log index (fun y hy => hy) hroot
    rw [h2] at g2
    simp only [Option.some.injEq] at g2
    rw [g2]
    exact g8

/-- C31 (witness): the records of scenario S6, where every FAMS, FAMC, HUSB, WIFE and CHIL
link has its back link, so the links form cycles; from Tom the call makes 7 queue
insertions, with 10 link lines in the index, and adds four keys, each once. -/
theorem createPartition_terminates_witness :
    (∃ partition visited' log' count,
      createPartition tom (removeNonPersons twoFamilies) (createIndexOfGNodes twoFamilies)
        [] [] = some (partition, visited', log') ∧
      createPartitionCount tom (createIndexOfGNodes twoFamilies) [] [] = some count ∧
      visited' = count.added ++ [] ∧ count.added.Nodup ∧
      (∀ k ∈ count.added, k ∉ ([] : StringSet)) ∧
      count.expanded.map GNode.key = count.added.map some ∧
      count.expanded.Nodup ∧
      count.insertions ≤ 1 + linkLines tom + totalLinkLines (createIndexOfGNodes twoFamilies) ∧
      (tom ∈ createIndexOfGNodes twoFamilies →
        count.insertions ≤ 1 + totalLinkLines (createIndexOfGNodes twoFamilies)) ∧
      (∀ x st c, (processRecord (createIndexOfGNodes twoFamilies) x st).queue.length +
          c.insertions =
        st.queue.length + (countRecord (createIndexOfGNodes twoFamilies) x st c).insertions)) ∧
    tom ∈ createIndexOfGNodes twoFamilies ∧
    (createPartitionCount tom (createIndexOfGNodes twoFamilies) [] []).map
        (fun c => (c.insertions, c.added, c.expanded.map GNode.key)) =
      some (7, ["@I3@", "@I2@", "@F1@", "@I1@"],
        [some "@I3@", some "@I2@", some "@F1@", some "@I1@"]) ∧
    totalLinkLines (createIndexOfGNodes twoFamilies) = 10 :=
  ⟨createPartition_terminates tom (removeNonPersons twoFamilies)
      (createIndexOfGNodes twoFamilies) [] [],
    by
      rw [createIndexOfGNodes_eq]
      exact List.mem_filter.mpr ⟨by simp [twoFamilies], rfl⟩,
    by decide, by decide⟩

end DeadEnds
